import Mathlib

/-!
# sputnikMesh: audio-reactive modulation engine

A shallow embedding of `AudioReactivityManager` (src/src/AudioReactivityManager.cpp)
and of the part of `ParameterManager` (src/src/ParameterManager.cpp) it writes into.

Conventions of the embedding:

* `float` values of the engine state are exact rationals (`ℚ`): there rounding and
  overflow are not modelled. A `float` that may be NaN or infinite (a raw input sample)
  is a `FloatVal`. The definitions with the suffix `F32` repeat single computations of
  the engine in IEEE 754 binary32, with rounding, overflow and NaN.
* `sqrt` has no rational value in general, so a float computed as `sqrt r` is kept
  symbolically by its radicand (`SqrtVal`); theorems read it through `Real.sqrt`.
* `int` values are `Int`; conversions and additions that would leave the `int` range
  (undefined behaviour in C++) are not modelled.
* `std::vector<float>` is `List ℚ`; an out-of-range `operator[]` (undefined behaviour
  in C++) reads `0` and writes nothing. Theorems state the index bounds they need.
* Fixed-size C arrays are functions from `Fin n`.
* An `ofxXmlSettings` document holds the values that `getValue` returns for its tags;
  `saveToXml` stores a float as the value read back from its six-digit text.
* The amplitude vector of the transform is an input of `analyzeAudio` and `update`.
* Logging calls and the mutex are not modelled.
-/

namespace SputnikMesh

/-! ## ParameterManager -/

/-- Size of one parameter-lock track (`PARAM_LOCK_SIZE`, ParameterManager.h:7). -/
abbrev PARAM_LOCK_SIZE : Nat := 240

/-- Number of parameter-lock tracks (`PARAM_LOCK_COUNT`, ParameterManager.h:8). -/
abbrev PARAM_LOCK_COUNT : Nat := 16

/-- The members of `ParameterManager` that the audio engine reads or writes
(ParameterManager.h:261-314). Video, toggle, LFO-shape and MIDI members are never
touched by the setters below and are left out. -/
structure ParameterManager where
  lumaKeyLevel : ℚ
  xDisplace : ℚ
  yDisplace : ℚ
  zFrequency : ℚ
  xFrequency : ℚ
  yFrequency : ℚ
  zoom : ℚ
  scale : Int
  centerX : ℚ
  centerY : ℚ
  zLfoArg : ℚ
  zLfoAmp : ℚ
  xLfoArg : ℚ
  xLfoAmp : ℚ
  yLfoArg : ℚ
  yLfoAmp : ℚ
  rotateX : ℚ
  rotateY : ℚ
  rotateZ : ℚ
  globalXDisplace : ℚ
  globalYDisplace : ℚ
  strokeWeight : ℚ
  recordingEnabled : Bool
  currentStep : Int
  pLockValues : Fin PARAM_LOCK_COUNT → Fin PARAM_LOCK_SIZE → ℚ
  pLockSmoothedValues : Fin PARAM_LOCK_COUNT → ℚ

namespace ParameterManager

/-- The constructor `ParameterManager::ParameterManager` with the member initialisers
of ParameterManager.h:261-314: all parameters 0 except `scale = 100` and
`strokeWeight = 1`; the P-Lock arrays are zeroed. -/
def new : ParameterManager where
  lumaKeyLevel := 0
  xDisplace := 0
  yDisplace := 0
  zFrequency := 0
  xFrequency := 0
  yFrequency := 0
  zoom := 0
  scale := 100
  centerX := 0
  centerY := 0
  zLfoArg := 0
  zLfoAmp := 0
  xLfoArg := 0
  xLfoAmp := 0
  yLfoArg := 0
  yLfoAmp := 0
  rotateX := 0
  rotateY := 0
  rotateZ := 0
  globalXDisplace := 0
  globalYDisplace := 0
  strokeWeight := 1
  recordingEnabled := false
  currentStep := 0
  pLockValues := fun _ _ => 0
  pLockSmoothedValues := fun _ => 0

/-- Method `ParameterManager::recordParameter` (ParameterManager.cpp:155-165): while recording,
store the value in the current step of the parameter's P-Lock track. -/
def recordParameter (pm : ParameterManager) (paramIndex : Int) (value : ℚ) :
    ParameterManager :=
  if pm.recordingEnabled = true ∧ 0 ≤ paramIndex ∧ paramIndex < PARAM_LOCK_COUNT then
    if 0 ≤ pm.currentStep ∧ pm.currentStep < PARAM_LOCK_SIZE then
      { pm with pLockValues := fun i j =>
          if (i.val : Int) = paramIndex ∧ (j.val : Int) = pm.currentStep then value
          else pm.pLockValues i j }
    else pm
  else pm

/-- Method `getLumaKeyLevel` (ParameterManager.cpp:490-492). -/
def getLumaKeyLevel (pm : ParameterManager) : ℚ := pm.lumaKeyLevel + pm.pLockSmoothedValues 0

/-- Method `setLumaKeyLevel` with the default `recordable = true` (ParameterManager.cpp:494-499). -/
def setLumaKeyLevel (pm : ParameterManager) (value : ℚ) : ParameterManager :=
  recordParameter { pm with lumaKeyLevel := value } 0 value

/-- Method `getXDisplace` (ParameterManager.cpp:501-503). -/
def getXDisplace (pm : ParameterManager) : ℚ := pm.xDisplace + pm.pLockSmoothedValues 1

/-- Method `setXDisplace` with the default `recordable = true` (ParameterManager.cpp:505-510). -/
def setXDisplace (pm : ParameterManager) (value : ℚ) : ParameterManager :=
  recordParameter { pm with xDisplace := value } 1 value

/-- Method `getYDisplace` (ParameterManager.cpp:512-514). -/
def getYDisplace (pm : ParameterManager) : ℚ := pm.yDisplace + pm.pLockSmoothedValues 2

/-- Method `setYDisplace` (ParameterManager.cpp:516-521). -/
def setYDisplace (pm : ParameterManager) (value : ℚ) : ParameterManager :=
  recordParameter { pm with yDisplace := value } 2 value

/-- Method `getZFrequency` (ParameterManager.cpp:523-525). -/
def getZFrequency (pm : ParameterManager) : ℚ := pm.zFrequency + pm.pLockSmoothedValues 3

/-- Method `setZFrequency` (ParameterManager.cpp:527-532). -/
def setZFrequency (pm : ParameterManager) (value : ℚ) : ParameterManager :=
  recordParameter { pm with zFrequency := value } 3 value

/-- Method `getXFrequency` (ParameterManager.cpp:534-536). -/
def getXFrequency (pm : ParameterManager) : ℚ := pm.xFrequency + pm.pLockSmoothedValues 4

/-- Method `setXFrequency` (ParameterManager.cpp:538-543). -/
def setXFrequency (pm : ParameterManager) (value : ℚ) : ParameterManager :=
  recordParameter { pm with xFrequency := value } 4 value

/-- Method `getYFrequency` (ParameterManager.cpp:545-547). -/
def getYFrequency (pm : ParameterManager) : ℚ := pm.yFrequency + pm.pLockSmoothedValues 5

/-- Method `setYFrequency` (ParameterManager.cpp:549-554). -/
def setYFrequency (pm : ParameterManager) (value : ℚ) : ParameterManager :=
  recordParameter { pm with yFrequency := value } 5 value

/-- Method `getZoom` (ParameterManager.cpp:556-558). -/
def getZoom (pm : ParameterManager) : ℚ := pm.zoom + pm.pLockSmoothedValues 6

/-- Method `setZoom` (ParameterManager.cpp:560-565). -/
def setZoom (pm : ParameterManager) (value : ℚ) : ParameterManager :=
  recordParameter { pm with zoom := value } 6 value

/-- Method `getScale` (ParameterManager.cpp:567-569): an `int`, with no P-Lock overlay. -/
def getScale (pm : ParameterManager) : Int := pm.scale

/-- Method `setScale` (ParameterManager.cpp:571-577). -/
def setScale (pm : ParameterManager) (value : Int) : ParameterManager :=
  recordParameter { pm with scale := value } 7 (value : ℚ)

/-- Method `getCenterX` (ParameterManager.cpp:579-581). -/
def getCenterX (pm : ParameterManager) : ℚ := pm.centerX + pm.pLockSmoothedValues 8

/-- Method `setCenterX` (ParameterManager.cpp:583-588). -/
def setCenterX (pm : ParameterManager) (value : ℚ) : ParameterManager :=
  recordParameter { pm with centerX := value } 8 value

/-- Method `getCenterY` (ParameterManager.cpp:590-592). -/
def getCenterY (pm : ParameterManager) : ℚ := pm.centerY + pm.pLockSmoothedValues 9

/-- Method `setCenterY` (ParameterManager.cpp:594-599). -/
def setCenterY (pm : ParameterManager) (value : ℚ) : ParameterManager :=
  recordParameter { pm with centerY := value } 9 value

/-- Method `getZLfoArg` (ParameterManager.cpp:601-603). -/
def getZLfoArg (pm : ParameterManager) : ℚ := pm.zLfoArg + pm.pLockSmoothedValues 10

/-- Method `setZLfoArg` (ParameterManager.cpp:605-610). -/
def setZLfoArg (pm : ParameterManager) (value : ℚ) : ParameterManager :=
  recordParameter { pm with zLfoArg := value } 10 value

/-- Method `getZLfoAmp` (ParameterManager.cpp:612-614). -/
def getZLfoAmp (pm : ParameterManager) : ℚ := pm.zLfoAmp + pm.pLockSmoothedValues 11

/-- Method `setZLfoAmp` (ParameterManager.cpp:616-621). -/
def setZLfoAmp (pm : ParameterManager) (value : ℚ) : ParameterManager :=
  recordParameter { pm with zLfoAmp := value } 11 value

/-- Method `getXLfoArg` (ParameterManager.cpp:623-625). -/
def getXLfoArg (pm : ParameterManager) : ℚ := pm.xLfoArg + pm.pLockSmoothedValues 12

/-- Method `setXLfoArg` (ParameterManager.cpp:627-632). -/
def setXLfoArg (pm : ParameterManager) (value : ℚ) : ParameterManager :=
  recordParameter { pm with xLfoArg := value } 12 value

/-- Method `getXLfoAmp` (ParameterManager.cpp:634-636). -/
def getXLfoAmp (pm : ParameterManager) : ℚ := pm.xLfoAmp + pm.pLockSmoothedValues 13

/-- Method `setXLfoAmp` (ParameterManager.cpp:638-643). -/
def setXLfoAmp (pm : ParameterManager) (value : ℚ) : ParameterManager :=
  recordParameter { pm with xLfoAmp := value } 13 value

/-- Method `getYLfoArg` (ParameterManager.cpp:645-647). -/
def getYLfoArg (pm : ParameterManager) : ℚ := pm.yLfoArg + pm.pLockSmoothedValues 14

/-- Method `setYLfoArg` (ParameterManager.cpp:649-654). -/
def setYLfoArg (pm : ParameterManager) (value : ℚ) : ParameterManager :=
  recordParameter { pm with yLfoArg := value } 14 value

/-- Method `getYLfoAmp` (ParameterManager.cpp:656-658). -/
def getYLfoAmp (pm : ParameterManager) : ℚ := pm.yLfoAmp + pm.pLockSmoothedValues 15

/-- Method `setYLfoAmp` (ParameterManager.cpp:660-665). -/
def setYLfoAmp (pm : ParameterManager) (value : ℚ) : ParameterManager :=
  recordParameter { pm with yLfoAmp := value } 15 value

/-- Method `getRotateX` (ParameterManager.cpp:790-792). -/
def getRotateX (pm : ParameterManager) : ℚ := pm.rotateX

/-- Method `setRotateX` (ParameterManager.cpp:794-796). -/
def setRotateX (pm : ParameterManager) (value : ℚ) : ParameterManager :=
  { pm with rotateX := value }

/-- Method `getRotateY` (ParameterManager.cpp:798-800). -/
def getRotateY (pm : ParameterManager) : ℚ := pm.rotateY

/-- Method `setRotateY` (ParameterManager.cpp:802-804). -/
def setRotateY (pm : ParameterManager) (value : ℚ) : ParameterManager :=
  { pm with rotateY := value }

/-- Method `getRotateZ` (ParameterManager.cpp:806-808). -/
def getRotateZ (pm : ParameterManager) : ℚ := pm.rotateZ

/-- Method `setRotateZ` (ParameterManager.cpp:810-812). -/
def setRotateZ (pm : ParameterManager) (value : ℚ) : ParameterManager :=
  { pm with rotateZ := value }

/-- Method `getGlobalXDisplace` (ParameterManager.cpp:814-816). -/
def getGlobalXDisplace (pm : ParameterManager) : ℚ := pm.globalXDisplace

/-- Method `setGlobalXDisplace` (ParameterManager.cpp:818-820). -/
def setGlobalXDisplace (pm : ParameterManager) (value : ℚ) : ParameterManager :=
  { pm with globalXDisplace := value }

/-- Method `getGlobalYDisplace` (ParameterManager.cpp:822-824). -/
def getGlobalYDisplace (pm : ParameterManager) : ℚ := pm.globalYDisplace

/-- Method `setGlobalYDisplace` (ParameterManager.cpp:826-828). -/
def setGlobalYDisplace (pm : ParameterManager) (value : ℚ) : ParameterManager :=
  { pm with globalYDisplace := value }

/-- Method `getStrokeWeight` (ParameterManager.cpp:839-841). -/
def getStrokeWeight (pm : ParameterManager) : ℚ := pm.strokeWeight

/-- Method `setStrokeWeight` (ParameterManager.cpp:843-845). -/
def setStrokeWeight (pm : ParameterManager) (weight : ℚ) : ParameterManager :=
  { pm with strokeWeight := weight }

end ParameterManager

/-! ## AudioReactivityManager: data -/

/-- The transform size `kNumFFTBins` (AudioReactivityManager.h:96). -/
abbrev kNumFFTBins : Nat := 1024

/-- Struct `BandMapping` (AudioReactivityManager.h:62-69). -/
structure BandMapping where
  band : Int
  paramId : String
  scale : ℚ
  min : ℚ
  max : ℚ
  additive : Bool

/-- Struct `BandRange` (AudioReactivityManager.h:124-127). -/
structure BandRange where
  minBin : Int
  maxBin : Int
  deriving DecidableEq

/-- The fields of the library type `ofSoundDevice` that the engine reads. -/
structure OfSoundDevice where
  name : String
  inputChannels : Nat
  outputChannels : Nat
  deriving DecidableEq

/-- A raw `float` sample as delivered by the audio driver: finite, NaN or infinite. -/
inductive FloatVal where
  | finite (q : ℚ)
  | nan
  | posInf
  | negInf
  deriving DecidableEq

namespace FloatVal

/-- The test `std::isnan`. -/
def isnan : FloatVal → Bool
  | nan => true
  | _ => false

/-- The test `std::isinf`. -/
def isinf : FloatVal → Bool
  | posInf => true
  | negInf => true
  | _ => false

/-- The rational value of a finite float (0 for the others, which callers exclude). -/
def toRat : FloatVal → ℚ
  | finite q => q
  | _ => 0

end FloatVal

/-- A float computed as `sqrt radicand`, kept by its radicand. -/
structure SqrtVal where
  radicand : ℚ
  deriving DecidableEq

/-- The library object `ofxFft`, as far as the engine drives it: its signal size and the
signal last handed to `setSignal`. The amplitude spectrum the library derives from the
signal is an input of `analyzeAudio`. -/
structure OfxFft where
  signalSize : Nat
  signal : List ℚ
  deriving DecidableEq

/-- The library object `ofSoundStream`, as far as the engine drives it: the number of
streams that `setup` has opened and `close` has not yet closed, and the input device of
the settings of the last successful `setup` (`none` for the system default). The count
does not rely on the library closing a stream that is still open when `setup` is called
again: opening over an open stream shows as a count of 2. -/
structure OfSoundStream where
  openStreams : Nat
  inDevice : Option OfSoundDevice
  deriving DecidableEq

/-- The members of `AudioReactivityManager` (AudioReactivityManager.h:93-134).
`paramManager` is the pointed-to parameter store (`none` for `nullptr`); `bufferSize` is
only ever assigned 1024 and 512 and is kept as a natural number. -/
structure AudioReactivityManager where
  numBands : Int
  sensitivity : ℚ
  smoothing : ℚ
  enabled : Bool
  normalizationEnabled : Bool
  paramManager : Option ParameterManager
  currentDeviceIndex : Int
  deviceList : List OfSoundDevice
  audioInputInitialized : Bool
  audioInputLevel : SqrtVal
  bufferSize : Nat
  fft : Option OfxFft
  audioBuffer : List ℚ
  fftSpectrum : List ℚ
  fftSmoothed : List ℚ
  bands : List ℚ
  smoothedBands : List ℚ
  bandRanges : List BandRange
  mappings : List BandMapping
  soundStream : OfSoundStream

/-! ## Library helpers -/

/-- Modelled from the spec: `ofClamp` is an openFrameworks function whose body is not
under src/; the spec says the output is clamped into `[min, max]`. This is the library's
`value < min ? min : value > max ? max : value`. -/
def ofClamp (value min max : ℚ) : ℚ :=
  if value < min then min else if value > max then max else value

/-- The conversion `static_cast<int>(float)`: truncation toward zero. -/
def static_cast_int (value : ℚ) : Int := Int.tdiv value.num value.den

/-- The effect of `std::vector::resize(n, 0.0f)`. -/
def resize (v : List ℚ) (n : Nat) : List ℚ :=
  v.take n ++ List.replicate (n - v.length) 0

/-! ## Mapping engine -/

/-- The if/else chain of `AudioReactivityManager::applyParameterValue`
(AudioReactivityManager.cpp:261-414) on the pointed-to parameter store. -/
def dispatchParameter (pm : ParameterManager) (paramId : String) (value : ℚ)
    (additive : Bool) : ParameterManager :=
  if paramId = "luma_key_level" then
    if additive = true then pm.setLumaKeyLevel (pm.getLumaKeyLevel + value)
    else pm.setLumaKeyLevel (value)
  else if paramId = "x_displace" then
    if additive = true then pm.setXDisplace (pm.getXDisplace + value)
    else pm.setXDisplace (value)
  else if paramId = "y_displace" then
    if additive = true then pm.setYDisplace (pm.getYDisplace + value)
    else pm.setYDisplace (value)
  else if paramId = "z_frequency" then
    if additive = true then pm.setZFrequency (pm.getZFrequency + value)
    else pm.setZFrequency (value)
  else if paramId = "x_frequency" then
    if additive = true then pm.setXFrequency (pm.getXFrequency + value)
    else pm.setXFrequency (value)
  else if paramId = "y_frequency" then
    if additive = true then pm.setYFrequency (pm.getYFrequency + value)
    else pm.setYFrequency (value)
  else if paramId = "zoom" then
    if additive = true then pm.setZoom (pm.getZoom + value)
    else pm.setZoom (value)
  else if paramId = "scale" then
    if additive = true then pm.setScale (pm.getScale + static_cast_int value)
    else pm.setScale (static_cast_int value)
  else if paramId = "center_x" then
    if additive = true then pm.setCenterX (pm.getCenterX + value)
    else pm.setCenterX (value)
  else if paramId = "center_y" then
    if additive = true then pm.setCenterY (pm.getCenterY + value)
    else pm.setCenterY (value)
  else if paramId = "z_lfo_arg" then
    if additive = true then pm.setZLfoArg (pm.getZLfoArg + value)
    else pm.setZLfoArg (value)
  else if paramId = "z_lfo_amp" then
    if additive = true then pm.setZLfoAmp (pm.getZLfoAmp + value)
    else pm.setZLfoAmp (value)
  else if paramId = "x_lfo_arg" then
    if additive = true then pm.setXLfoArg (pm.getXLfoArg + value)
    else pm.setXLfoArg (value)
  else if paramId = "x_lfo_amp" then
    if additive = true then pm.setXLfoAmp (pm.getXLfoAmp + value)
    else pm.setXLfoAmp (value)
  else if paramId = "y_lfo_arg" then
    if additive = true then pm.setYLfoArg (pm.getYLfoArg + value)
    else pm.setYLfoArg (value)
  else if paramId = "y_lfo_amp" then
    if additive = true then pm.setYLfoAmp (pm.getYLfoAmp + value)
    else pm.setYLfoAmp (value)
  else if paramId = "rotate_x" then
    if additive = true then pm.setRotateX (pm.getRotateX + value)
    else pm.setRotateX (value)
  else if paramId = "rotate_y" then
    if additive = true then pm.setRotateY (pm.getRotateY + value)
    else pm.setRotateY (value)
  else if paramId = "rotate_z" then
    if additive = true then pm.setRotateZ (pm.getRotateZ + value)
    else pm.setRotateZ (value)
  else if paramId = "global_x_displace" then
    if additive = true then pm.setGlobalXDisplace (pm.getGlobalXDisplace + value)
    else pm.setGlobalXDisplace (value)
  else if paramId = "global_y_displace" then
    if additive = true then pm.setGlobalYDisplace (pm.getGlobalYDisplace + value)
    else pm.setGlobalYDisplace (value)
  else if paramId = "stroke_weight" then
    if additive = true then pm.setStrokeWeight (pm.getStrokeWeight + value)
    else pm.setStrokeWeight (value)
  else pm

/-- Method `AudioReactivityManager::applyParameterValue`
(AudioReactivityManager.cpp:254-415): nothing happens without a parameter store. -/
def applyParameterValue (self : AudioReactivityManager) (paramId : String) (value : ℚ)
    (additive : Bool) : AudioReactivityManager :=
  match self.paramManager with
  | none => self
  | some pm => { self with paramManager := some (dispatchParameter pm paramId value additive) }

/-- One iteration of the loop of `applyMappings` (AudioReactivityManager.cpp:240-250).
The arithmetic is exact here; `mappedValueF32` is the dispatched value in binary32. -/
def applyMappingsStep (self : AudioReactivityManager) (mapping : BandMapping) :
    AudioReactivityManager :=
  if 0 ≤ mapping.band ∧ mapping.band < self.numBands then
    let value := self.smoothedBands.getD mapping.band.toNat 0
    let value := mapping.min + value * mapping.scale * (mapping.max - mapping.min)
    let value := ofClamp value mapping.min mapping.max
    applyParameterValue self mapping.paramId value mapping.additive
  else self

/-- Method `AudioReactivityManager::applyMappings` (AudioReactivityManager.cpp:238-252):
the mappings are visited in list order. -/
def applyMappings (self : AudioReactivityManager) : AudioReactivityManager :=
  self.mappings.foldl applyMappingsStep self

/-- The parameter ids that `applyParameterValue` recognises. -/
def knownParamIds : List String :=
  ["luma_key_level", "x_displace", "y_displace", "z_frequency", "x_frequency",
   "y_frequency", "zoom", "scale", "center_x", "center_y", "z_lfo_arg", "z_lfo_amp",
   "x_lfo_arg", "x_lfo_amp", "y_lfo_arg", "y_lfo_amp", "rotate_x", "rotate_y",
   "rotate_z", "global_x_displace", "global_y_displace", "stroke_weight"]

/-- The value of parameter `paramId` read through the getter that
`applyParameterValue` uses for it (0 for an unknown id). -/
def getValue (pm : ParameterManager) (paramId : String) : ℚ :=
  if paramId = "luma_key_level" then pm.getLumaKeyLevel
  else if paramId = "x_displace" then pm.getXDisplace
  else if paramId = "y_displace" then pm.getYDisplace
  else if paramId = "z_frequency" then pm.getZFrequency
  else if paramId = "x_frequency" then pm.getXFrequency
  else if paramId = "y_frequency" then pm.getYFrequency
  else if paramId = "zoom" then pm.getZoom
  else if paramId = "scale" then (pm.getScale : ℚ)
  else if paramId = "center_x" then pm.getCenterX
  else if paramId = "center_y" then pm.getCenterY
  else if paramId = "z_lfo_arg" then pm.getZLfoArg
  else if paramId = "z_lfo_amp" then pm.getZLfoAmp
  else if paramId = "x_lfo_arg" then pm.getXLfoArg
  else if paramId = "x_lfo_amp" then pm.getXLfoAmp
  else if paramId = "y_lfo_arg" then pm.getYLfoArg
  else if paramId = "y_lfo_amp" then pm.getYLfoAmp
  else if paramId = "rotate_x" then pm.getRotateX
  else if paramId = "rotate_y" then pm.getRotateY
  else if paramId = "rotate_z" then pm.getRotateZ
  else if paramId = "global_x_displace" then pm.getGlobalXDisplace
  else if paramId = "global_y_displace" then pm.getGlobalYDisplace
  else if paramId = "stroke_weight" then pm.getStrokeWeight
  else 0

/-- The P-Lock overlay that the getter of `paramId` adds to the stored member:
`pLockSmoothedValues[k]` for the sixteen-slot P-Lock parameters read through a float
getter, and nothing for `scale`, the rotations, the global displacements and
`stroke_weight` (ParameterManager.cpp:490-845). -/
def pLockOverlay (pm : ParameterManager) (paramId : String) : ℚ :=
  if paramId = "luma_key_level" then pm.pLockSmoothedValues 0
  else if paramId = "x_displace" then pm.pLockSmoothedValues 1
  else if paramId = "y_displace" then pm.pLockSmoothedValues 2
  else if paramId = "z_frequency" then pm.pLockSmoothedValues 3
  else if paramId = "x_frequency" then pm.pLockSmoothedValues 4
  else if paramId = "y_frequency" then pm.pLockSmoothedValues 5
  else if paramId = "zoom" then pm.pLockSmoothedValues 6
  else if paramId = "center_x" then pm.pLockSmoothedValues 8
  else if paramId = "center_y" then pm.pLockSmoothedValues 9
  else if paramId = "z_lfo_arg" then pm.pLockSmoothedValues 10
  else if paramId = "z_lfo_amp" then pm.pLockSmoothedValues 11
  else if paramId = "x_lfo_arg" then pm.pLockSmoothedValues 12
  else if paramId = "x_lfo_amp" then pm.pLockSmoothedValues 13
  else if paramId = "y_lfo_arg" then pm.pLockSmoothedValues 14
  else if paramId = "y_lfo_amp" then pm.pLockSmoothedValues 15
  else 0

/-- The value that a write of `value` to `paramId` hands to the setter: the `int`
parameter `scale` receives `static_cast<int>(value)`, every other parameter `value`. -/
def writtenValue (paramId : String) (value : ℚ) : ℚ :=
  if paramId = "scale" then (static_cast_int value : ℚ) else value

/-- The value of `paramId` in the store the engine points to, read through its getter. -/
def storeValue (self : AudioReactivityManager) (paramId : String) : Option ℚ :=
  self.paramManager.map fun pm => getValue pm paramId

/-! ## Band layout and construction -/

/-- The eight default ranges of `setupDefaultBandRanges`
(AudioReactivityManager.cpp:89-98). -/
def defaultRanges8 : List BandRange :=
  [⟨1, 2⟩, ⟨3, 5⟩, ⟨6, 11⟩, ⟨12, 46⟩, ⟨47, 92⟩, ⟨93, 139⟩, ⟨140, 278⟩, ⟨279, 511⟩]

/-- The loop of `setupDefaultBandRanges` for a band count other than 8
(AudioReactivityManager.cpp:103-113), for a non-zero `numBands`. -/
def evenBandRanges (numBands : Int) : List BandRange :=
  let usableBins : Int := kNumFFTBins / 2
  let binsPerBand : Int := Int.tdiv usableBins numBands
  (List.range numBands.toNat).map fun i =>
    { minBin := (i : Int) * binsPerBand
      maxBin := if (i : Int) = numBands - 1 then usableBins - 1
                else (((i : Int) + 1) * binsPerBand) - 1 }

/-- Method `AudioReactivityManager::setupDefaultBandRanges`
(AudioReactivityManager.cpp:69-115). The integer division `usableBins / numBands` has
no result for `numBands = 0`: the model returns `none` there. -/
def setupDefaultBandRanges (self : AudioReactivityManager) : Option AudioReactivityManager :=
  if self.numBands = 8 then some { self with bandRanges := defaultRanges8 }
  else if self.numBands = 0 then none
  else some { self with bandRanges := evenBandRanges self.numBands }

/-- Method `AudioReactivityManager::listAudioDevices`
(AudioReactivityManager.cpp:417-431); `devices` is what `ofSoundStreamListDevices()`
returns at the time of the call. -/
def listAudioDevices (self : AudioReactivityManager) (devices : List OfSoundDevice) :
    AudioReactivityManager :=
  { self with deviceList := devices }

/-- The state after the member initialisers and the resizes of the constructor
(AudioReactivityManager.cpp:4-21). -/
def constructed : AudioReactivityManager where
  numBands := 8
  sensitivity := 1
  smoothing := 85 / 100
  enabled := false
  normalizationEnabled := true
  paramManager := none
  currentDeviceIndex := -1
  deviceList := []
  audioInputInitialized := false
  audioInputLevel := ⟨0⟩
  bufferSize := 1024
  fft := none
  audioBuffer := resize [] 1024
  fftSpectrum := resize [] (kNumFFTBins / 2)
  fftSmoothed := resize [] (kNumFFTBins / 2)
  bands := resize [] 8
  smoothedBands := resize [] 8
  bandRanges := []
  mappings := []
  soundStream := ⟨0, none⟩

/-- The constructor `AudioReactivityManager::AudioReactivityManager`
(AudioReactivityManager.cpp:4-26); `devices` is the device enumeration at that time. -/
def AudioReactivityManager.new (devices : List OfSoundDevice) : AudioReactivityManager :=
  match setupDefaultBandRanges constructed with
  | some self => listAudioDevices self devices
  | none => listAudioDevices constructed devices

/-- Method `AudioReactivityManager::addMapping` (AudioReactivityManager.cpp:665-667). -/
def addMapping (self : AudioReactivityManager) (mapping : BandMapping) :
    AudioReactivityManager :=
  { self with mappings := self.mappings ++ [mapping] }

/-! ## Example states -/

/-- The first mapping installed by `ofApp::setupAudioReactivity` (ofApp.cpp:1369-1376):
the brilliance band drives `x_displace` over `[-0.5, 0.5]` with scale 2. -/
def xMapping : BandMapping := ⟨6, "x_displace", 2, -1 / 2, 1 / 2, false⟩

/-- An engine state after construction and `setup` with the parameter store `pm`, in
which the smoothed band energies and the mapping list have the given values. -/
def engineWith (pm : ParameterManager) (smoothedBands : List ℚ)
    (mappings : List BandMapping) : AudioReactivityManager :=
  { AudioReactivityManager.new [] with
    paramManager := some pm
    smoothedBands := smoothedBands
    mappings := mappings }

/-- A parameter store whose smoothed P-Lock values are 1 and whose `xDisplace` member is
as given; a track reaches the smoothed value 1 when the value 2 has been recorded on it
and `updatePLocks` has run once (2 * 0.5 + 0 * 0.5, ParameterManager.cpp:72-73). -/
def overlaidStore (xDisplace : ℚ) : ParameterManager :=
  { ParameterManager.new with xDisplace := xDisplace, pLockSmoothedValues := fun _ => 1 }

/-- Two mappings on `x_displace` reading band 0: a replacing one with the given scale,
then an additive one (`additive = true` is the value `loadFromXml` gives a mapping
that does not state it, AudioReactivityManager.cpp:747). -/
def replaceThenAdd (earlierScale : ℚ) : List BandMapping :=
  [⟨0, "x_displace", earlierScale, 0, 1, false⟩, ⟨0, "x_displace", 1, 0, 1, true⟩]

/-! ## Sample ingestion -/

/-- The library call `ofxFft::setSignal`: the transform takes `signalSize` floats from
the buffer it is handed. -/
def OfxFft.setSignal (fft : OfxFft) (buffer : List ℚ) : OfxFft :=
  { fft with signal := buffer.take fft.signalSize }

/-- The NaN/Inf check of `audioIn` (AudioReactivityManager.cpp:548-551): the value of
`sample` after `if (std::isnan(sample) || std::isinf(sample)) sample = 0.0f`. -/
def sanitizeSample (x : FloatVal) : ℚ :=
  if x.isnan || x.isinf then 0 else x.toRat

/-- The sample loop of `audioIn` (AudioReactivityManager.cpp:546-554) over the samples
it reads: sample number `i` is sanitized, stored in `audioBuffer[i]`, and its square is
added to `sumSquared`. -/
def audioInLoop : List FloatVal → Nat → List ℚ → ℚ → List ℚ × ℚ
  | [], _, audioBuffer, sumSquared => (audioBuffer, sumSquared)
  | x :: rest, i, audioBuffer, sumSquared =>
    let sample : ℚ := sanitizeSample x
    audioInLoop rest (i + 1) (audioBuffer.set i sample) (sumSquared + sample * sample)

/-- Method `AudioReactivityManager::audioIn` (AudioReactivityManager.cpp:526-580) for
the mono stream the engine opens: `input` holds one sample per frame. The level
`sqrt(sumSquared / numSamples)` is kept by its radicand. The arithmetic is exact here;
`audioInF32` is the method in binary32. -/
def audioIn (self : AudioReactivityManager) (input : List FloatVal) :
    AudioReactivityManager :=
  if input.length = 0 then self
  else
    let audioBuffer :=
      if self.audioBuffer.length ≠ self.bufferSize then resize self.audioBuffer self.bufferSize
      else self.audioBuffer
    let numSamples := min input.length self.bufferSize
    let result := audioInLoop (input.take numSamples) 0 audioBuffer 0
    { self with
      audioBuffer := result.1
      audioInputLevel := ⟨result.2 / (numSamples : ℚ)⟩
      fft := self.fft.map fun fft => fft.setSignal result.1 }

/-- A sample with NaN and the infinities replaced by 0, as a float again. -/
def zeroNonFinite (x : FloatVal) : FloatVal :=
  if x.isnan || x.isinf then FloatVal.finite 0 else x

/-- The largest absolute value of the samples of a block (0 for an empty block). -/
def maxAbs : List FloatVal → ℚ
  | [] => 0
  | x :: rest => max |x.toRat| (maxAbs rest)

/-! ## Band aggregation -/

/-- The inner loop of `groupBands` (AudioReactivityManager.cpp:216-225): sum and count
of the spectrum values at the bins `minBin..maxBin` that index the spectrum. The test
`bin < fftSmoothed.size()` compares as unsigned, so a negative `bin` fails it. -/
def sumBins (fftSmoothed : List ℚ) (range : BandRange) : ℚ × Int :=
  (List.range (range.maxBin - range.minBin + 1).toNat).foldl
    (fun acc k =>
      let bin : Int := range.minBin + (k : Int)
      if 0 ≤ bin ∧ bin < (fftSmoothed.length : Int) then
        (acc.1 + fftSmoothed.getD bin.toNat 0, acc.2 + 1)
      else acc)
    (0, 0)

/-- The band average of `groupBands` (AudioReactivityManager.cpp:228):
`(count > 0) ? (sum / count) : 0`. -/
def bandAverage (fftSmoothed : List ℚ) (range : BandRange) : ℚ :=
  let r := sumBins fftSmoothed range
  if r.2 > 0 then r.1 / (r.2 : ℚ) else 0

/-- One iteration of the band loop of `groupBands`
(AudioReactivityManager.cpp:212-235) for band `i`. The arithmetic is exact here;
`smoothBandF32` is the smoothing statement in binary32. -/
def groupBandsStep (self : AudioReactivityManager) (i : Nat) : AudioReactivityManager :=
  if i ≥ self.bandRanges.length then self
  else
    let range := self.bandRanges.getD i ⟨0, 0⟩
    let average := bandAverage self.fftSmoothed range
    { self with
      smoothedBands := self.smoothedBands.set i
        (average * (1 - self.smoothing) + self.smoothedBands.getD i 0 * self.smoothing)
      bands := self.bands.set i average }

/-- Method `AudioReactivityManager::groupBands` (AudioReactivityManager.cpp:210-236). -/
def groupBands (self : AudioReactivityManager) : AudioReactivityManager :=
  (List.range self.numBands.toNat).foldl groupBandsStep self

/-- An engine state after construction in which the spectrum, the band energies and the
smoothing factor have the given values. -/
def engineWithSpectrum (fftSmoothed smoothedBands : List ℚ) (smoothing : ℚ) :
    AudioReactivityManager :=
  { AudioReactivityManager.new [] with
    fftSmoothed := fftSmoothed
    smoothedBands := smoothedBands
    smoothing := smoothing }

/-! ## Device session -/

/-- The library call `ofSoundStream::setup`; `opens` is its result, whether the audio
stack could open the stream on `inDevice`. -/
def OfSoundStream.setup (stream : OfSoundStream) (inDevice : Option OfSoundDevice)
    (opens : Bool) : OfSoundStream :=
  if opens then { openStreams := stream.openStreams + 1, inDevice := inDevice }
  else stream

/-- The library call `ofSoundStream::close`: closes the open stream, if any. -/
def OfSoundStream.close (stream : OfSoundStream) : OfSoundStream :=
  { stream with openStreams := stream.openStreams - 1 }

/-- Method `AudioReactivityManager::closeAudioInput`
(AudioReactivityManager.cpp:518-524). -/
def closeAudioInput (self : AudioReactivityManager) : AudioReactivityManager :=
  if self.audioInputInitialized = true then
    { self with
      soundStream := self.soundStream.close
      audioInputInitialized := false }
  else self

/-- Method `AudioReactivityManager::setupAudioInput`
(AudioReactivityManager.cpp:491-516); `opens` is the result of `soundStream.setup`,
which the method does not inspect. -/
def setupAudioInput (self : AudioReactivityManager) (opens : Bool) : AudioReactivityManager :=
  let self := closeAudioInput self
  let inDevice : Option OfSoundDevice :=
    if 0 ≤ self.currentDeviceIndex ∧ self.currentDeviceIndex < (self.deviceList.length : Int)
    then self.deviceList[self.currentDeviceIndex.toNat]?
    else none
  { self with
    soundStream := self.soundStream.setup inDevice opens
    audioInputInitialized := true }

/-- Method `AudioReactivityManager::setEnabled` (AudioReactivityManager.cpp:199-208). -/
def setEnabled (self : AudioReactivityManager) (enabled : Bool) (opens : Bool) :
    AudioReactivityManager :=
  let self := { self with enabled := enabled }
  if enabled = true then setupAudioInput self opens else closeAudioInput self

/-- Method `AudioReactivityManager::selectAudioDevice(int)`
(AudioReactivityManager.cpp:454-477): the returned flag and the new state. -/
def selectAudioDevice (self : AudioReactivityManager) (deviceIndex : Int) (opens : Bool) :
    Bool × AudioReactivityManager :=
  if deviceIndex < 0 ∨ deviceIndex ≥ (self.deviceList.length : Int)
      ∨ (self.deviceList.getD deviceIndex.toNat ⟨"", 0, 0⟩).inputChannels ≤ 0 then
    (false, self)
  else
    let self := if self.audioInputInitialized = true then closeAudioInput self else self
    let self := { self with currentDeviceIndex := deviceIndex }
    let self := if self.enabled = true then setupAudioInput self opens else self
    (true, self)

/-- The search loop of `selectAudioDevice(const std::string&)`
(AudioReactivityManager.cpp:481-485): the first index at or after `i` whose device has
the name and an input channel. -/
def findDeviceByName (deviceName : String) : List OfSoundDevice → Nat → Option Nat
  | [], _ => none
  | device :: rest, i =>
    if device.name = deviceName ∧ device.inputChannels > 0 then some i
    else findDeviceByName deviceName rest (i + 1)

/-- Method `AudioReactivityManager::selectAudioDevice(const std::string&)`
(AudioReactivityManager.cpp:479-489). -/
def selectAudioDeviceByName (self : AudioReactivityManager) (deviceName : String)
    (opens : Bool) : Bool × AudioReactivityManager :=
  match findDeviceByName deviceName self.deviceList 0 with
  | some i => selectAudioDevice self (i : Int) opens
  | none => (false, self)

/-- Method `AudioReactivityManager::setup` (AudioReactivityManager.cpp:32-55); the
result is `none` when `setupDefaultBandRanges` has none. -/
def setup (self : AudioReactivityManager) (paramManager : Option ParameterManager)
    (performanceMode : Bool) (opens : Bool) : Option AudioReactivityManager :=
  let self := { self with paramManager := paramManager }
  let ranged := if self.bandRanges.isEmpty then setupDefaultBandRanges self else some self
  ranged.map fun self =>
    let self := if performanceMode = true then { self with bufferSize := 512 } else self
    let self := { self with
      fft := some { signalSize := self.bufferSize, signal := [] }
      audioBuffer := resize self.audioBuffer self.bufferSize }
    if self.enabled = true then setupAudioInput self opens else self

/-- Method `AudioReactivityManager::exit` (AudioReactivityManager.cpp:58-67). -/
def exit (self : AudioReactivityManager) : AudioReactivityManager :=
  let self := closeAudioInput self
  { self with fft := none }

/-! ## Settings -/

/-- Method `AudioReactivityManager::setSmoothing` (AudioReactivityManager.cpp:657-659). -/
def setSmoothing (self : AudioReactivityManager) (smoothing : ℚ) : AudioReactivityManager :=
  { self with smoothing := ofClamp smoothing 0 (99 / 100) }

/-- Method `AudioReactivityManager::clearMappings` (AudioReactivityManager.cpp:675-677). -/
def clearMappings (self : AudioReactivityManager) : AudioReactivityManager :=
  { self with mappings := [] }

/-! ## Configuration document -/

/-- One `range` tag of the document: the values of its `minBin` and `maxBin` tags, where
present. -/
structure RangeTag where
  minBin : Option Int
  maxBin : Option Int
  deriving DecidableEq

/-- One `mapping` tag of the document. `additive` is read through the `int` overload of
`getValue`, like every `bool` of the document. -/
structure MappingTag where
  band : Option Int
  paramId : Option String
  scale : Option ℚ
  min : Option ℚ
  max : Option ℚ
  additive : Option Int
  deriving DecidableEq

/-- The `audioReactivity` tag of the document, as `loadFromXml` reads it and `saveToXml`
writes it: each field is the parsed value of the tag, `none` when the tag is absent.
`normalizationEnabled` stands for the path `audioReactivity:normalizationEnabled` below
the pushed tag (AudioReactivityManager.cpp:702, 780); `bandRanges` and `mappings` hold
the `range` and `mapping` tags in document order. -/
structure AudioReactivityTag where
  enabled : Option Int
  normalizationEnabled : Option Int
  sensitivity : Option ℚ
  smoothing : Option ℚ
  numBands : Option Int
  deviceName : Option String
  deviceIndex : Option Int
  bandRanges : Option (List RangeTag)
  mappings : Option (List MappingTag)
  deriving DecidableEq

/-- The part of an `ofxXmlSettings` document that the engine reads: its first
`audioReactivity` tag, if any. The library parses the text of a tag into the value that
`getValue` returns; the model holds the parsed values. -/
structure OfxXmlSettings where
  audioReactivity : Option AudioReactivityTag
  deriving DecidableEq

/-- The mapping that `loadFromXml` builds from a `mapping` tag
(AudioReactivityManager.cpp:741-747). -/
def MappingTag.toMapping (tag : MappingTag) : BandMapping where
  band := tag.band.getD 0
  paramId := tag.paramId.getD ""
  scale := tag.scale.getD 1
  min := tag.min.getD 0
  max := tag.max.getD 1
  additive := decide (tag.additive.getD 1 ≠ 0)

/-- The range that `loadFromXml` builds from a `range` tag
(AudioReactivityManager.cpp:722-724). -/
def RangeTag.toRange (tag : RangeTag) : BandRange where
  minBin := tag.minBin.getD 0
  maxBin := tag.maxBin.getD 0

/-- Method `AudioReactivityManager::loadFromXml` (AudioReactivityManager.cpp:685-766).
A negative `numBands` makes `bands.resize` throw `std::length_error`, which the method
catches: it returns with the basic settings written and nothing else changed. For
`numBands = 0` the division in `setupDefaultBandRanges` has no result and the model
returns `none`. Failure to allocate a large band count is not modelled. -/
def loadFromXml (self : AudioReactivityManager) (xml : OfxXmlSettings) :
    Option AudioReactivityManager :=
  match xml.audioReactivity with
  | none => some self
  | some tag =>
    let self := { self with
      enabled := decide (tag.enabled.getD 0 ≠ 0)
      normalizationEnabled := decide (tag.normalizationEnabled.getD 1 ≠ 0)
      sensitivity := tag.sensitivity.getD 1
      smoothing := tag.smoothing.getD (85 / 100)
      numBands := tag.numBands.getD 8 }
    if self.numBands < 0 then some self
    else
      let self := { self with
        bands := resize self.bands self.numBands.toNat
        smoothedBands := resize self.smoothedBands self.numBands.toNat }
      match setupDefaultBandRanges self with
      | none => none
      | some self =>
        let self :=
          match tag.bandRanges with
          | some ranges =>
            if ranges.length > 0 then { self with bandRanges := ranges.map RangeTag.toRange }
            else self
          | none => self
        let self := clearMappings self
        let self :=
          match tag.mappings with
          | some mappings => mappings.foldl (fun s m => addMapping s m.toMapping) self
          | none => self
        some self

/-! ## Call sequences -/

/-- A call of a public method of the engine, with the inputs the environment supplies
to it. -/
inductive Op where
  | setup (paramManager : Option ParameterManager) (performanceMode : Bool) (opens : Bool)
  | setEnabled (enabled : Bool) (opens : Bool)
  | selectAudioDevice (deviceIndex : Int) (opens : Bool)
  | selectAudioDeviceByName (deviceName : String) (opens : Bool)
  | setupAudioInput (opens : Bool)
  | closeAudioInput
  | exit
  | setSmoothing (smoothing : ℚ)
  | loadFromXml (xml : OfxXmlSettings)
  | listAudioDevices (devices : List OfSoundDevice)

/-- The state after one call (`none` when the call has no result). -/
def Op.apply (self : AudioReactivityManager) : Op → Option AudioReactivityManager
  | .setup paramManager performanceMode opens =>
    SputnikMesh.setup self paramManager performanceMode opens
  | .setEnabled enabled opens => some (SputnikMesh.setEnabled self enabled opens)
  | .selectAudioDevice deviceIndex opens =>
    some (SputnikMesh.selectAudioDevice self deviceIndex opens).2
  | .selectAudioDeviceByName deviceName opens =>
    some (SputnikMesh.selectAudioDeviceByName self deviceName opens).2
  | .setupAudioInput opens => some (SputnikMesh.setupAudioInput self opens)
  | .closeAudioInput => some (SputnikMesh.closeAudioInput self)
  | .exit => some (SputnikMesh.exit self)
  | .setSmoothing smoothing => some (SputnikMesh.setSmoothing self smoothing)
  | .loadFromXml xml => SputnikMesh.loadFromXml self xml
  | .listAudioDevices devices => some (SputnikMesh.listAudioDevices self devices)

/-- The state after a sequence of calls, first call first. -/
def run (self : AudioReactivityManager) : List Op → Option AudioReactivityManager
  | [] => some self
  | op :: rest =>
    match op.apply self with
    | some next => run next rest
    | none => none

/-- The calls that open or close the audio session: `setup`, `setEnabled`, both
`selectAudioDevice` overloads, `setupAudioInput`, `closeAudioInput` and `exit`. -/
def Op.isSessionOp : Op → Bool
  | .setup _ _ _ => true
  | .setEnabled _ _ => true
  | .selectAudioDevice _ _ => true
  | .selectAudioDeviceByName _ _ => true
  | .setupAudioInput _ => true
  | .closeAudioInput => true
  | .exit => true
  | _ => false

/-- Whether the audio stack opens the stream if the call asks for one (`true` for the
calls that never ask). -/
def Op.opens : Op → Bool
  | .setup _ _ opens => opens
  | .setEnabled _ opens => opens
  | .selectAudioDevice _ opens => opens
  | .selectAudioDeviceByName _ opens => opens
  | .setupAudioInput opens => opens
  | _ => true

/-- At most one stream is open, and only while `audioInputInitialized` is set; the band
ranges are not empty (so that `setup` leaves them alone). -/
def SessionInvariant (self : AudioReactivityManager) : Prop :=
  self.bandRanges ≠ [] ∧ self.soundStream.openStreams ≤ 1
    ∧ (self.soundStream.openStreams = 1 → self.audioInputInitialized = true)

/-- A stream is open exactly when `audioInputInitialized` is set. -/
def SessionExact (self : AudioReactivityManager) : Prop :=
  self.soundStream.openStreams = if self.audioInputInitialized = true then 1 else 0

/-- A device list with one input device. -/
def micDevices : List OfSoundDevice := [⟨"Mic", 1, 0⟩]

/-- The engine constructed with `micDevices` and enabled, its stream open on the
system default device. -/
def enabledEngine : AudioReactivityManager :=
  setEnabled (AudioReactivityManager.new micDevices) true true

/-- The session invariant, together with `SessionExact` where every stream the engine
asked for was opened (`allOpen`). -/
def SessionInvariantWhen (allOpen : Bool) (self : AudioReactivityManager) : Prop :=
  SessionInvariant self ∧ (allOpen = true → SessionExact self)

/-- The enabled engine after `selectAudioDevice(0)` with the stream opened: its session
runs on the device `"Mic"`. -/
def micSession : AudioReactivityManager :=
  (selectAudioDevice enabledEngine 0 true).2

/-- A device list whose only entry offers no input channel. -/
def speakerDevices : List OfSoundDevice := [⟨"Speakers", 0, 2⟩]

/-! ## Example documents -/

/-- An `audioReactivity` tag without any child tag. -/
def emptyTag : AudioReactivityTag :=
  { enabled := none, normalizationEnabled := none, sensitivity := none, smoothing := none,
    numBands := none, deviceName := none, deviceIndex := none, bandRanges := none,
    mappings := none }

/-- The document that holds the given `audioReactivity` tag. -/
def docWith (tag : AudioReactivityTag) : OfxXmlSettings := ⟨some tag⟩

/-- A document with `numBands = 4` and a single `range` entry. -/
def mismatchedDoc : OfxXmlSettings :=
  docWith { emptyTag with numBands := some 4, bandRanges := some [⟨some 0, some 10⟩] }

/-- A document with one band whose `range` entry has `minBin = 5` and `maxBin = 3`. -/
def invertedRangeDoc : OfxXmlSettings :=
  docWith { emptyTag with numBands := some 1, bandRanges := some [⟨some 5, some 3⟩] }

/-- A document whose `smoothing` tag holds 1.5. -/
def unclampedSmoothingDoc : OfxXmlSettings :=
  docWith { emptyTag with smoothing := some (3 / 2) }

/-- The engine after one `groupBands` tick on the spectrum `[1, 3, 5]` with smoothing 0:
the raw and the smoothed energy of band 0 are 4. -/
def energizedEngine : AudioReactivityManager :=
  groupBands (engineWithSpectrum [1, 3, 5] [0, 0, 0, 0, 0, 0, 0, 0] 0)

/-- The document carries no `range` entry and a band count from 1 to 512, or has no
`audioReactivity` tag: loading it leaves or installs the default band layout. -/
def OfxXmlSettings.keepsDefaultRanges (xml : OfxXmlSettings) : Bool :=
  match xml.audioReactivity with
  | none => true
  | some tag =>
    (tag.bandRanges.getD []).isEmpty && decide (1 ≤ tag.numBands.getD 8)
      && decide (tag.numBands.getD 8 ≤ 512)

/-- The calls `setup` and `loadFromXml` of a document that keeps the default ranges. -/
def Op.isDefaultLayoutOp : Op → Bool
  | .setup _ _ _ => true
  | .loadFromXml xml => xml.keepsDefaultRanges
  | _ => false

/-- The bounds `0 ≤ minBin ≤ maxBin < kNumFFTBins / 2` of a range within the half
spectrum of the 1024-point transform. -/
def BandRange.within512 (range : BandRange) : Prop :=
  0 ≤ range.minBin ∧ range.minBin ≤ range.maxBin ∧ range.maxBin < (kNumFFTBins : Int) / 2

/-! ## Spectrum analysis -/

/-- One iteration of the first loop of `analyzeAudio`
(AudioReactivityManager.cpp:160-170) on the pair of `maxVal` and `fftSpectrum`:
`value = powf(fftResult[i] * sensitivity * 10.0f, 2.0f)`, the running maximum when
normalization is enabled, and the store into `fftSpectrum[i]`. -/
def analyzeScaleStep (fftResult : List ℚ) (sensitivity : ℚ) (normalizationEnabled : Bool)
    (acc : ℚ × List ℚ) (i : Nat) : ℚ × List ℚ :=
  let value := (fftResult.getD i 0 * sensitivity * 10) ^ 2
  let maxVal := if normalizationEnabled = true then max acc.1 value else acc.1
  (maxVal, acc.2.set i value)

/-- One iteration of the second loop of `analyzeAudio`
(AudioReactivityManager.cpp:177-183):
`processedValue = (maxVal > 0) ? fftSpectrum[i] / maxVal : 0` and
`fftSmoothed[i] = std::max(fftSmoothed[i] * smoothing, processedValue * (1 - smoothing))`. -/
def analyzeSmoothStep (maxVal smoothing : ℚ) (fftSpectrum : List ℚ) (fftSmoothed : List ℚ)
    (i : Nat) : List ℚ :=
  let processedValue := if maxVal > 0 then fftSpectrum.getD i 0 / maxVal else 0
  fftSmoothed.set i (max (fftSmoothed.getD i 0 * smoothing) (processedValue * (1 - smoothing)))

/-- Method `AudioReactivityManager::analyzeAudio` (AudioReactivityManager.cpp:135-184);
`fftResult` is the amplitude vector that `fft->getAmplitudeVector()` returns. The
arithmetic is exact here; `analyzeAudioF32` is the method in binary32. -/
def analyzeAudio (self : AudioReactivityManager) (fftResult : List ℚ) :
    AudioReactivityManager :=
  if fftResult.isEmpty then self
  else
    let spectrumSize := min fftResult.length (kNumFFTBins / 2)
    let self :=
      if self.fftSpectrum.length ≠ spectrumSize then
        { self with
          fftSpectrum := resize self.fftSpectrum spectrumSize
          fftSmoothed := resize self.fftSmoothed spectrumSize }
      else self
    let scaled := (List.range spectrumSize).foldl
      (analyzeScaleStep fftResult self.sensitivity self.normalizationEnabled)
      (0, self.fftSpectrum)
    let maxVal := if self.normalizationEnabled = true then scaled.1 else 1
    { self with
      fftSpectrum := scaled.2
      fftSmoothed := (List.range spectrumSize).foldl
        (analyzeSmoothStep maxVal self.smoothing scaled.2) self.fftSmoothed }

/-- Method `AudioReactivityManager::update` (AudioReactivityManager.cpp:117-133);
`fftResult` is the amplitude vector of the transform at this tick. -/
def update (self : AudioReactivityManager) (fftResult : List ℚ) : AudioReactivityManager :=
  if self.enabled = false ∨ self.paramManager.isNone ∨ self.fft.isNone then self
  else applyMappings (groupBands (analyzeAudio self fftResult))

/-! ## Device names -/

/-- Method `AudioReactivityManager::getAudioDeviceList`
(AudioReactivityManager.cpp:433-441): the names of the devices with an input channel. -/
def getAudioDeviceList (self : AudioReactivityManager) : List String :=
  (self.deviceList.filter fun device => device.inputChannels > 0).map fun device =>
    device.name

/-- Method `AudioReactivityManager::getCurrentDeviceName`
(AudioReactivityManager.cpp:447-452). -/
def getCurrentDeviceName (self : AudioReactivityManager) : String :=
  if 0 ≤ self.currentDeviceIndex ∧ self.currentDeviceIndex < (self.deviceList.length : Int)
  then (self.deviceList.getD self.currentDeviceIndex.toNat ⟨"", 0, 0⟩).name
  else "No device selected"

/-! ## Binary32 arithmetic

The engine computes in `float`. Where a claim is about the stored float values, it is
checked against the following model of IEEE 754 binary32: an operation returns the exact
result rounded to the nearest representable value, ties to even, with overflow to an
infinity and the usual rules for NaN and the infinities. Every operation is rounded on
its own: no fused multiply-add and no wider intermediate precision. The sign of a zero
is not modelled. -/

/-- The power `2^e` of an integer exponent, as a rational. -/
def pow2 (e : Int) : ℚ :=
  if 0 ≤ e then ((2 ^ e.toNat : Nat) : ℚ) else 1 / ((2 ^ (-e).toNat : Nat) : ℚ)

/-- The number of times `n` can be halved before it is below 2, with `fuel` steps. -/
def log2Fuel : Nat → Nat → Nat
  | 0, _ => 0
  | fuel + 1, n => if 2 ≤ n then log2Fuel fuel (n / 2) + 1 else 0

/-- The integer part of the binary logarithm of a positive natural number. -/
def natLog2 (n : Nat) : Nat := log2Fuel n n

/-- The integer part of the binary logarithm of a positive rational: the `e` with
`2^e ≤ a < 2^(e+1)`. -/
def floorLog2 (a : ℚ) : Int :=
  let k : Int := (natLog2 a.num.natAbs : Int) - (natLog2 a.den : Int)
  if pow2 k ≤ a then k else k - 1

/-- The integer nearest to a rational, the even one of the two at a tie. -/
def roundHalfEven (n : ℚ) : Int :=
  let f : Int := ⌊n⌋
  if n - (f : ℚ) < 1 / 2 then f
  else if 1 / 2 < n - (f : ℚ) then f + 1
  else if f % 2 = 0 then f else f + 1

/-- Rounding of an exact result to the binary format with a significand of `p` bits and
exponents from `emin` to `emax`: to the nearest representable value, ties to even;
subnormal below `2^emin`, an infinity from `2^(emax+1)` on. -/
def roundBinary (p : Nat) (emin emax : Int) (q : ℚ) : FloatVal :=
  if q = 0 then FloatVal.finite 0
  else
    let a : ℚ := if q < 0 then -q else q
    let e : Int := max (floorLog2 a) emin
    let quantum : ℚ := pow2 (e - ((p : Int) - 1))
    let v : ℚ := (roundHalfEven (a / quantum) : ℚ) * quantum
    if pow2 (emax + 1) ≤ v then (if q < 0 then FloatVal.negInf else FloatVal.posInf)
    else FloatVal.finite (if q < 0 then -v else v)

/-- Rounding to binary32 (`float`). -/
def roundBinary32 (q : ℚ) : FloatVal := roundBinary 24 (-126) 127 q

/-- Rounding to binary64 (`double`). -/
def roundBinary64 (q : ℚ) : FloatVal := roundBinary 53 (-1022) 1023 q

/-- The largest `r` below `2^bits` with `r * r ≤ n`, found bit by bit. -/
def sqrtFuel : Nat → Nat → Nat → Nat
  | 0, _, r => r
  | bit + 1, n, r =>
    if (r + 2 ^ bit) * (r + 2 ^ bit) ≤ n then sqrtFuel bit n (r + 2 ^ bit)
    else sqrtFuel bit n r

/-- The integer part of the square root of a natural number. -/
def natSqrt (n : Nat) : Nat := sqrtFuel (natLog2 n / 2 + 1) n 0

/-- The square root of a positive rational rounded to binary32. The root is located
between two neighbours on a grid of step `2^(-k)` that is finer than half the spacing of
the binary32 values around it, and the midpoint of the two neighbours (the root itself
when it lies on the grid) rounds as the root does. -/
def sqrtBinary32 (a : ℚ) : FloatVal :=
  let k : Nat := (26 - floorLog2 a / 2).toNat
  let scaled : ℚ := a * ((4 ^ k : Nat) : ℚ)
  let s : Nat := natSqrt ⌊scaled⌋.toNat
  if ((s * s : Nat) : ℚ) = scaled then roundBinary32 ((s : ℚ) / ((2 ^ k : Nat) : ℚ))
  else roundBinary32 (((2 * s + 1 : Nat) : ℚ) / ((2 ^ (k + 1) : Nat) : ℚ))

namespace FloatVal

/-- The negation of a float. -/
def neg : FloatVal → FloatVal
  | finite q => finite (-q)
  | nan => nan
  | posInf => negInf
  | negInf => posInf

/-- The float operator `+`. -/
def add : FloatVal → FloatVal → FloatVal
  | nan, _ => nan
  | _, nan => nan
  | posInf, negInf => nan
  | negInf, posInf => nan
  | posInf, _ => posInf
  | _, posInf => posInf
  | negInf, _ => negInf
  | _, negInf => negInf
  | finite a, finite b => roundBinary32 (a + b)

/-- The float operator `-`. -/
def sub (a b : FloatVal) : FloatVal := a.add b.neg

/-- The sign of a float that is not NaN: -1, 0 or 1. -/
def sign : FloatVal → Int
  | finite q => if q < 0 then -1 else if 0 < q then 1 else 0
  | posInf => 1
  | negInf => -1
  | nan => 0

/-- The float operator `*`: an infinity times zero is NaN. -/
def mul : FloatVal → FloatVal → FloatVal
  | nan, _ => nan
  | _, nan => nan
  | finite a, finite b => roundBinary32 (a * b)
  | a, b =>
    if a.sign * b.sign = 0 then nan
    else if 0 < a.sign * b.sign then posInf else negInf

/-- The float operator `/`; a zero divisor counts as positive. -/
def div : FloatVal → FloatVal → FloatVal
  | nan, _ => nan
  | _, nan => nan
  | finite a, finite b =>
    if b = 0 then (if a = 0 then nan else if a < 0 then negInf else posInf)
    else roundBinary32 (a / b)
  | finite _, _ => finite 0
  | a, finite b => if 0 ≤ a.sign * (if b < 0 then -1 else 1) then posInf else negInf
  | _, _ => nan

/-- The float operator `<`: false when an operand is NaN. -/
def lt : FloatVal → FloatVal → Bool
  | nan, _ => false
  | _, nan => false
  | finite a, finite b => decide (a < b)
  | negInf, negInf => false
  | negInf, _ => true
  | _, negInf => false
  | posInf, _ => false
  | _, posInf => true

/-- The library call `std::max(a, b)`: `(a < b) ? b : a`. -/
def stdMax (a b : FloatVal) : FloatVal := if a.lt b then b else a

/-- The library call `sqrt` on a float, rounded to binary32. -/
def sqrt : FloatVal → FloatVal
  | nan => nan
  | posInf => posInf
  | negInf => nan
  | finite q => if q < 0 then nan else if q = 0 then finite 0 else sqrtBinary32 q

end FloatVal

/-! ## Text form of a float in the document -/

/-- The power `10^e` of an integer exponent, as a rational. -/
def pow10 (e : Int) : ℚ :=
  if 0 ≤ e then ((10 ^ e.toNat : Nat) : ℚ) else 1 / ((10 ^ (-e).toNat : Nat) : ℚ)

/-- The decimal exponent of a positive rational, found in `fuel` steps from `e`. -/
def log10Fuel : Nat → ℚ → Int → Int
  | 0, _, e => e
  | fuel + 1, a, e =>
    if 10 ≤ a then log10Fuel fuel (a / 10) (e + 1)
    else if a < 1 then log10Fuel fuel (a * 10) (e - 1)
    else e

/-- The integer part of the decimal logarithm of a positive rational. -/
def floorLog10 (a : ℚ) : Int :=
  log10Fuel (natLog2 a.num.natAbs + natLog2 a.den + 1) a 0

/-- The value of the text that the library call `ofxXmlSettings::setValue(tag, double)`
writes: `ofToString` prints the number through a stream of default precision, that is
with six significant decimal digits. -/
def decimal6 (v : ℚ) : ℚ :=
  if v = 0 then 0
  else
    let a : ℚ := if v < 0 then -v else v
    let step : ℚ := pow10 (floorLog10 a - 5)
    let d : ℚ := (roundHalfEven (a / step) : ℚ) * step
    if v < 0 then -d else d

/-- The float that a member receives from `xml.getValue(tag, default)` for a number text:
the library parses the text to the nearest `double`, the assignment rounds it to
`float`. Texts beyond the float range, which `saveToXml` never writes for a float, read
as 0 here. -/
def floatOfText (d : ℚ) : ℚ :=
  match roundBinary64 d with
  | FloatVal.finite x => (roundBinary32 x).toRat
  | _ => 0

/-- The float read back from the text that `saveToXml` writes for a float. -/
def textRoundTrip (v : ℚ) : ℚ := floatOfText (decimal6 v)

/-! ## Saving the configuration -/

/-- The `int` that `setValue(tag, int)` receives for a `bool` argument. -/
def boolToInt (b : Bool) : Int := if b = true then 1 else 0

/-- The `range` tag that `saveToXml` writes for a band range
(AudioReactivityManager.cpp:793-799). -/
def BandRange.toTag (range : BandRange) : RangeTag :=
  ⟨some range.minBin, some range.maxBin⟩

/-- The `mapping` tag that `saveToXml` writes for a mapping
(AudioReactivityManager.cpp:808-818): the tag holds what `getValue` reads back from the
text written, for a float the text round trip of the value. -/
def BandMapping.toTag (mapping : BandMapping) : MappingTag :=
  ⟨some mapping.band, some mapping.paramId, some (textRoundTrip mapping.scale),
    some (textRoundTrip mapping.min), some (textRoundTrip mapping.max),
    some (boolToInt mapping.additive)⟩

/-- Method `AudioReactivityManager::saveToXml` (AudioReactivityManager.cpp:768-827): the
`audioReactivity` tag of the document is removed and written anew. An `int` or `bool`
is written exactly; a `float` is written as text of six significant digits, and the tag
holds the float read back from that text. -/
def saveToXml (self : AudioReactivityManager) (xml : OfxXmlSettings) : OfxXmlSettings :=
  let valid : Bool := decide (0 ≤ self.currentDeviceIndex ∧
    self.currentDeviceIndex < (self.deviceList.length : Int))
  { xml with
    audioReactivity := some
      { enabled := some (boolToInt self.enabled)
        normalizationEnabled := some (boolToInt self.normalizationEnabled)
        sensitivity := some (textRoundTrip self.sensitivity)
        smoothing := some (textRoundTrip self.smoothing)
        numBands := some self.numBands
        deviceName := if valid = true then
            some (self.deviceList.getD self.currentDeviceIndex.toNat ⟨"", 0, 0⟩).name
          else none
        deviceIndex := if valid = true then some self.currentDeviceIndex else none
        bandRanges := some (self.bandRanges.map BandRange.toTag)
        mappings := some (self.mappings.map BandMapping.toTag) } }

/-! ## Example states and documents for saving and device selection -/

/-- A document whose `numBands` tag holds -1 and whose `mappings` section has one
entry, for `y_displace`. -/
def negativeBandsDoc : OfxXmlSettings :=
  docWith { emptyTag with
    numBands := some (-1)
    mappings := some [⟨some 0, some "y_displace", some 1, some 0, some 1, some 0⟩] }

/-- A document whose `numBands` tag holds 0. -/
def zeroBandsDoc : OfxXmlSettings :=
  docWith { emptyTag with numBands := some 0 }

/-- A document without an `audioReactivity` tag. -/
def sectionlessDoc : OfxXmlSettings := ⟨none⟩

/-- An enumeration in which an output-only device precedes the only input device. -/
def speakersThenMic : List OfSoundDevice := [⟨"Speakers", 0, 2⟩, ⟨"Mic", 1, 0⟩]

/-- An enumeration in which an output-only device precedes two input devices. -/
def speakersThenTwoMics : List OfSoundDevice :=
  [⟨"Speakers", 0, 2⟩, ⟨"Mic A", 1, 0⟩, ⟨"Mic B", 1, 0⟩]

/-! ## Mean over the valid bins of a range -/

/-- The bins of the range `minBin..maxBin` that are indices of a spectrum with `size`
entries, each once, in increasing order. -/
def validBins (size : Nat) (range : BandRange) : List Nat :=
  (List.range size).filter fun bin =>
    range.minBin ≤ (bin : Int) ∧ (bin : Int) ≤ range.maxBin

/-- The arithmetic mean of a list of values, and 0 for the empty list. -/
def mean (values : List ℚ) : ℚ :=
  if values.isEmpty then 0 else values.sum / (values.length : ℚ)

/-! ## Scaled and normalised bins of one tick -/

/-- The scaled value of bin `i` of a tick: `(amplitude_i * sensitivity * 10)^2`. -/
def scaledBin (fftResult : List ℚ) (sensitivity : ℚ) (i : Nat) : ℚ :=
  (fftResult.getD i 0 * sensitivity * 10) ^ 2

/-- The maximum of the scaled values of the first `n` bins of a tick, and 0 for no bin. -/
def scaledPeak (fftResult : List ℚ) (sensitivity : ℚ) : Nat → ℚ
  | 0 => 0
  | n + 1 => max (scaledPeak fftResult sensitivity n) (scaledBin fftResult sensitivity n)

/-- The divisor of a tick over `n` bins: the maximum of the scaled values when
normalization is enabled, and 1 when it is disabled. -/
def tickDivisor (fftResult : List ℚ) (sensitivity : ℚ) (normalizationEnabled : Bool)
    (n : Nat) : ℚ :=
  if normalizationEnabled = true then scaledPeak fftResult sensitivity n else 1

/-- The normalised value of bin `i` of a tick over `n` bins: the scaled value over the
divisor when the divisor is positive, and 0 otherwise. -/
def normalizedBin (fftResult : List ℚ) (sensitivity : ℚ) (normalizationEnabled : Bool)
    (n i : Nat) : ℚ :=
  if tickDivisor fftResult sensitivity normalizationEnabled n > 0 then
    scaledBin fftResult sensitivity i / tickDivisor fftResult sensitivity normalizationEnabled n
  else 0

/-- The number of bins that `analyzeAudio` processes for a transform output:
`std::min<int>(fftResult.size(), kNumFFTBins / 2)`. -/
def spectrumSize (fftResult : List ℚ) : Nat := min fftResult.length (kNumFFTBins / 2)

/-- The predicate that every spectrum value and every smoothed band energy of the engine
lies in the interval from 0 to 1. -/
def UnitRange (self : AudioReactivityManager) : Prop :=
  (∀ x ∈ self.fftSmoothed, 0 ≤ x ∧ x ≤ 1) ∧ (∀ x ∈ self.smoothedBands, 0 ≤ x ∧ x ≤ 1)

/-- A newly constructed engine that is enabled and has a parameter store and a
transform, so that `update` runs its tick. -/
def runningEngine : AudioReactivityManager :=
  { AudioReactivityManager.new [] with
    enabled := true
    paramManager := some ParameterManager.new
    fft := some ⟨1024, []⟩ }

/-! ## The float computations of the engine in binary32 -/

/-- Modelled from the spec: the library call `ofClamp(value, min, max)` on floats,
`value < min ? min : value > max ? max : value`, where a comparison with NaN is false. -/
def ofClampF32 (value min max : FloatVal) : FloatVal :=
  if value.lt min then min else if max.lt value then max else value

/-- The value that `applyMappings` dispatches for a mapping, in binary32
(AudioReactivityManager.cpp:242-246): `min + value * scale * (max - min)`, then
`ofClamp(value, min, max)`. -/
def mappedValueF32 (value min scale max : FloatVal) : FloatVal :=
  let value := min.add ((value.mul scale).mul (max.sub min))
  ofClampF32 value min max

/-- The smoothing statement of `groupBands` in binary32 (AudioReactivityManager.cpp:231):
`average * (1.0f - smoothing) + smoothedBands[i] * smoothing`. -/
def smoothBandF32 (average old smoothing : FloatVal) : FloatVal :=
  (average.mul ((FloatVal.finite 1).sub smoothing)).add (old.mul smoothing)

/-- The library object `ofxFft` with a binary32 signal. -/
structure OfxFftF32 where
  signalSize : Nat
  signal : List FloatVal
  deriving DecidableEq

/-- The members of `AudioReactivityManager` that `audioIn` and `analyzeAudio` read or
write (AudioReactivityManager.h:104-132), the floats as binary32 values. -/
structure AudioReactivityManagerF32 where
  sensitivity : FloatVal
  smoothing : FloatVal
  normalizationEnabled : Bool
  bufferSize : Nat
  fft : Option OfxFftF32
  audioInputLevel : FloatVal
  audioBuffer : List FloatVal
  fftSpectrum : List FloatVal
  fftSmoothed : List FloatVal
  deriving DecidableEq

/-- The call `v.resize(n, 0.0f)` on a vector of binary32 values. -/
def resizeF32 (v : List FloatVal) (n : Nat) : List FloatVal :=
  v.take n ++ List.replicate (n - v.length) (FloatVal.finite 0)

/-- The members after the constructor (AudioReactivityManager.cpp:4-21), as binary32
values: sensitivity `1.0f`, smoothing `0.85f`, zeroed buffers. -/
def constructedF32 : AudioReactivityManagerF32 where
  sensitivity := FloatVal.finite 1
  smoothing := roundBinary32 (85 / 100)
  normalizationEnabled := true
  bufferSize := 1024
  fft := none
  audioInputLevel := FloatVal.finite 0
  audioBuffer := resizeF32 [] 1024
  fftSpectrum := resizeF32 [] (kNumFFTBins / 2)
  fftSmoothed := resizeF32 [] (kNumFFTBins / 2)

/-- The NaN/Inf check of `audioIn` on a binary32 sample
(AudioReactivityManager.cpp:548-551). -/
def sanitizeSampleF32 (sample : FloatVal) : FloatVal :=
  if sample.isnan || sample.isinf then FloatVal.finite 0 else sample

/-- The sample loop of `audioIn` in binary32 (AudioReactivityManager.cpp:546-554). -/
def audioInLoopF32 : List FloatVal → Nat → List FloatVal → FloatVal →
    List FloatVal × FloatVal
  | [], _, audioBuffer, sumSquared => (audioBuffer, sumSquared)
  | x :: rest, i, audioBuffer, sumSquared =>
    let sample : FloatVal := sanitizeSampleF32 x
    audioInLoopF32 rest (i + 1) (audioBuffer.set i sample)
      (sumSquared.add (sample.mul sample))

/-- Method `AudioReactivityManager::audioIn` in binary32
(AudioReactivityManager.cpp:526-580), for the mono stream the engine opens. The divisor
`numSamples` is converted to float; the level is the rounded square root of the rounded
quotient. -/
def audioInF32 (self : AudioReactivityManagerF32) (input : List FloatVal) :
    AudioReactivityManagerF32 :=
  if input.length = 0 then self
  else
    let audioBuffer :=
      if self.audioBuffer.length ≠ self.bufferSize then
        resizeF32 self.audioBuffer self.bufferSize
      else self.audioBuffer
    let numSamples := min input.length self.bufferSize
    let result := audioInLoopF32 (input.take numSamples) 0 audioBuffer (FloatVal.finite 0)
    { self with
      audioBuffer := result.1
      audioInputLevel := (result.2.div (roundBinary32 (numSamples : ℚ))).sqrt
      fft := self.fft.map fun fft => { fft with signal := result.1.take fft.signalSize } }

/-- One iteration of the first loop of `analyzeAudio` in binary32
(AudioReactivityManager.cpp:160-170); `powf(x, 2.0f)` is the rounded square. -/
def analyzeScaleStepF32 (fftResult : List FloatVal) (sensitivity : FloatVal)
    (normalizationEnabled : Bool) (acc : FloatVal × List FloatVal) (i : Nat) :
    FloatVal × List FloatVal :=
  let x := ((fftResult.getD i (FloatVal.finite 0)).mul sensitivity).mul (FloatVal.finite 10)
  let value := x.mul x
  let maxVal := if normalizationEnabled = true then acc.1.stdMax value else acc.1
  (maxVal, acc.2.set i value)

/-- One iteration of the second loop of `analyzeAudio` in binary32
(AudioReactivityManager.cpp:177-183). -/
def analyzeSmoothStepF32 (maxVal smoothing : FloatVal) (fftSpectrum : List FloatVal)
    (fftSmoothed : List FloatVal) (i : Nat) : List FloatVal :=
  let processedValue :=
    if (FloatVal.finite 0).lt maxVal then (fftSpectrum.getD i (FloatVal.finite 0)).div maxVal
    else FloatVal.finite 0
  fftSmoothed.set i
    (((fftSmoothed.getD i (FloatVal.finite 0)).mul smoothing).stdMax
      (processedValue.mul ((FloatVal.finite 1).sub smoothing)))

/-- Method `AudioReactivityManager::analyzeAudio` in binary32
(AudioReactivityManager.cpp:135-184). -/
def analyzeAudioF32 (self : AudioReactivityManagerF32) (fftResult : List FloatVal) :
    AudioReactivityManagerF32 :=
  if fftResult.isEmpty then self
  else
    let spectrumSize := min fftResult.length (kNumFFTBins / 2)
    let self :=
      if self.fftSpectrum.length ≠ spectrumSize then
        { self with
          fftSpectrum := resizeF32 self.fftSpectrum spectrumSize
          fftSmoothed := resizeF32 self.fftSmoothed spectrumSize }
      else self
    let scaled := (List.range spectrumSize).foldl
      (analyzeScaleStepF32 fftResult self.sensitivity self.normalizationEnabled)
      (FloatVal.finite 0, self.fftSpectrum)
    let maxVal := if self.normalizationEnabled = true then scaled.1 else FloatVal.finite 1
    { self with
      fftSpectrum := scaled.2
      fftSmoothed := (List.range spectrumSize).foldl
        (analyzeSmoothStepF32 maxVal self.smoothing scaled.2) self.fftSmoothed }

/-- The mapping that `loadFromXml` reads from the tag that `saveToXml` writes for a
mapping: the floats `scale`, `min` and `max` have passed through their text form. -/
def BandMapping.readBack (mapping : BandMapping) : BandMapping :=
  { mapping with
    scale := textRoundTrip mapping.scale
    min := textRoundTrip mapping.min
    max := textRoundTrip mapping.max }

/-- A mapping whose scale is the float `1 + 2^(-20)`, which has more than six significant
decimal digits. -/
def fineScaleMapping : BandMapping := ⟨0, "x_displace", 1048577 / 1048576, 0, 1, false⟩

/-! ## Example floats -/

/-- The float `3e38f`, the binary32 value nearest to `3 * 10^38`. -/
def float3e38 : ℚ := 300000000549775575777803994281145270272

/-- The float `1e20f`, the binary32 value nearest to `10^20`. -/
def float1e20 : ℚ := 100000002004087734272

/-- The float `0.10877647f`. -/
def float0108 : ℚ := 14599731 / 134217728

/-- The float `0.99f`, the binary32 value nearest to `0.99`. -/
def float099 : ℚ := 4152361 / 4194304

/-- The sum of the squares of a block of binary32 samples, accumulated in order from 0 as
the loop of `audioIn` does. -/
def sumSquaresF32 (samples : List FloatVal) : FloatVal :=
  samples.foldl (fun sum sample => sum.add (sample.mul sample)) (FloatVal.finite 0)

/-- The engine after one `groupBands` tick on the spectrum `[0, 0, 0, 2, 2, 2]` with
smoothing 0.5, which leaves band 1 (bins 3..5) the raw energy 2 and the smoothed energy
1, and a load of `mismatchedDoc` (4 bands, one range, smoothing 0.85): band 1 keeps its
energies and has no range. -/
def rangelessBandEngine : Option AudioReactivityManager :=
  loadFromXml
    (groupBands (engineWithSpectrum [0, 0, 0, 2, 2, 2] [0, 0, 0, 0, 0, 0, 0, 0] (1 / 2)))
    mismatchedDoc

/-- A float that is `+Inf` or a finite value that is not negative: not NaN, not negative. -/
def FloatVal.IsNonnegOrInf (x : FloatVal) : Prop :=
  x = FloatVal.posInf ∨ ∃ r : ℚ, 0 ≤ r ∧ x = FloatVal.finite r

/-! ## Theorems -/

/-! ### Parameter store: framing -/

@[simp]
theorem recordParameter_lumaKeyLevel (pm : ParameterManager) (i : Int) (v : ℚ) :
    (pm.recordParameter i v).lumaKeyLevel = pm.lumaKeyLevel := by
  unfold ParameterManager.recordParameter
  split_ifs <;> rfl

@[simp]
theorem recordParameter_xDisplace (pm : ParameterManager) (i : Int) (v : ℚ) :
    (pm.recordParameter i v).xDisplace = pm.xDisplace := by
  unfold ParameterManager.recordParameter
  split_ifs <;> rfl

@[simp]
theorem recordParameter_yDisplace (pm : ParameterManager) (i : Int) (v : ℚ) :
    (pm.recordParameter i v).yDisplace = pm.yDisplace := by
  unfold ParameterManager.recordParameter
  split_ifs <;> rfl

@[simp]
theorem recordParameter_zFrequency (pm : ParameterManager) (i : Int) (v : ℚ) :
    (pm.recordParameter i v).zFrequency = pm.zFrequency := by
  unfold ParameterManager.recordParameter
  split_ifs <;> rfl

@[simp]
theorem recordParameter_xFrequency (pm : ParameterManager) (i : Int) (v : ℚ) :
    (pm.recordParameter i v).xFrequency = pm.xFrequency := by
  unfold ParameterManager.recordParameter
  split_ifs <;> rfl

@[simp]
theorem recordParameter_yFrequency (pm : ParameterManager) (i : Int) (v : ℚ) :
    (pm.recordParameter i v).yFrequency = pm.yFrequency := by
  unfold ParameterManager.recordParameter
  split_ifs <;> rfl

@[simp]
theorem recordParameter_zoom (pm : ParameterManager) (i : Int) (v : ℚ) :
    (pm.recordParameter i v).zoom = pm.zoom := by
  unfold ParameterManager.recordParameter
  split_ifs <;> rfl

@[simp]
theorem recordParameter_scale (pm : ParameterManager) (i : Int) (v : ℚ) :
    (pm.recordParameter i v).scale = pm.scale := by
  unfold ParameterManager.recordParameter
  split_ifs <;> rfl

@[simp]
theorem recordParameter_centerX (pm : ParameterManager) (i : Int) (v : ℚ) :
    (pm.recordParameter i v).centerX = pm.centerX := by
  unfold ParameterManager.recordParameter
  split_ifs <;> rfl

@[simp]
theorem recordParameter_centerY (pm : ParameterManager) (i : Int) (v : ℚ) :
    (pm.recordParameter i v).centerY = pm.centerY := by
  unfold ParameterManager.recordParameter
  split_ifs <;> rfl

@[simp]
theorem recordParameter_zLfoArg (pm : ParameterManager) (i : Int) (v : ℚ) :
    (pm.recordParameter i v).zLfoArg = pm.zLfoArg := by
  unfold ParameterManager.recordParameter
  split_ifs <;> rfl

@[simp]
theorem recordParameter_zLfoAmp (pm : ParameterManager) (i : Int) (v : ℚ) :
    (pm.recordParameter i v).zLfoAmp = pm.zLfoAmp := by
  unfold ParameterManager.recordParameter
  split_ifs <;> rfl

@[simp]
theorem recordParameter_xLfoArg (pm : ParameterManager) (i : Int) (v : ℚ) :
    (pm.recordParameter i v).xLfoArg = pm.xLfoArg := by
  unfold ParameterManager.recordParameter
  split_ifs <;> rfl

@[simp]
theorem recordParameter_xLfoAmp (pm : ParameterManager) (i : Int) (v : ℚ) :
    (pm.recordParameter i v).xLfoAmp = pm.xLfoAmp := by
  unfold ParameterManager.recordParameter
  split_ifs <;> rfl

@[simp]
theorem recordParameter_yLfoArg (pm : ParameterManager) (i : Int) (v : ℚ) :
    (pm.recordParameter i v).yLfoArg = pm.yLfoArg := by
  unfold ParameterManager.recordParameter
  split_ifs <;> rfl

@[simp]
theorem recordParameter_yLfoAmp (pm : ParameterManager) (i : Int) (v : ℚ) :
    (pm.recordParameter i v).yLfoAmp = pm.yLfoAmp := by
  unfold ParameterManager.recordParameter
  split_ifs <;> rfl

@[simp]
theorem recordParameter_rotateX (pm : ParameterManager) (i : Int) (v : ℚ) :
    (pm.recordParameter i v).rotateX = pm.rotateX := by
  unfold ParameterManager.recordParameter
  split_ifs <;> rfl

@[simp]
theorem recordParameter_rotateY (pm : ParameterManager) (i : Int) (v : ℚ) :
    (pm.recordParameter i v).rotateY = pm.rotateY := by
  unfold ParameterManager.recordParameter
  split_ifs <;> rfl

@[simp]
theorem recordParameter_rotateZ (pm : ParameterManager) (i : Int) (v : ℚ) :
    (pm.recordParameter i v).rotateZ = pm.rotateZ := by
  unfold ParameterManager.recordParameter
  split_ifs <;> rfl

@[simp]
theorem recordParameter_globalXDisplace (pm : ParameterManager) (i : Int) (v : ℚ) :
    (pm.recordParameter i v).globalXDisplace = pm.globalXDisplace := by
  unfold ParameterManager.recordParameter
  split_ifs <;> rfl

@[simp]
theorem recordParameter_globalYDisplace (pm : ParameterManager) (i : Int) (v : ℚ) :
    (pm.recordParameter i v).globalYDisplace = pm.globalYDisplace := by
  unfold ParameterManager.recordParameter
  split_ifs <;> rfl

@[simp]
theorem recordParameter_strokeWeight (pm : ParameterManager) (i : Int) (v : ℚ) :
    (pm.recordParameter i v).strokeWeight = pm.strokeWeight := by
  unfold ParameterManager.recordParameter
  split_ifs <;> rfl

@[simp]
theorem recordParameter_recordingEnabled (pm : ParameterManager) (i : Int) (v : ℚ) :
    (pm.recordParameter i v).recordingEnabled = pm.recordingEnabled := by
  unfold ParameterManager.recordParameter
  split_ifs <;> rfl

@[simp]
theorem recordParameter_currentStep (pm : ParameterManager) (i : Int) (v : ℚ) :
    (pm.recordParameter i v).currentStep = pm.currentStep := by
  unfold ParameterManager.recordParameter
  split_ifs <;> rfl

@[simp]
theorem recordParameter_pLockSmoothedValues (pm : ParameterManager) (i : Int) (v : ℚ) :
    (pm.recordParameter i v).pLockSmoothedValues = pm.pLockSmoothedValues := by
  unfold ParameterManager.recordParameter
  split_ifs <;> rfl

theorem getValue_dispatch_same (pm : ParameterManager) (paramId : String) (v : ℚ)
    (a : Bool) (hid : paramId ∈ knownParamIds) :
    getValue (dispatchParameter pm paramId v a) paramId =
      (if a = true then getValue pm paramId else 0) + writtenValue paramId v
        + pLockOverlay pm paramId := by
  simp only [knownParamIds, List.mem_cons, List.mem_singleton, List.not_mem_nil,
    or_false] at hid
  rcases hid with rfl | rfl | rfl | rfl | rfl | rfl | rfl | rfl | rfl | rfl | rfl | rfl | rfl | rfl | rfl | rfl | rfl | rfl | rfl | rfl | rfl | rfl <;> cases a <;>
  simp [dispatchParameter, getValue, writtenValue, pLockOverlay,
    ParameterManager.getLumaKeyLevel, ParameterManager.setLumaKeyLevel,
    ParameterManager.getXDisplace, ParameterManager.setXDisplace,
    ParameterManager.getYDisplace, ParameterManager.setYDisplace,
    ParameterManager.getZFrequency, ParameterManager.setZFrequency,
    ParameterManager.getXFrequency, ParameterManager.setXFrequency,
    ParameterManager.getYFrequency, ParameterManager.setYFrequency,
    ParameterManager.getZoom, ParameterManager.setZoom, ParameterManager.getScale,
    ParameterManager.setScale, ParameterManager.getCenterX, ParameterManager.setCenterX,
    ParameterManager.getCenterY, ParameterManager.setCenterY, ParameterManager.getZLfoArg,
    ParameterManager.setZLfoArg, ParameterManager.getZLfoAmp, ParameterManager.setZLfoAmp,
    ParameterManager.getXLfoArg, ParameterManager.setXLfoArg, ParameterManager.getXLfoAmp,
    ParameterManager.setXLfoAmp, ParameterManager.getYLfoArg, ParameterManager.setYLfoArg,
    ParameterManager.getYLfoAmp, ParameterManager.setYLfoAmp, ParameterManager.getRotateX,
    ParameterManager.setRotateX, ParameterManager.getRotateY, ParameterManager.setRotateY,
    ParameterManager.getRotateZ, ParameterManager.setRotateZ,
    ParameterManager.getGlobalXDisplace, ParameterManager.setGlobalXDisplace,
    ParameterManager.getGlobalYDisplace, ParameterManager.setGlobalYDisplace,
    ParameterManager.getStrokeWeight, ParameterManager.setStrokeWeight]

theorem dispatch_unknown (pm : ParameterManager) (paramId : String) (v : ℚ) (a : Bool)
    (hid : paramId ∉ knownParamIds) : dispatchParameter pm paramId v a = pm := by
  simp only [knownParamIds, List.mem_cons, List.mem_singleton, List.not_mem_nil,
    or_false, not_or] at hid
  simp [dispatchParameter, hid]

theorem getValue_dispatch_other (pm : ParameterManager) (paramId other : String) (v : ℚ)
    (a : Bool) (hne : other ≠ paramId) :
    getValue (dispatchParameter pm other v a) paramId = getValue pm paramId := by
  by_cases hk : other ∈ knownParamIds
  · have hne2 := Ne.symm hne
    simp only [knownParamIds, List.mem_cons, List.mem_singleton, List.not_mem_nil,
      or_false] at hk
    rcases hk with rfl | rfl | rfl | rfl | rfl | rfl | rfl | rfl | rfl | rfl | rfl | rfl | rfl | rfl | rfl | rfl | rfl | rfl | rfl | rfl | rfl | rfl <;> cases a <;>
    simp [dispatchParameter, getValue, hne2,
      ParameterManager.getLumaKeyLevel, ParameterManager.setLumaKeyLevel,
      ParameterManager.getXDisplace, ParameterManager.setXDisplace,
      ParameterManager.getYDisplace, ParameterManager.setYDisplace,
      ParameterManager.getZFrequency, ParameterManager.setZFrequency,
      ParameterManager.getXFrequency, ParameterManager.setXFrequency,
      ParameterManager.getYFrequency, ParameterManager.setYFrequency,
      ParameterManager.getZoom, ParameterManager.setZoom, ParameterManager.getScale,
      ParameterManager.setScale, ParameterManager.getCenterX, ParameterManager.setCenterX,
      ParameterManager.getCenterY, ParameterManager.setCenterY,
      ParameterManager.getZLfoArg, ParameterManager.setZLfoArg,
      ParameterManager.getZLfoAmp, ParameterManager.setZLfoAmp,
      ParameterManager.getXLfoArg, ParameterManager.setXLfoArg,
      ParameterManager.getXLfoAmp, ParameterManager.setXLfoAmp,
      ParameterManager.getYLfoArg, ParameterManager.setYLfoArg,
      ParameterManager.getYLfoAmp, ParameterManager.setYLfoAmp,
      ParameterManager.getRotateX, ParameterManager.setRotateX,
      ParameterManager.getRotateY, ParameterManager.setRotateY,
      ParameterManager.getRotateZ, ParameterManager.setRotateZ,
      ParameterManager.getGlobalXDisplace, ParameterManager.setGlobalXDisplace,
      ParameterManager.getGlobalYDisplace, ParameterManager.setGlobalYDisplace,
      ParameterManager.getStrokeWeight, ParameterManager.setStrokeWeight]
  · rw [dispatch_unknown pm other v a hk]

theorem dispatch_smoothed (pm : ParameterManager) (paramId : String) (v : ℚ) (a : Bool) :
    (dispatchParameter pm paramId v a).pLockSmoothedValues = pm.pLockSmoothedValues := by
  by_cases hk : paramId ∈ knownParamIds
  · simp only [knownParamIds, List.mem_cons, List.mem_singleton, List.not_mem_nil,
      or_false] at hk
    rcases hk with rfl | rfl | rfl | rfl | rfl | rfl | rfl | rfl | rfl | rfl | rfl | rfl | rfl | rfl | rfl | rfl | rfl | rfl | rfl | rfl | rfl | rfl <;> cases a <;>
    simp [dispatchParameter,
      ParameterManager.getLumaKeyLevel, ParameterManager.setLumaKeyLevel,
      ParameterManager.getXDisplace, ParameterManager.setXDisplace,
      ParameterManager.getYDisplace, ParameterManager.setYDisplace,
      ParameterManager.getZFrequency, ParameterManager.setZFrequency,
      ParameterManager.getXFrequency, ParameterManager.setXFrequency,
      ParameterManager.getYFrequency, ParameterManager.setYFrequency,
      ParameterManager.getZoom, ParameterManager.setZoom, ParameterManager.getScale,
      ParameterManager.setScale, ParameterManager.getCenterX, ParameterManager.setCenterX,
      ParameterManager.getCenterY, ParameterManager.setCenterY,
      ParameterManager.getZLfoArg, ParameterManager.setZLfoArg,
      ParameterManager.getZLfoAmp, ParameterManager.setZLfoAmp,
      ParameterManager.getXLfoArg, ParameterManager.setXLfoArg,
      ParameterManager.getXLfoAmp, ParameterManager.setXLfoAmp,
      ParameterManager.getYLfoArg, ParameterManager.setYLfoArg,
      ParameterManager.getYLfoAmp, ParameterManager.setYLfoAmp,
      ParameterManager.getRotateX, ParameterManager.setRotateX,
      ParameterManager.getRotateY, ParameterManager.setRotateY,
      ParameterManager.getRotateZ, ParameterManager.setRotateZ,
      ParameterManager.getGlobalXDisplace, ParameterManager.setGlobalXDisplace,
      ParameterManager.getGlobalYDisplace, ParameterManager.setGlobalYDisplace,
      ParameterManager.getStrokeWeight, ParameterManager.setStrokeWeight]
  · rw [dispatch_unknown pm paramId v a hk]

/-! ### Mapping engine: the loop -/

theorem applyParameterValue_numBands (self : AudioReactivityManager) (paramId : String)
    (v : ℚ) (a : Bool) : (applyParameterValue self paramId v a).numBands = self.numBands := by
  unfold applyParameterValue
  split <;> rfl

theorem applyParameterValue_smoothedBands (self : AudioReactivityManager) (paramId : String)
    (v : ℚ) (a : Bool) :
    (applyParameterValue self paramId v a).smoothedBands = self.smoothedBands := by
  unfold applyParameterValue
  split <;> rfl

theorem step_numBands (self : AudioReactivityManager) (m : BandMapping) :
    (applyMappingsStep self m).numBands = self.numBands := by
  unfold applyMappingsStep
  split_ifs
  · exact applyParameterValue_numBands _ _ _ _
  · rfl

theorem step_smoothedBands (self : AudioReactivityManager) (m : BandMapping) :
    (applyMappingsStep self m).smoothedBands = self.smoothedBands := by
  unfold applyMappingsStep
  split_ifs
  · exact applyParameterValue_smoothedBands _ _ _ _
  · rfl

theorem foldl_step_numBands (l : List BandMapping) (self : AudioReactivityManager) :
    (l.foldl applyMappingsStep self).numBands = self.numBands := by
  induction l generalizing self with
  | nil => rfl
  | cons m l ih => rw [List.foldl_cons, ih, step_numBands]

theorem foldl_step_smoothedBands (l : List BandMapping) (self : AudioReactivityManager) :
    (l.foldl applyMappingsStep self).smoothedBands = self.smoothedBands := by
  induction l generalizing self with
  | nil => rfl
  | cons m l ih => rw [List.foldl_cons, ih, step_smoothedBands]

/-- The loop of `applyMappings` visits the mappings before `m`, then `m`, then the rest. -/
theorem applyMappings_split (self : AudioReactivityManager) (pre post : List BandMapping)
    (m : BandMapping) (hm : self.mappings = pre ++ m :: post) :
    applyMappings self =
      post.foldl applyMappingsStep
        (applyMappingsStep (pre.foldl applyMappingsStep self) m) := by
  unfold applyMappings
  rw [hm, List.foldl_append, List.foldl_cons]

/-- A mapping whose band is in range dispatches the clamped value, whatever the
mappings before it did. -/
theorem step_in_range (self : AudioReactivityManager) (pre : List BandMapping)
    (m : BandMapping) (h0 : 0 ≤ m.band) (h1 : m.band < self.numBands) :
    applyMappingsStep (pre.foldl applyMappingsStep self) m =
      applyParameterValue (pre.foldl applyMappingsStep self) m.paramId
        (ofClamp (m.min + self.smoothedBands.getD m.band.toNat 0 * m.scale * (m.max - m.min))
          m.min m.max) m.additive := by
  have h1s : m.band < (pre.foldl applyMappingsStep self).numBands := by
    rw [foldl_step_numBands]
    exact h1
  have hs : ∀ s : AudioReactivityManager, m.band < s.numBands →
      applyMappingsStep s m =
        applyParameterValue s m.paramId
          (ofClamp (m.min + s.smoothedBands.getD m.band.toNat 0 * m.scale * (m.max - m.min))
            m.min m.max) m.additive := by
    intro s hlt
    unfold applyMappingsStep
    rw [if_pos ⟨h0, hlt⟩]
  rw [hs _ h1s, foldl_step_smoothedBands]

theorem storeValue_applyParameterValue (self : AudioReactivityManager)
    (pm : ParameterManager) (hpm : self.paramManager = some pm) (other paramId : String)
    (v : ℚ) (a : Bool) :
    storeValue (applyParameterValue self other v a) paramId =
      some (getValue (dispatchParameter pm other v a) paramId) := by
  unfold applyParameterValue storeValue
  rw [hpm]
  rfl

/-! ### Claims on the mapping engine -/

/-- C1: a mapping whose band is in `[0, numBands)` makes `applyMappings` dispatch
`clamp(min + v*scale*(max-min), min, max)` for the smoothed band value `v`, between the
dispatches of the mappings before and after it; with `min = -0.5`, `max = 0.5`,
`scale = 2` and `v = 0.3` the dispatched value is `0.1`. -/
theorem applyMappings_dispatches_clamped (self : AudioReactivityManager)
    (pre post : List BandMapping) (m : BandMapping)
    (hm : self.mappings = pre ++ m :: post)
    (h0 : 0 ≤ m.band) (h1 : m.band < self.numBands) :
    applyMappings self =
      post.foldl applyMappingsStep
        (applyParameterValue (pre.foldl applyMappingsStep self) m.paramId
          (ofClamp
            (m.min + self.smoothedBands.getD m.band.toNat 0 * m.scale * (m.max - m.min))
            m.min m.max)
          m.additive)
    ∧ (m.min = -1 / 2 → m.max = 1 / 2 → m.scale = 2 →
        self.smoothedBands.getD m.band.toNat 0 = 3 / 10 →
        applyMappings self =
          post.foldl applyMappingsStep
            (applyParameterValue (pre.foldl applyMappingsStep self) m.paramId (1 / 10)
              m.additive)) := by
  have key := applyMappings_split self pre post m hm
  rw [step_in_range self pre m h0 h1] at key
  refine ⟨key, ?_⟩
  intro hmin hmax hscale hv
  rw [key, hmin, hmax, hscale, hv]
  have : ofClamp (-1 / 2 + 3 / 10 * 2 * (1 / 2 - -1 / 2)) (-1 / 2) (1 / 2) = (1 / 10 : ℚ) := by
    unfold ofClamp
    norm_num
  rw [this]

/-- Witness of C1: with the `x_displace` mapping of `ofApp::setupAudioReactivity` and a
brilliance band at `0.3`, the parameter store reads back exactly `0.1`. -/
theorem applyMappings_dispatches_clamped_witness :
    storeValue (applyMappings
      (engineWith ParameterManager.new [0, 0, 0, 0, 0, 0, 3 / 10, 0] [xMapping]))
      "x_displace" = some (1 / 10) := by
  have h := (applyMappings_dispatches_clamped
    (engineWith ParameterManager.new [0, 0, 0, 0, 0, 0, 3 / 10, 0] [xMapping])
    [] [] xMapping rfl (by decide) (by decide)).2 rfl rfl rfl rfl
  rw [h]
  simp only [List.foldl_nil]
  rw [storeValue_applyParameterValue _ ParameterManager.new rfl]
  show some (getValue (dispatchParameter ParameterManager.new "x_displace" (1 / 10) false)
    "x_displace") = some (1 / 10)
  rw [getValue_dispatch_same _ _ _ _ (by decide)]
  simp [writtenValue, pLockOverlay, ParameterManager.new]

theorem ofClamp_bounds (value lo hi : ℚ) (h : lo ≤ hi) :
    lo ≤ ofClamp value lo hi ∧ ofClamp value lo hi ≤ hi := by
  unfold ofClamp
  split_ifs with h1 h2
  · exact ⟨le_refl _, h⟩
  · exact ⟨h, le_refl _⟩
  · exact ⟨not_lt.mp h1, not_lt.mp h2⟩

/-- C3, as the claim states it, fails: with a non-zero smoothed P-Lock value the getter
of `x_displace` reads `1.1` after the output `0.1` was applied with `additive = false`,
and the `int` parameter `scale` reads `0` after the output `0.5`. -/
theorem applyParameterValue_replace_not_exact :
    storeValue (applyParameterValue (engineWith (overlaidStore 0) [] []) "x_displace"
      (1 / 10) false) "x_displace" = some (11 / 10)
    ∧ storeValue (applyParameterValue (engineWith ParameterManager.new [] []) "scale"
      (1 / 2) false) "scale" = some 0 := by
  constructor
  · rw [storeValue_applyParameterValue _ (overlaidStore 0) rfl,
      getValue_dispatch_same _ _ _ _ (by decide)]
    simp [writtenValue, pLockOverlay, overlaidStore]
    norm_num
  · rw [storeValue_applyParameterValue _ ParameterManager.new rfl,
      getValue_dispatch_same _ _ _ _ (by decide)]
    simp [writtenValue, pLockOverlay, static_cast_int]
    decide

/-- C3, amended: applying an output with `additive = false` to a known parameter id makes
the getter of that id read the written value plus the P-Lock overlay of the parameter;
the written value is the output, truncated toward zero for the `int` parameter `scale`,
and the overlay is absent for the parameters without a P-Lock track. -/
theorem applyParameterValue_replace (self : AudioReactivityManager) (pm : ParameterManager)
    (paramId : String) (value : ℚ)
    (hpm : self.paramManager = some pm) (hid : paramId ∈ knownParamIds) :
    storeValue (applyParameterValue self paramId value false) paramId =
      some (writtenValue paramId value + pLockOverlay pm paramId) := by
  rw [storeValue_applyParameterValue self pm hpm, getValue_dispatch_same pm paramId value
    false hid]
  simp

/-- Witness of C3 amended: without overlay, `x_displace` reads back exactly `0.1`. -/
theorem applyParameterValue_replace_witness :
    storeValue (applyParameterValue (engineWith ParameterManager.new [] []) "x_displace"
      (1 / 10) false) "x_displace" = some (1 / 10) := by
  rw [applyParameterValue_replace (engineWith ParameterManager.new [] [])
    ParameterManager.new "x_displace" (1 / 10) rfl (by decide)]
  simp [writtenValue, pLockOverlay, ParameterManager.new]

/-- C4, as the claim states it, fails: with stored `0.2` and smoothed P-Lock value 1 the
getter reads `1.2` before and `2.3` after an additive `0.1` (not `1.3`), and the stored
member goes from `0.2` to `1.3` (not `0.3`). -/
theorem applyParameterValue_additive_not_exact :
    storeValue (engineWith (overlaidStore (1 / 5)) [] []) "x_displace" = some (6 / 5)
    ∧ storeValue (applyParameterValue (engineWith (overlaidStore (1 / 5)) [] [])
        "x_displace" (1 / 10) true) "x_displace" = some (23 / 10)
    ∧ (applyParameterValue (engineWith (overlaidStore (1 / 5)) [] [])
        "x_displace" (1 / 10) true).paramManager.map (fun pm => pm.xDisplace)
        = some (13 / 10) := by
  refine ⟨?_, ?_, ?_⟩
  · show some (getValue (overlaidStore (1 / 5)) "x_displace") = some (6 / 5)
    simp [getValue, ParameterManager.getXDisplace, overlaidStore]
    norm_num
  · rw [storeValue_applyParameterValue _ (overlaidStore (1 / 5)) rfl,
      getValue_dispatch_same _ _ _ _ (by decide)]
    simp [getValue, ParameterManager.getXDisplace, writtenValue, pLockOverlay,
      overlaidStore]
    norm_num
  · show some (dispatchParameter (overlaidStore (1 / 5)) "x_displace" (1 / 10) true).xDisplace
      = some (13 / 10)
    simp [dispatchParameter, ParameterManager.setXDisplace,
      ParameterManager.getXDisplace, overlaidStore]
    norm_num

/-- C4, amended: applying an output with `additive = true` to a known parameter id makes
the getter of that id read its value before the call plus the written value plus the
P-Lock overlay of the parameter (the written value is the output, truncated toward zero
for `scale`); where the overlay is 0, stored `0.2` and increment `0.1` give `0.3`. -/
theorem applyParameterValue_additive (self : AudioReactivityManager) (pm : ParameterManager)
    (paramId : String) (value : ℚ)
    (hpm : self.paramManager = some pm) (hid : paramId ∈ knownParamIds) :
    storeValue self paramId = some (getValue pm paramId)
    ∧ storeValue (applyParameterValue self paramId value true) paramId =
      some (getValue pm paramId + writtenValue paramId value + pLockOverlay pm paramId) := by
  constructor
  · unfold storeValue
    rw [hpm]
    rfl
  · rw [storeValue_applyParameterValue self pm hpm, getValue_dispatch_same pm paramId value
      true hid]
    simp

/-- Witness of C4 amended: stored `0.2`, no overlay, increment `0.1`: the store reads
`0.3`. -/
theorem applyParameterValue_additive_witness :
    storeValue (applyParameterValue
      (engineWith { ParameterManager.new with xDisplace := 1 / 5 } [] [])
      "x_displace" (1 / 10) true) "x_displace" = some (3 / 10) := by
  rw [(applyParameterValue_additive
    (engineWith { ParameterManager.new with xDisplace := 1 / 5 } [] [])
    { ParameterManager.new with xDisplace := 1 / 5 } "x_displace" (1 / 10) rfl
    (by decide)).2]
  simp [getValue, ParameterManager.getXDisplace, writtenValue, pLockOverlay,
    ParameterManager.new]
  norm_num

theorem applyParameterValue_unknown (self : AudioReactivityManager) (paramId : String)
    (v : ℚ) (a : Bool) (hid : paramId ∉ knownParamIds) :
    applyParameterValue self paramId v a = self := by
  unfold applyParameterValue
  split
  · rfl
  · next pm heq =>
    rw [dispatch_unknown pm paramId v a hid, ← heq]

theorem storeValue_applyParameterValue_other (self : AudioReactivityManager)
    (other paramId : String) (v : ℚ) (a : Bool) (hne : other ≠ paramId) :
    storeValue (applyParameterValue self other v a) paramId = storeValue self paramId := by
  cases hpm : self.paramManager with
  | none =>
    unfold applyParameterValue
    rw [hpm]
  | some pm =>
    rw [storeValue_applyParameterValue self pm hpm, getValue_dispatch_other pm paramId other
      v a hne]
    unfold storeValue
    rw [hpm]
    rfl

theorem storeValue_step_other (self : AudioReactivityManager) (m : BandMapping)
    (paramId : String) (hne : m.paramId ≠ paramId) :
    storeValue (applyMappingsStep self m) paramId = storeValue self paramId := by
  unfold applyMappingsStep
  split_ifs
  · exact storeValue_applyParameterValue_other _ _ _ _ _ hne
  · rfl

theorem storeValue_foldl_other (l : List BandMapping) (self : AudioReactivityManager)
    (paramId : String) (hne : ∀ m ∈ l, m.paramId ≠ paramId) :
    storeValue (l.foldl applyMappingsStep self) paramId = storeValue self paramId := by
  induction l generalizing self with
  | nil => rfl
  | cons m l ih =>
    rw [List.foldl_cons, ih _ (fun m' hm' => hne m' (List.mem_cons_of_mem _ hm')),
      storeValue_step_other _ _ _ (hne m (List.mem_cons_self _ _))]

theorem pLockOverlay_congr (pm pm1 : ParameterManager) (paramId : String)
    (h : pm1.pLockSmoothedValues = pm.pLockSmoothedValues) :
    pLockOverlay pm1 paramId = pLockOverlay pm paramId := by
  unfold pLockOverlay
  rw [h]

theorem step_paramManager (self : AudioReactivityManager) (pm : ParameterManager)
    (m : BandMapping) (hpm : self.paramManager = some pm) :
    ∃ pm1, (applyMappingsStep self m).paramManager = some pm1
      ∧ pm1.pLockSmoothedValues = pm.pLockSmoothedValues := by
  unfold applyMappingsStep
  split_ifs
  · unfold applyParameterValue
    rw [hpm]
    exact ⟨_, rfl, dispatch_smoothed _ _ _ _⟩
  · exact ⟨pm, hpm, rfl⟩

theorem foldl_step_paramManager (l : List BandMapping) (self : AudioReactivityManager)
    (pm : ParameterManager) (hpm : self.paramManager = some pm) :
    ∃ pm1, (l.foldl applyMappingsStep self).paramManager = some pm1
      ∧ pm1.pLockSmoothedValues = pm.pLockSmoothedValues := by
  induction l generalizing self pm with
  | nil => exact ⟨pm, hpm, rfl⟩
  | cons m l ih =>
    obtain ⟨pm1, h1, h2⟩ := step_paramManager self pm m hpm
    obtain ⟨pm2, h3, h4⟩ := ih (applyMappingsStep self m) pm1 h1
    exact ⟨pm2, h3, h4.trans h2⟩

/-- C5: a mapping whose band is outside `[0, numBands)` or whose parameter id is unknown
is soft-ignored: evaluating it leaves the engine and the parameter store exactly as they
were, and the rest of the list is evaluated as if the mapping were absent. -/
theorem applyMappings_soft_ignore (self : AudioReactivityManager)
    (pre post : List BandMapping) (m : BandMapping)
    (hm : self.mappings = pre ++ m :: post)
    (hbad : m.band < 0 ∨ self.numBands ≤ m.band ∨ m.paramId ∉ knownParamIds) :
    applyMappingsStep (pre.foldl applyMappingsStep self) m = pre.foldl applyMappingsStep self
    ∧ applyMappings self = post.foldl applyMappingsStep (pre.foldl applyMappingsStep self) := by
  have hstep : applyMappingsStep (pre.foldl applyMappingsStep self) m
      = pre.foldl applyMappingsStep self := by
    have hs : ∀ s : AudioReactivityManager, s.numBands = self.numBands →
        applyMappingsStep s m = s := by
      intro s hn
      unfold applyMappingsStep
      split_ifs with hin
      · rcases hbad with hlt | hge | hid
        · exact absurd hin.1 (not_le.mpr hlt)
        · rw [hn] at hin
          exact absurd hin.2 (not_lt.mpr hge)
        · exact applyParameterValue_unknown _ _ _ _ hid
      · rfl
    exact hs _ (foldl_step_numBands pre self)
  refine ⟨hstep, ?_⟩
  rw [applyMappings_split self pre post m hm, hstep]

/-- Witness of C5: a mapping on band 8 of 8 and a mapping on an unknown id are skipped
and the `x_displace` mapping after them is still applied. -/
theorem applyMappings_soft_ignore_witness :
    storeValue (applyMappings
      (engineWith ParameterManager.new [0, 0, 0, 0, 0, 0, 3 / 10, 0]
        [⟨8, "zoom", 1, 0, 1, false⟩, ⟨6, "hue", 1, 0, 1, false⟩, xMapping]))
      "x_displace" = some (1 / 10) := by
  have h1 := (applyMappings_soft_ignore
    (engineWith ParameterManager.new [0, 0, 0, 0, 0, 0, 3 / 10, 0]
      [⟨8, "zoom", 1, 0, 1, false⟩, ⟨6, "hue", 1, 0, 1, false⟩, xMapping])
    [] [⟨6, "hue", 1, 0, 1, false⟩, xMapping] ⟨8, "zoom", 1, 0, 1, false⟩ rfl
    (Or.inr (Or.inl (by decide)))).2
  have h2 := (applyMappings_soft_ignore
    (engineWith ParameterManager.new [0, 0, 0, 0, 0, 0, 3 / 10, 0]
      [⟨6, "hue", 1, 0, 1, false⟩, xMapping])
    [] [xMapping] ⟨6, "hue", 1, 0, 1, false⟩ rfl
    (Or.inr (Or.inr (by decide)))).2
  rw [h1]
  unfold applyMappings at h2
  simp only [List.foldl_nil, List.foldl_cons] at h2 ⊢
  have h3 : applyMappingsStep
      (engineWith ParameterManager.new [0, 0, 0, 0, 0, 0, 3 / 10, 0]
        [⟨8, "zoom", 1, 0, 1, false⟩, ⟨6, "hue", 1, 0, 1, false⟩, xMapping])
      ⟨6, "hue", 1, 0, 1, false⟩
      = engineWith ParameterManager.new [0, 0, 0, 0, 0, 0, 3 / 10, 0]
        [⟨8, "zoom", 1, 0, 1, false⟩, ⟨6, "hue", 1, 0, 1, false⟩, xMapping] := by
    unfold applyMappingsStep
    rw [if_pos (by decide)]
    exact applyParameterValue_unknown _ _ _ _ (by decide)
  rw [h3]
  unfold applyMappingsStep
  rw [if_pos (by decide), storeValue_applyParameterValue _ ParameterManager.new rfl]
  show some (getValue (dispatchParameter ParameterManager.new "x_displace" _ false)
    "x_displace") = some (1 / 10)
  rw [getValue_dispatch_same _ _ _ _ (by decide)]
  simp [writtenValue, pLockOverlay, ParameterManager.new, ofClamp, engineWith, xMapping]
  norm_num

/-- C6, as the claim states it, fails: with a replacing mapping followed by an additive
mapping on the same parameter and band 0 at `0.25`, the stored value is `0.5` when the
earlier mapping has scale 1 and `0.75` when it has scale 2, although the later mapping
is the same (its own output is `0.25`). -/
theorem applyMappings_additive_later_merges :
    storeValue (applyMappings (engineWith ParameterManager.new [1 / 4] (replaceThenAdd 1)))
      "x_displace" = some (1 / 2)
    ∧ storeValue (applyMappings (engineWith ParameterManager.new [1 / 4] (replaceThenAdd 2)))
      "x_displace" = some (3 / 4) := by
  have key : ∀ sc : ℚ,
      storeValue (applyMappings (engineWith ParameterManager.new [1 / 4] (replaceThenAdd sc)))
        "x_displace" = some (ofClamp (1 / 4 * sc) 0 1 + 1 / 4) := by
    intro sc
    have hsplit := applyMappings_split
      (engineWith ParameterManager.new [1 / 4] (replaceThenAdd sc))
      [⟨0, "x_displace", sc, 0, 1, false⟩] [] ⟨0, "x_displace", 1, 0, 1, true⟩ rfl
    rw [hsplit, step_in_range _ _ _ (le_refl (0 : Int)) (by show (0 : Int) < 8; decide)]
    simp only [List.foldl_nil, List.foldl_cons]
    have hfirst := step_in_range
      (engineWith ParameterManager.new [1 / 4] (replaceThenAdd sc)) []
      ⟨0, "x_displace", sc, 0, 1, false⟩ (le_refl (0 : Int))
      (by show (0 : Int) < 8; decide)
    simp only [List.foldl_nil] at hfirst
    rw [hfirst]
    show storeValue (applyParameterValue (applyParameterValue
      (engineWith ParameterManager.new [1 / 4] (replaceThenAdd sc)) "x_displace" _ false)
      "x_displace" _ true) "x_displace" = _
    rw [storeValue_applyParameterValue _
      (dispatchParameter ParameterManager.new "x_displace" _ false) rfl,
      getValue_dispatch_same _ _ _ _ (by decide), getValue_dispatch_same _ _ _ _ (by decide),
      pLockOverlay_congr _ _ _ (dispatch_smoothed _ _ _ _)]
    simp [writtenValue, pLockOverlay, ParameterManager.new, engineWith]
    norm_num [ofClamp]
  constructor
  · rw [key 1]
    norm_num [ofClamp]
  · rw [key 2]
    norm_num [ofClamp]

/-- C6, amended: mappings are evaluated in list order, and when the last mapping of the
list that targets a known parameter id has its band in range and is not additive, the
value read for that parameter after `applyMappings` is that mapping's written value
(plus the P-Lock overlay of the getter) alone: it depends neither on the earlier
mappings nor on the value stored before. -/
theorem applyMappings_last_replace_wins (self : AudioReactivityManager)
    (pm : ParameterManager) (pre post : List BandMapping) (m : BandMapping)
    (hm : self.mappings = pre ++ m :: post)
    (hpm : self.paramManager = some pm)
    (h0 : 0 ≤ m.band) (h1 : m.band < self.numBands)
    (hadd : m.additive = false) (hid : m.paramId ∈ knownParamIds)
    (hpost : ∀ later ∈ post, later.paramId ≠ m.paramId) :
    storeValue (applyMappings self) m.paramId =
      some (writtenValue m.paramId
          (ofClamp
            (m.min + self.smoothedBands.getD m.band.toNat 0 * m.scale * (m.max - m.min))
            m.min m.max)
        + pLockOverlay pm m.paramId) := by
  obtain ⟨pm1, hpm1, hov⟩ := foldl_step_paramManager pre self pm hpm
  rw [applyMappings_split self pre post m hm, storeValue_foldl_other post _ _ hpost,
    step_in_range self pre m h0 h1, hadd,
    storeValue_applyParameterValue _ pm1 hpm1, getValue_dispatch_same pm1 _ _ _ hid,
    pLockOverlay_congr pm pm1 _ hov]
  simp

/-- Witness of C6 amended: an additive mapping followed by a replacing one on the same
parameter leaves the replacing mapping's output `0.25`. -/
theorem applyMappings_last_replace_wins_witness :
    storeValue (applyMappings (engineWith ParameterManager.new [1 / 4]
      [⟨0, "x_displace", 1, 0, 1, true⟩, ⟨0, "x_displace", 1, 0, 1, false⟩]))
      "x_displace" = some (1 / 4) := by
  rw [applyMappings_last_replace_wins
    (engineWith ParameterManager.new [1 / 4]
      [⟨0, "x_displace", 1, 0, 1, true⟩, ⟨0, "x_displace", 1, 0, 1, false⟩])
    ParameterManager.new [⟨0, "x_displace", 1, 0, 1, true⟩] []
    ⟨0, "x_displace", 1, 0, 1, false⟩ rfl rfl (by decide) (by decide) rfl (by decide)
    (by simp)]
  simp [writtenValue, pLockOverlay, ParameterManager.new, ofClamp, engineWith]
  norm_num

/-! ### Band aggregation -/

theorem groupBandsStep_frame (self : AudioReactivityManager) (i : Nat) :
    (groupBandsStep self i).fftSmoothed = self.fftSmoothed
    ∧ (groupBandsStep self i).bandRanges = self.bandRanges
    ∧ (groupBandsStep self i).smoothing = self.smoothing
    ∧ (groupBandsStep self i).numBands = self.numBands := by
  unfold groupBandsStep
  split_ifs <;> exact ⟨rfl, rfl, rfl, rfl⟩

theorem foldl_groupBandsStep_frame (l : List Nat) (self : AudioReactivityManager) :
    (l.foldl groupBandsStep self).fftSmoothed = self.fftSmoothed
    ∧ (l.foldl groupBandsStep self).bandRanges = self.bandRanges
    ∧ (l.foldl groupBandsStep self).smoothing = self.smoothing
    ∧ (l.foldl groupBandsStep self).numBands = self.numBands := by
  induction l generalizing self with
  | nil => exact ⟨rfl, rfl, rfl, rfl⟩
  | cons i l ih =>
    obtain ⟨h1, h2, h3, h4⟩ := ih (groupBandsStep self i)
    obtain ⟨g1, g2, g3, g4⟩ := groupBandsStep_frame self i
    exact ⟨h1.trans g1, h2.trans g2, h3.trans g3, h4.trans g4⟩

theorem groupBandsStep_smoothedBands (self : AudioReactivityManager) (i j : Nat) :
    (groupBandsStep self i).smoothedBands[j]? =
      if i = j ∧ i < self.bandRanges.length then
        self.smoothedBands[j]?.map fun old =>
          bandAverage self.fftSmoothed (self.bandRanges.getD j ⟨0, 0⟩) * (1 - self.smoothing)
            + old * self.smoothing
      else self.smoothedBands[j]? := by
  unfold groupBandsStep
  by_cases hr : i ≥ self.bandRanges.length
  · rw [if_pos hr, if_neg (fun h => absurd h.2 (not_lt.mpr hr))]
  · rw [if_neg hr]
    by_cases hij : i = j
    · subst hij
      rw [if_pos ⟨rfl, not_le.mp hr⟩]
      show (self.smoothedBands.set i _)[i]? = _
      rw [List.getElem?_set_self']
      cases h : self.smoothedBands[i]? with
      | none => rfl
      | some old => simp [h]
    · rw [if_neg (fun h => hij h.1)]
      show (self.smoothedBands.set i _)[j]? = _
      rw [List.getElem?_set_ne hij]

theorem groupBandsStep_bands (self : AudioReactivityManager) (i j : Nat) :
    (groupBandsStep self i).bands[j]? =
      if i = j ∧ i < self.bandRanges.length then
        self.bands[j]?.map fun _ =>
          bandAverage self.fftSmoothed (self.bandRanges.getD j ⟨0, 0⟩)
      else self.bands[j]? := by
  unfold groupBandsStep
  by_cases hr : i ≥ self.bandRanges.length
  · rw [if_pos hr, if_neg (fun h => absurd h.2 (not_lt.mpr hr))]
  · rw [if_neg hr]
    by_cases hij : i = j
    · subst hij
      rw [if_pos ⟨rfl, not_le.mp hr⟩]
      show (self.bands.set i _)[i]? = _
      rw [List.getElem?_set_self']
      cases h : self.bands[i]? with
      | none => rfl
      | some old => rfl
    · rw [if_neg (fun h => hij h.1)]
      show (self.bands.set i _)[j]? = _
      rw [List.getElem?_set_ne hij]

theorem foldl_range_smoothedBands (self : AudioReactivityManager) (n j : Nat) :
    ((List.range n).foldl groupBandsStep self).smoothedBands[j]? =
      if j < n ∧ j < self.bandRanges.length then
        self.smoothedBands[j]?.map fun old =>
          bandAverage self.fftSmoothed (self.bandRanges.getD j ⟨0, 0⟩) * (1 - self.smoothing)
            + old * self.smoothing
      else self.smoothedBands[j]? := by
  induction n with
  | zero => simp
  | succ n ih =>
    obtain ⟨h1, h2, h3, _⟩ := foldl_groupBandsStep_frame (List.range n) self
    rw [List.range_succ, List.foldl_append, List.foldl_cons, List.foldl_nil,
      groupBandsStep_smoothedBands, h1, h2, h3, ih]
    by_cases hnj : n = j
    · subst hnj
      by_cases hr : n < self.bandRanges.length
      · simp [hr]
      · simp [hr]
    · have hiff : j < n + 1 ↔ j < n := by omega
      simp [hnj, hiff]

theorem foldl_range_bands (self : AudioReactivityManager) (n j : Nat) :
    ((List.range n).foldl groupBandsStep self).bands[j]? =
      if j < n ∧ j < self.bandRanges.length then
        self.bands[j]?.map fun _ =>
          bandAverage self.fftSmoothed (self.bandRanges.getD j ⟨0, 0⟩)
      else self.bands[j]? := by
  induction n with
  | zero => simp
  | succ n ih =>
    obtain ⟨h1, h2, _, _⟩ := foldl_groupBandsStep_frame (List.range n) self
    rw [List.range_succ, List.foldl_append, List.foldl_cons, List.foldl_nil,
      groupBandsStep_bands, h1, h2, ih]
    by_cases hnj : n = j
    · subst hnj
      by_cases hr : n < self.bandRanges.length
      · simp [hr]
      · simp [hr]
    · have hiff : j < n + 1 ↔ j < n := by omega
      simp [hnj, hiff]

theorem groupBands_frame (self : AudioReactivityManager) :
    (groupBands self).fftSmoothed = self.fftSmoothed
    ∧ (groupBands self).bandRanges = self.bandRanges
    ∧ (groupBands self).smoothing = self.smoothing
    ∧ (groupBands self).numBands = self.numBands :=
  foldl_groupBandsStep_frame _ self

/-- The effect of one `groupBands` tick on the smoothed energy of a band that has a
range. -/
theorem groupBands_smoothed_at (self : AudioReactivityManager) (i : Nat) (old : ℚ)
    (range : BandRange) (hi : (i : Int) < self.numBands)
    (hr : self.bandRanges[i]? = some range) (hold : self.smoothedBands[i]? = some old) :
    (groupBands self).smoothedBands[i]? =
      some (bandAverage self.fftSmoothed range * (1 - self.smoothing) + old * self.smoothing) := by
  have hlen : i < self.bandRanges.length := by
    rcases List.getElem?_eq_some_iff.mp hr with ⟨h, _⟩
    exact h
  have hn : i < self.numBands.toNat := by omega
  have hget : self.bandRanges.getD i ⟨0, 0⟩ = range := by
    rw [List.getD_eq_getElem?_getD, hr]
    rfl
  unfold groupBands
  rw [foldl_range_smoothedBands, if_pos ⟨hn, hlen⟩, hold, hget]
  rfl

/-- The effect of one `groupBands` tick on the raw energy of a band that has a range. -/
theorem groupBands_bands_at (self : AudioReactivityManager) (i : Nat)
    (range : BandRange) (hi : (i : Int) < self.numBands)
    (hr : self.bandRanges[i]? = some range) (hb : i < self.bands.length) :
    (groupBands self).bands[i]? = some (bandAverage self.fftSmoothed range) := by
  have hlen : i < self.bandRanges.length := by
    rcases List.getElem?_eq_some_iff.mp hr with ⟨h, _⟩
    exact h
  have hn : i < self.numBands.toNat := by omega
  have hget : self.bandRanges.getD i ⟨0, 0⟩ = range := by
    rw [List.getD_eq_getElem?_getD, hr]
    rfl
  unfold groupBands
  rw [foldl_range_bands, if_pos ⟨hn, hlen⟩, hget, List.getElem?_eq_getElem hb]
  rfl

theorem iterate_groupBands_frame (self : AudioReactivityManager) (n : Nat) :
    (groupBands^[n] self).fftSmoothed = self.fftSmoothed
    ∧ (groupBands^[n] self).bandRanges = self.bandRanges
    ∧ (groupBands^[n] self).smoothing = self.smoothing
    ∧ (groupBands^[n] self).numBands = self.numBands := by
  induction n with
  | zero => exact ⟨rfl, rfl, rfl, rfl⟩
  | succ n ih =>
    rw [Function.iterate_succ_apply']
    obtain ⟨h1, h2, h3, h4⟩ := ih
    obtain ⟨g1, g2, g3, g4⟩ := groupBands_frame (groupBands^[n] self)
    exact ⟨g1.trans h1, g2.trans h2, g3.trans h3, g4.trans h4⟩

/-- C9, amended: for a band `i` below `numBands` with storage, one `groupBands` tick sets
`smoothedBands[i]` to `average*(1 - s) + old*s` and `bands[i]` to `average` when the
band has a range (`i < bandRanges.size()`), and with `s = 0` the new `smoothedBands[i]`
is `average`; a band without a range is skipped, its `smoothedBands[i]` and `bands[i]`
keep their values. -/
theorem groupBands_tick (self : AudioReactivityManager) (i : Nat) (old oldRaw : ℚ)
    (hi : (i : Int) < self.numBands) (hold : self.smoothedBands[i]? = some old)
    (hraw : self.bands[i]? = some oldRaw) :
    (∀ range : BandRange, self.bandRanges[i]? = some range →
      (groupBands self).smoothedBands[i]? =
        some (bandAverage self.fftSmoothed range * (1 - self.smoothing)
          + old * self.smoothing)
      ∧ (groupBands self).bands[i]? = some (bandAverage self.fftSmoothed range)
      ∧ (self.smoothing = 0 →
          (groupBands self).smoothedBands[i]? = some (bandAverage self.fftSmoothed range)))
    ∧ (self.bandRanges[i]? = none →
      (groupBands self).smoothedBands[i]? = some old
      ∧ (groupBands self).bands[i]? = some oldRaw) := by
  refine ⟨?_, ?_⟩
  · intro range hr
    have hb : i < self.bands.length := (List.getElem?_eq_some_iff.mp hraw).1
    have h1 := groupBands_smoothed_at self i old range hi hr hold
    refine ⟨h1, groupBands_bands_at self i range hi hr hb, ?_⟩
    intro hs
    rw [h1, hs]
    simp
  · intro hnone
    have hlen : ¬ (i < self.numBands.toNat ∧ i < self.bandRanges.length) := by
      intro hc
      have := List.getElem?_eq_none_iff.mp hnone
      omega
    unfold groupBands
    rw [foldl_range_smoothedBands, foldl_range_bands, if_neg hlen, if_neg hlen]
    exact ⟨hold, hraw⟩

/-- Witness of C9: with smoothing 0, a zeroed start and a spectrum `[1, 3, 5]`, the
sub-bass band (bins 1..2) reads 4 after one tick. -/
theorem groupBands_tick_witness :
    ((0 : Nat) : Int) < (engineWithSpectrum [1, 3, 5] [0, 0, 0, 0, 0, 0, 0, 0] 0).numBands
    ∧ (engineWithSpectrum [1, 3, 5] [0, 0, 0, 0, 0, 0, 0, 0] 0).smoothedBands[0]? = some 0
    ∧ (engineWithSpectrum [1, 3, 5] [0, 0, 0, 0, 0, 0, 0, 0] 0).bands[0]? = some 0
    ∧ (groupBands (engineWithSpectrum [1, 3, 5] [0, 0, 0, 0, 0, 0, 0, 0] 0)).smoothedBands[0]?
      = some 4 := by
  have h := ((groupBands_tick (engineWithSpectrum [1, 3, 5] [0, 0, 0, 0, 0, 0, 0, 0] 0)
    0 0 0 (by show ((0 : Nat) : Int) < 8; decide) rfl rfl).1 ⟨1, 2⟩ rfl).2.2 rfl
  refine ⟨by show ((0 : Nat) : Int) < 8; decide, rfl, rfl, ?_⟩
  rw [h]
  show some (bandAverage [1, 3, 5] ⟨1, 2⟩) = some 4
  simp [bandAverage, sumBins, List.range_succ]
  norm_num

/-- C10, amended: with the float operations taken as exact, for a band that has a range,
a smoothing coefficient `s` from `0.99` to 1 (the number `0.99` or the float `0.99f`
that the engine stores) and the band average `a`, one `groupBands` tick moves
`smoothedBands[i]` by exactly `(1 - s)*(a - old)`, so by at most `0.01*|a - old|`, and
the distance to `a` shrinks by the factor `s`; with the average held constant, after `n`
ticks the distance is `s^n` times the initial one. For `s = 0.99` the move is exactly
`0.01*(a - old)` and the factor is `0.99`. -/
theorem groupBands_slow_convergence (self : AudioReactivityManager) (i : Nat) (old : ℚ)
    (range : BandRange) (hi : (i : Int) < self.numBands)
    (hr : self.bandRanges[i]? = some range) (hold : self.smoothedBands[i]? = some old)
    (hs0 : 99 / 100 ≤ self.smoothing) (hs1 : self.smoothing ≤ 1) :
    (groupBands self).smoothedBands[i]? =
      some (old + (1 - self.smoothing) * (bandAverage self.fftSmoothed range - old))
    ∧ |old + (1 - self.smoothing) * (bandAverage self.fftSmoothed range - old) - old|
        ≤ 1 / 100 * |bandAverage self.fftSmoothed range - old|
    ∧ |bandAverage self.fftSmoothed range
          - (old + (1 - self.smoothing) * (bandAverage self.fftSmoothed range - old))|
        = self.smoothing * |bandAverage self.fftSmoothed range - old|
    ∧ (∀ n : Nat, (groupBands^[n] self).smoothedBands[i]? =
        some (bandAverage self.fftSmoothed range
          + self.smoothing ^ n * (old - bandAverage self.fftSmoothed range)))
    ∧ (self.smoothing = 99 / 100 →
        (groupBands self).smoothedBands[i]? =
          some (old + 1 / 100 * (bandAverage self.fftSmoothed range - old))
        ∧ |bandAverage self.fftSmoothed range
              - (old + 1 / 100 * (bandAverage self.fftSmoothed range - old))|
            = 99 / 100 * |bandAverage self.fftSmoothed range - old|) := by
  have hspos : 0 ≤ self.smoothing := le_trans (by norm_num) hs0
  have h1s : 0 ≤ 1 - self.smoothing := by linarith
  have htick : (groupBands self).smoothedBands[i]? =
      some (old + (1 - self.smoothing) * (bandAverage self.fftSmoothed range - old)) := by
    rw [groupBands_smoothed_at self i old range hi hr hold]
    congr 1
    ring
  have hdist : |bandAverage self.fftSmoothed range
        - (old + (1 - self.smoothing) * (bandAverage self.fftSmoothed range - old))|
      = self.smoothing * |bandAverage self.fftSmoothed range - old| := by
    have : bandAverage self.fftSmoothed range
          - (old + (1 - self.smoothing) * (bandAverage self.fftSmoothed range - old))
        = self.smoothing * (bandAverage self.fftSmoothed range - old) := by ring
    rw [this, abs_mul, abs_of_nonneg hspos]
  refine ⟨htick, ?_, hdist, ?_, ?_⟩
  · have : old + (1 - self.smoothing) * (bandAverage self.fftSmoothed range - old) - old
        = (1 - self.smoothing) * (bandAverage self.fftSmoothed range - old) := by ring
    rw [this, abs_mul, abs_of_nonneg h1s]
    apply mul_le_mul_of_nonneg_right _ (abs_nonneg _)
    linarith
  · intro n
    induction n with
    | zero =>
      rw [Function.iterate_zero, id_eq, hold]
      congr 1
      ring
    | succ n ih =>
      obtain ⟨f1, f2, f3, f4⟩ := iterate_groupBands_frame self n
      rw [Function.iterate_succ_apply',
        groupBands_smoothed_at (groupBands^[n] self) i _ range (by rw [f4]; exact hi)
          (by rw [f2]; exact hr) ih, f1, f3]
      congr 1
      ring
  · intro hs
    rw [hs] at htick hdist
    refine ⟨?_, ?_⟩
    · rw [htick]
      congr 1
      ring
    · have he : (1 : ℚ) - 99 / 100 = 1 / 100 := by norm_num
      rw [he] at hdist
      exact hdist

/-- Witness of C10: from a zeroed start with spectrum `[1, 3, 5]` (sub-bass average 4)
and smoothing `0.99`, the first tick moves the band to `0.04`. -/
theorem groupBands_slow_convergence_witness :
    (99 / 100 : ℚ) ≤ (engineWithSpectrum [1, 3, 5] [0, 0, 0, 0, 0, 0, 0, 0] (99 / 100)).smoothing
    ∧ (engineWithSpectrum [1, 3, 5] [0, 0, 0, 0, 0, 0, 0, 0] (99 / 100)).smoothing ≤ 1
    ∧ (groupBands (engineWithSpectrum [1, 3, 5] [0, 0, 0, 0, 0, 0, 0, 0]
      (99 / 100))).smoothedBands[0]? = some (4 / 100) := by
  have hs0 : (99 / 100 : ℚ)
      ≤ (engineWithSpectrum [1, 3, 5] [0, 0, 0, 0, 0, 0, 0, 0] (99 / 100)).smoothing :=
    le_refl _
  have hs1 : (engineWithSpectrum [1, 3, 5] [0, 0, 0, 0, 0, 0, 0, 0] (99 / 100)).smoothing
      ≤ 1 := by
    show (99 / 100 : ℚ) ≤ 1
    norm_num
  have h := ((groupBands_slow_convergence
    (engineWithSpectrum [1, 3, 5] [0, 0, 0, 0, 0, 0, 0, 0] (99 / 100))
    0 0 ⟨1, 2⟩ (by show ((0 : Nat) : Int) < 8; decide) rfl rfl hs0 hs1).2.2.2.2 rfl).1
  refine ⟨hs0, hs1, ?_⟩
  rw [h]
  show some (0 + 1 / 100 * (bandAverage [1, 3, 5] ⟨1, 2⟩ - 0)) = some (4 / 100)
  simp [bandAverage, sumBins, List.range_succ]
  norm_num

/-! ### Sample ingestion -/

theorem sanitizeSample_zeroNonFinite (x : FloatVal) :
    sanitizeSample (zeroNonFinite x) = sanitizeSample x := by
  cases x <;> rfl

theorem zeroNonFinite_idem (x : FloatVal) : zeroNonFinite (zeroNonFinite x) = zeroNonFinite x := by
  cases x <;> rfl

theorem sanitizeSample_finite (x : FloatVal) (h : x.isnan = false ∧ x.isinf = false) :
    sanitizeSample x = x.toRat := by
  unfold sanitizeSample
  rw [h.1, h.2]
  rfl

theorem audioInLoop_zeroNonFinite (xs : List FloatVal) (i : Nat) (buf : List ℚ) (sum : ℚ) :
    audioInLoop (xs.map zeroNonFinite) i buf sum = audioInLoop xs i buf sum := by
  induction xs generalizing i buf sum with
  | nil => rfl
  | cons x xs ih =>
    simp only [List.map_cons, audioInLoop, sanitizeSample_zeroNonFinite]
    exact ih _ _ _

theorem audioInLoop_snd (xs : List FloatVal) (i : Nat) (buf : List ℚ) (sum : ℚ) :
    (audioInLoop xs i buf sum).2 =
      sum + (xs.map fun x => sanitizeSample x * sanitizeSample x).sum := by
  induction xs generalizing i buf sum with
  | nil => simp [audioInLoop]
  | cons x xs ih =>
    simp only [audioInLoop, List.map_cons, List.sum_cons]
    rw [ih]
    ring

theorem maxAbs_nonneg (l : List FloatVal) : 0 ≤ maxAbs l := by
  cases l with
  | nil => exact le_refl _
  | cons x rest => exact le_trans (abs_nonneg _) (le_max_left _ _)

theorem le_maxAbs (l : List FloatVal) (x : FloatVal) (hx : x ∈ l) : |x.toRat| ≤ maxAbs l := by
  induction l with
  | nil => cases hx
  | cons y rest ih =>
    rcases List.mem_cons.mp hx with rfl | h
    · exact le_max_left _ _
    · exact le_trans (ih h) (le_max_right _ _)

theorem sum_squares_bounds (xs : List FloatVal) (M : ℚ) (hM : ∀ x ∈ xs, |x.toRat| ≤ M) :
    0 ≤ (xs.map fun x => x.toRat * x.toRat).sum
    ∧ (xs.map fun x => x.toRat * x.toRat).sum ≤ (xs.length : ℚ) * (M * M) := by
  induction xs with
  | nil => simp
  | cons x rest ih =>
    obtain ⟨h0, h1⟩ := ih (fun y hy => hM y (List.mem_cons_of_mem _ hy))
    have hx := hM x (List.mem_cons_self _ _)
    have hsq : x.toRat * x.toRat ≤ M * M := by
      have h := mul_self_le_mul_self (abs_nonneg x.toRat) hx
      rwa [abs_mul_abs_self] at h
    simp only [List.map_cons, List.sum_cons, List.length_cons, Nat.cast_add, Nat.cast_one]
    constructor
    · exact add_nonneg (mul_self_nonneg _) h0
    · linarith

/-- The radicand of the level `audioIn` reports: the mean of the squares of the
sanitized samples it processed. -/
theorem audioIn_radicand (self : AudioReactivityManager) (input : List FloatVal)
    (hne : input ≠ []) :
    (audioIn self input).audioInputLevel.radicand =
      ((input.take (min input.length self.bufferSize)).map
          fun x => sanitizeSample x * sanitizeSample x).sum
        / ((min input.length self.bufferSize : Nat) : ℚ) := by
  unfold audioIn
  rw [if_neg (by simpa using hne)]
  simp only [audioInLoop_snd, zero_add]

/-- With exact arithmetic, for a non-empty block of finite samples the level `audioIn`
reports is the square root of the mean of the squared samples processed; it satisfies
`0 ≤ level ≤ max |sample|` and is 0 when every sample is 0. -/
theorem audioIn_level_exact (self : AudioReactivityManager) (input : List FloatVal)
    (hbuf : 0 < self.bufferSize) (hne : input ≠ [])
    (hfin : ∀ x ∈ input, x.isnan = false ∧ x.isinf = false) :
    (audioIn self input).audioInputLevel.radicand =
      ((input.take (min input.length self.bufferSize)).map fun x => x.toRat * x.toRat).sum
        / ((min input.length self.bufferSize : Nat) : ℚ)
    ∧ 0 ≤ (audioIn self input).audioInputLevel.radicand
    ∧ 0 ≤ Real.sqrt (((audioIn self input).audioInputLevel.radicand : ℚ) : ℝ)
    ∧ Real.sqrt (((audioIn self input).audioInputLevel.radicand : ℚ) : ℝ)
        ≤ ((maxAbs input : ℚ) : ℝ)
    ∧ ((∀ x ∈ input, x.toRat = 0) →
        Real.sqrt (((audioIn self input).audioInputLevel.radicand : ℚ) : ℝ) = 0) := by
  have hlen : 0 < input.length := List.length_pos.mpr hne
  have hn : 0 < min input.length self.bufferSize := lt_min hlen hbuf
  have hnq : (0 : ℚ) < ((min input.length self.bufferSize : Nat) : ℚ) := by exact_mod_cast hn
  have htl : (input.take (min input.length self.bufferSize)).length
      = min input.length self.bufferSize := by
    rw [List.length_take]
    omega
  have hmap : ((input.take (min input.length self.bufferSize)).map
        fun x => sanitizeSample x * sanitizeSample x)
      = (input.take (min input.length self.bufferSize)).map fun x => x.toRat * x.toRat := by
    apply List.map_congr_left
    intro x hx
    rw [sanitizeSample_finite x (hfin x (List.mem_of_mem_take hx))]
  have hrad := audioIn_radicand self input hne
  rw [hmap] at hrad
  have hbound : ∀ M : ℚ, (∀ x ∈ input, |x.toRat| ≤ M) →
      0 ≤ (audioIn self input).audioInputLevel.radicand
      ∧ (audioIn self input).audioInputLevel.radicand ≤ M * M := by
    intro M hM
    obtain ⟨h0, h1⟩ := sum_squares_bounds (input.take (min input.length self.bufferSize)) M
      (fun x hx => hM x (List.mem_of_mem_take hx))
    rw [htl] at h1
    rw [hrad]
    constructor
    · exact div_nonneg h0 (le_of_lt hnq)
    · rw [div_le_iff₀ hnq]
      linarith
  obtain ⟨hr0, hrM⟩ := hbound (maxAbs input) (le_maxAbs input)
  refine ⟨hrad, hr0, Real.sqrt_nonneg _, ?_, ?_⟩
  · have hcast : (((audioIn self input).audioInputLevel.radicand : ℚ) : ℝ)
        ≤ ((maxAbs input : ℚ) : ℝ) * ((maxAbs input : ℚ) : ℝ) := by
      exact_mod_cast hrM
    have hM0 : (0 : ℝ) ≤ ((maxAbs input : ℚ) : ℝ) := by exact_mod_cast maxAbs_nonneg input
    calc Real.sqrt (((audioIn self input).audioInputLevel.radicand : ℚ) : ℝ)
        ≤ Real.sqrt (((maxAbs input : ℚ) : ℝ) * ((maxAbs input : ℚ) : ℝ)) :=
          Real.sqrt_le_sqrt hcast
      _ = ((maxAbs input : ℚ) : ℝ) := Real.sqrt_mul_self hM0
  · intro hzero
    obtain ⟨hz0, hz1⟩ := hbound 0 (fun x hx => by rw [hzero x hx]; simp)
    have hz : (audioIn self input).audioInputLevel.radicand = 0 :=
      le_antisymm (by simpa using hz1) hz0
    rw [hz]
    simp

/-- With exact arithmetic, `audioIn` produces the same state (input level, working buffer
and signal handed to the transform) for a block as for the block with every NaN or
infinite sample replaced by 0; the replaced block holds only finite samples and
replacing again changes nothing. -/
theorem audioIn_sanitizes (self : AudioReactivityManager) (input : List FloatVal) :
    audioIn self input = audioIn self (input.map zeroNonFinite)
    ∧ (input.map zeroNonFinite).map zeroNonFinite = input.map zeroNonFinite
    ∧ ∀ x ∈ input.map zeroNonFinite, x.isnan = false ∧ x.isinf = false := by
  refine ⟨?_, ?_, ?_⟩
  · unfold audioIn
    simp only [List.length_map, ← List.map_take, audioInLoop_zeroNonFinite]
  · rw [List.map_map]
    apply List.map_congr_left
    intro x _
    exact zeroNonFinite_idem x
  · intro x hx
    obtain ⟨y, _, rfl⟩ := List.mem_map.mp hx
    cases y <;> exact ⟨rfl, rfl⟩

/-! ### Default band layout -/

theorem usableBins_eq : ((kNumFFTBins : Int) / 2) = 512 := by decide

theorem bind_cast_eq_map (l : List Nat) :
    (l >>= fun (a : Nat) => (pure ((a : Nat) : Int) : List Int))
      = l.map fun (a : Nat) => (a : Int) := by
  induction l with
  | nil => rfl
  | cons a l ih =>
    show [(a : Int)] ++ (l >>= fun (a : Nat) => (pure ((a : Nat) : Int) : List Int)) = _
    rw [ih]
    rfl

/-- The loop of `setupDefaultBandRanges` as a map over the band indices. -/
theorem evenBandRanges_eq (n : Int) :
    evenBandRanges n =
      (List.range n.toNat).map fun (i : Nat) =>
        (⟨(i : Int) * Int.tdiv 512 n,
          if (i : Int) = n - 1 then 511 else ((i : Int) + 1) * Int.tdiv 512 n - 1⟩ :
          BandRange) := by
  unfold evenBandRanges
  simp only [usableBins_eq]
  rw [bind_cast_eq_map, List.map_map]
  rfl

theorem evenBandRanges_getElem? (n : Int) (i : Nat) :
    (evenBandRanges n)[i]? =
      if i < n.toNat then
        some ⟨(i : Int) * Int.tdiv 512 n,
          if (i : Int) = n - 1 then 511 else ((i : Int) + 1) * Int.tdiv 512 n - 1⟩
      else none := by
  by_cases h : i < n.toNat
  · rw [if_pos h, evenBandRanges_eq, List.getElem?_map, List.getElem?_range h]
    rfl
  · rw [if_neg h]
    apply List.getElem?_eq_none
    rw [evenBandRanges_eq, List.length_map, List.length_range]
    exact not_lt.mp h

theorem evenBandRanges_length (n : Int) : (evenBandRanges n).length = n.toNat := by
  rw [evenBandRanges_eq, List.length_map, List.length_range]

theorem evenBandRanges_some (n : Int) (hn : 1 ≤ n) (i : Nat) (r : BandRange)
    (h : (evenBandRanges n)[i]? = some r) :
    (i : Int) < n ∧ r.minBin = (i : Int) * (512 / n)
    ∧ r.maxBin = if (i : Int) = n - 1 then 511 else ((i : Int) + 1) * (512 / n) - 1 := by
  rw [evenBandRanges_getElem?, Int.tdiv_eq_ediv (by decide) (by omega)] at h
  by_cases hi : i < n.toNat
  · rw [if_pos hi] at h
    have hr := Option.some.inj h
    subst hr
    exact ⟨by omega, rfl, rfl⟩
  · rw [if_neg hi] at h
    cases h

theorem evenBandRanges_get (n : Int) (i : Nat) (hi : (i : Int) < n) :
    (evenBandRanges n)[i]? =
      some ⟨(i : Int) * (512 / n),
        if (i : Int) = n - 1 then 511 else ((i : Int) + 1) * (512 / n) - 1⟩ := by
  rw [evenBandRanges_getElem?, Int.tdiv_eq_ediv (by decide) (by omega), if_pos (by omega)]

theorem binsPerBand_facts (n : Int) (hn : 1 ≤ n) :
    0 ≤ 512 / n ∧ 512 / n * n ≤ 512 ∧ 512 < (512 / n + 1) * n
    ∧ 512 % n = 512 - 512 / n * n := by
  refine ⟨Int.ediv_nonneg (by decide) (by omega), Int.ediv_mul_le 512 (by omega),
    Int.lt_ediv_add_one_mul_self 512 (by omega), ?_⟩
  have := Int.emod_def 512 n
  rw [this, mul_comm]

/-- Every bin of `0..511` lies in exactly one chunk of the even layout. -/
theorem evenBandRanges_partition (n : Int) (hn : 1 ≤ n) (bin : Int) (h0 : 0 ≤ bin)
    (h1 : bin ≤ 511) :
    ∃! i : Nat, ∃ r, (evenBandRanges n)[i]? = some r ∧ r.minBin ≤ bin ∧ bin ≤ r.maxBin := by
  obtain ⟨hb0, hle, _, _⟩ := binsPerBand_facts n hn
  by_cases hlast : (n - 1) * (512 / n) ≤ bin
  · refine ⟨(n - 1).toNat, ⟨_, evenBandRanges_get n _ (by omega), ?_, ?_⟩, ?_⟩
    · show (((n - 1).toNat : Nat) : Int) * (512 / n) ≤ bin
      rw [Int.toNat_of_nonneg (by omega)]
      exact hlast
    · show (if (((n - 1).toNat : Nat) : Int) = n - 1 then (511 : Int) else _) ≥ bin
      rw [if_pos (Int.toNat_of_nonneg (by omega))]
      exact h1
    · rintro j ⟨r, hr, hmin, hmax⟩
      obtain ⟨hj, _, hrmax⟩ := evenBandRanges_some n hn j r hr
      by_cases hjl : (j : Int) = n - 1
      · omega
      · exfalso
        rw [if_neg hjl] at hrmax
        have hj1 : (j : Int) + 1 ≤ n - 1 := by omega
        have := mul_le_mul_of_nonneg_right hj1 hb0
        omega
  · have hlast' : bin < (n - 1) * (512 / n) := not_le.mp hlast
    have hbpos : 0 < 512 / n := by
      rcases lt_or_eq_of_le hb0 with h | h
      · exact h
      · rw [← h] at hlast'
        omega
    have hq0 : 0 ≤ bin / (512 / n) := Int.ediv_nonneg h0 hb0
    have hqlt : bin / (512 / n) < n - 1 := Int.ediv_lt_of_lt_mul hbpos hlast'
    have hqle : bin / (512 / n) * (512 / n) ≤ bin := Int.ediv_mul_le bin (by omega)
    have hqgt : bin < (bin / (512 / n) + 1) * (512 / n) :=
      Int.lt_ediv_add_one_mul_self bin hbpos
    have hcast : (((bin / (512 / n)).toNat : Nat) : Int) = bin / (512 / n) :=
      Int.toNat_of_nonneg hq0
    refine ⟨(bin / (512 / n)).toNat, ⟨_, evenBandRanges_get n _ (by omega), ?_, ?_⟩, ?_⟩
    · show (((bin / (512 / n)).toNat : Nat) : Int) * (512 / n) ≤ bin
      rw [hcast]
      exact hqle
    · show bin ≤ (if (((bin / (512 / n)).toNat : Nat) : Int) = n - 1 then (511 : Int)
        else ((((bin / (512 / n)).toNat : Nat) : Int) + 1) * (512 / n) - 1)
      rw [hcast, if_neg (by omega)]
      omega
    · rintro j ⟨r, hr, hmin, hmax⟩
      obtain ⟨hj, hrmin, hrmax⟩ := evenBandRanges_some n hn j r hr
      by_cases hjl : (j : Int) = n - 1
      · exfalso
        rw [hrmin, hjl] at hmin
        omega
      · rw [if_neg hjl] at hrmax
        rw [hrmin] at hmin
        rw [hrmax] at hmax
        have h1 : (j : Int) < bin / (512 / n) + 1 := by
          by_contra hc
          have hc' : bin / (512 / n) + 1 ≤ (j : Int) := not_lt.mp hc
          have := mul_le_mul_of_nonneg_right hc' hb0
          omega
        have h2 : bin / (512 / n) < (j : Int) + 1 := by
          by_contra hc
          have hc' : (j : Int) + 1 ≤ bin / (512 / n) := not_lt.mp hc
          have := mul_le_mul_of_nonneg_right hc' hb0
          omega
        omega

theorem setupDefaultBandRanges_even (self : AudioReactivityManager)
    (hn : 1 ≤ self.numBands) (h8 : self.numBands ≠ 8) :
    setupDefaultBandRanges self =
      some { self with bandRanges := evenBandRanges self.numBands } := by
  unfold setupDefaultBandRanges
  rw [if_neg h8, if_neg (by omega)]

/-- C14: `setupDefaultBandRanges` yields the eight listed ranges for `numBands = 8`; for
every other `numBands ≥ 1` it yields `numBands` chunks, the first starting at bin 0, each
starting right after the previous one, every chunk but the last of size
`floor(512/numBands)`, the last ending at bin 511 and absorbing the remainder, so that
every bin of `0..511` lies in exactly one chunk and no chunk leaves `0..511`. -/
theorem setupDefaultBandRanges_layout (self : AudioReactivityManager) :
    (self.numBands = 8 →
      (setupDefaultBandRanges self).map (fun s => s.bandRanges) =
        some [⟨1, 2⟩, ⟨3, 5⟩, ⟨6, 11⟩, ⟨12, 46⟩, ⟨47, 92⟩, ⟨93, 139⟩, ⟨140, 278⟩,
          ⟨279, 511⟩])
    ∧ (1 ≤ self.numBands → self.numBands ≠ 8 →
        ∃ ranges : List BandRange,
          (setupDefaultBandRanges self).map (fun s => s.bandRanges) = some ranges
          ∧ (ranges.length : Int) = self.numBands
          ∧ (∀ r : BandRange, ranges[0]? = some r → r.minBin = 0)
          ∧ (∀ (i : Nat) (r next : BandRange), ranges[i]? = some r → ranges[i + 1]? = some next →
              next.minBin = r.maxBin + 1)
          ∧ (∀ (i : Nat) (r : BandRange), ranges[i]? = some r → (i : Int) + 1 < self.numBands →
              r.maxBin - r.minBin + 1 = 512 / self.numBands)
          ∧ (∀ (i : Nat) (r : BandRange), ranges[i]? = some r → (i : Int) + 1 = self.numBands →
              r.maxBin = 511
              ∧ r.maxBin - r.minBin + 1 = 512 / self.numBands + 512 % self.numBands)
          ∧ (∀ bin : Int, 0 ≤ bin → bin ≤ 511 →
              ∃! i : Nat, ∃ r, ranges[i]? = some r ∧ r.minBin ≤ bin ∧ bin ≤ r.maxBin)
          ∧ (∀ (i : Nat) (r : BandRange), ranges[i]? = some r → ∀ bin : Int, r.minBin ≤ bin →
              bin ≤ r.maxBin →
              0 ≤ bin ∧ bin ≤ 511)) := by
  constructor
  · intro h8
    unfold setupDefaultBandRanges
    rw [if_pos h8]
    rfl
  · intro hn h8
    obtain ⟨hb0, hle, hlt, hmod⟩ := binsPerBand_facts self.numBands hn
    refine ⟨evenBandRanges self.numBands, ?_, ?_, ?_, ?_, ?_, ?_, ?_, ?_⟩
    · rw [setupDefaultBandRanges_even self hn h8]
      rfl
    · rw [evenBandRanges_length]
      omega
    · intro r hr
      obtain ⟨_, hmin, _⟩ := evenBandRanges_some _ hn 0 r hr
      rw [hmin]
      simp
    · intro i r next hr hnext
      obtain ⟨hi, _, hmax⟩ := evenBandRanges_some _ hn i r hr
      obtain ⟨hi1, hmin1, _⟩ := evenBandRanges_some _ hn (i + 1) next hnext
      rw [if_neg (by push_cast at hi1; omega)] at hmax
      rw [hmin1, hmax]
      push_cast
      ring
    · intro i r hr hi1
      obtain ⟨_, hmin, hmax⟩ := evenBandRanges_some _ hn i r hr
      rw [if_neg (by omega)] at hmax
      rw [hmin, hmax]
      ring
    · intro i r hr hi1
      obtain ⟨_, hmin, hmax⟩ := evenBandRanges_some _ hn i r hr
      rw [if_pos (by omega)] at hmax
      refine ⟨hmax, ?_⟩
      have hi : (i : Int) = self.numBands - 1 := by omega
      rw [hmin, hmax, hmod, hi]
      ring
    · intro bin h0 h1
      exact evenBandRanges_partition _ hn bin h0 h1
    · intro i r hr bin hlo hhi
      obtain ⟨hi, hmin, hmax⟩ := evenBandRanges_some _ hn i r hr
      have hi0 : (0 : Int) ≤ (i : Int) := Int.ofNat_nonneg i
      have hmin0 : 0 ≤ r.minBin := by
        rw [hmin]
        exact mul_nonneg hi0 hb0
      refine ⟨le_trans hmin0 hlo, ?_⟩
      by_cases hl : (i : Int) = self.numBands - 1
      · rw [if_pos hl] at hmax
        omega
      · rw [if_neg hl] at hmax
        have hi1 : (i : Int) + 1 ≤ self.numBands := by omega
        have := mul_le_mul_of_nonneg_right hi1 hb0
        have hcomm : self.numBands * (512 / self.numBands)
            = 512 / self.numBands * self.numBands := mul_comm _ _
        omega

/-- Witness of C14: three bands give the chunks `0..169`, `170..339` and `340..511`. -/
theorem setupDefaultBandRanges_layout_witness :
    (setupDefaultBandRanges { AudioReactivityManager.new [] with numBands := 8 }).map
        (fun s => s.bandRanges) = some defaultRanges8
    ∧ ∃ ranges : List BandRange,
        (setupDefaultBandRanges { AudioReactivityManager.new [] with numBands := 3 }).map
          (fun s => s.bandRanges) = some ranges
        ∧ (ranges.length : Int) = 3
        ∧ ranges = [⟨0, 169⟩, ⟨170, 339⟩, ⟨340, 511⟩] := by
  refine ⟨(setupDefaultBandRanges_layout
    { AudioReactivityManager.new [] with numBands := 8 }).1 rfl, ?_⟩
  obtain ⟨ranges, h1, h2, _⟩ := (setupDefaultBandRanges_layout
    { AudioReactivityManager.new [] with numBands := 3 }).2 (by decide) (by decide)
  refine ⟨ranges, h1, h2, ?_⟩
  have h3 : (setupDefaultBandRanges { AudioReactivityManager.new [] with numBands := 3 }).map
      (fun s => s.bandRanges) = some [⟨0, 169⟩, ⟨170, 339⟩, ⟨340, 511⟩] := by decide
  rw [h1] at h3
  exact Option.some.inj h3

/-! ### Device session -/

theorem closeAudioInput_closed (self : AudioReactivityManager) (h : SessionInvariant self) :
    (closeAudioInput self).bandRanges = self.bandRanges
    ∧ (closeAudioInput self).enabled = self.enabled
    ∧ (closeAudioInput self).soundStream.openStreams = 0
    ∧ (closeAudioInput self).audioInputInitialized = false := by
  obtain ⟨_, hle, himp⟩ := h
  unfold closeAudioInput
  by_cases hinit : self.audioInputInitialized = true
  · rw [if_pos hinit]
    refine ⟨rfl, rfl, ?_, rfl⟩
    show self.soundStream.openStreams - 1 = 0
    omega
  · rw [if_neg hinit]
    refine ⟨rfl, rfl, ?_, by simpa using hinit⟩
    by_contra hne
    exact hinit (himp (by omega))

theorem setupAudioInput_session (self : AudioReactivityManager) (opens : Bool)
    (h : SessionInvariant self) :
    (setupAudioInput self opens).bandRanges = self.bandRanges
    ∧ (setupAudioInput self opens).enabled = self.enabled
    ∧ (setupAudioInput self opens).soundStream.openStreams = (if opens = true then 1 else 0)
    ∧ (setupAudioInput self opens).audioInputInitialized = true := by
  obtain ⟨h1, h2, h3, _⟩ := closeAudioInput_closed self h
  unfold setupAudioInput
  refine ⟨h1, h2, ?_, rfl⟩
  show (OfSoundStream.setup (closeAudioInput self).soundStream _ opens).openStreams = _
  unfold OfSoundStream.setup
  cases opens
  · simpa using h3
  · simp [h3]

theorem closeAudioInput_invariant (b : Bool) (self : AudioReactivityManager)
    (h : SessionInvariantWhen b self) : SessionInvariantWhen b (closeAudioInput self) := by
  obtain ⟨h1, _, h3, h4⟩ := closeAudioInput_closed self h.1
  refine ⟨⟨by rw [h1]; exact h.1.1, by omega, by omega⟩, fun _ => ?_⟩
  unfold SessionExact
  rw [h3, h4]
  rfl

theorem setupAudioInput_invariant (b : Bool) (self : AudioReactivityManager) (opens : Bool)
    (hb : b = true → opens = true) (h : SessionInvariantWhen b self) :
    SessionInvariantWhen b (setupAudioInput self opens) := by
  obtain ⟨h1, _, h3, h4⟩ := setupAudioInput_session self opens h.1
  refine ⟨⟨by rw [h1]; exact h.1.1, ?_, fun _ => h4⟩, fun hall => ?_⟩
  · rw [h3]
    split_ifs <;> omega
  · unfold SessionExact
    rw [h3, h4, hb hall]

theorem setEnabled_invariant (b : Bool) (self : AudioReactivityManager)
    (enabled opens : Bool) (hb : b = true → opens = true) (h : SessionInvariantWhen b self) :
    SessionInvariantWhen b (setEnabled self enabled opens) := by
  have h' : SessionInvariantWhen b { self with enabled := enabled } := h
  unfold setEnabled
  cases enabled
  · exact closeAudioInput_invariant b _ h'
  · exact setupAudioInput_invariant b _ opens hb h'

theorem selectAudioDevice_tail (b : Bool) (t : AudioReactivityManager) (deviceIndex : Int)
    (opens : Bool) (hb : b = true → opens = true) (h : SessionInvariantWhen b t) :
    SessionInvariantWhen b
      (if ({ t with currentDeviceIndex := deviceIndex } : AudioReactivityManager).enabled = true
        then setupAudioInput { t with currentDeviceIndex := deviceIndex } opens
        else { t with currentDeviceIndex := deviceIndex }) := by
  have h2 : SessionInvariantWhen b { t with currentDeviceIndex := deviceIndex } := h
  by_cases hen : ({ t with currentDeviceIndex := deviceIndex } : AudioReactivityManager).enabled
      = true
  · rw [if_pos hen]
    exact setupAudioInput_invariant b _ opens hb h2
  · rw [if_neg hen]
    exact h2

theorem selectAudioDevice_invariant (b : Bool) (self : AudioReactivityManager)
    (deviceIndex : Int) (opens : Bool) (hb : b = true → opens = true)
    (h : SessionInvariantWhen b self) :
    SessionInvariantWhen b (selectAudioDevice self deviceIndex opens).2 := by
  unfold selectAudioDevice
  by_cases hbad : deviceIndex < 0 ∨ deviceIndex ≥ (self.deviceList.length : Int)
      ∨ (self.deviceList.getD deviceIndex.toNat ⟨"", 0, 0⟩).inputChannels ≤ 0
  · rw [if_pos hbad]
    exact h
  · rw [if_neg hbad]
    have h1 : SessionInvariantWhen b
        (if self.audioInputInitialized = true then closeAudioInput self else self) := by
      by_cases hinit : self.audioInputInitialized = true
      · rw [if_pos hinit]
        exact closeAudioInput_invariant b _ h
      · rw [if_neg hinit]
        exact h
    exact selectAudioDevice_tail b _ deviceIndex opens hb h1

theorem selectAudioDeviceByName_invariant (b : Bool) (self : AudioReactivityManager)
    (deviceName : String) (opens : Bool) (hb : b = true → opens = true)
    (h : SessionInvariantWhen b self) :
    SessionInvariantWhen b (selectAudioDeviceByName self deviceName opens).2 := by
  unfold selectAudioDeviceByName
  split
  · exact selectAudioDevice_invariant b _ _ _ hb h
  · exact h

theorem setup_tail (b : Bool) (t : AudioReactivityManager) (performanceMode opens : Bool)
    (hb : b = true → opens = true) (h : SessionInvariantWhen b t) :
    SessionInvariantWhen b
      (let self := if performanceMode = true then { t with bufferSize := 512 } else t
       let self := { self with
         fft := some { signalSize := self.bufferSize, signal := [] }
         audioBuffer := resize self.audioBuffer self.bufferSize }
       if self.enabled = true then setupAudioInput self opens else self) := by
  have h1 : SessionInvariantWhen b
      (if performanceMode = true then { t with bufferSize := 512 } else t) := by
    cases performanceMode
    · exact h
    · exact h
  have h2 : ∀ u : AudioReactivityManager, SessionInvariantWhen b u →
      SessionInvariantWhen b
        (let self := { u with
           fft := some { signalSize := u.bufferSize, signal := [] }
           audioBuffer := resize u.audioBuffer u.bufferSize }
         if self.enabled = true then setupAudioInput self opens else self) := by
    intro u hu
    have hu2 : SessionInvariantWhen b { u with
        fft := some { signalSize := u.bufferSize, signal := [] }
        audioBuffer := resize u.audioBuffer u.bufferSize } := hu
    show SessionInvariantWhen b (if u.enabled = true then _ else _)
    by_cases hen : u.enabled = true
    · rw [if_pos hen]
      exact setupAudioInput_invariant b _ opens hb hu2
    · rw [if_neg hen]
      exact hu2
  exact h2 _ h1

theorem setup_invariant (b : Bool) (self : AudioReactivityManager)
    (pm : Option ParameterManager) (performanceMode opens : Bool)
    (hb : b = true → opens = true) (h : SessionInvariantWhen b self) :
    ∃ next, setup self pm performanceMode opens = some next ∧ SessionInvariantWhen b next := by
  have hne : self.bandRanges.isEmpty = false := by
    cases hr : self.bandRanges with
    | nil => exact absurd hr h.1.1
    | cons r rest => rfl
  have h1 : SessionInvariantWhen b { self with paramManager := pm } := h
  refine ⟨_, ?_, setup_tail b { self with paramManager := pm } performanceMode opens hb h1⟩
  unfold setup
  simp only [hne, Bool.false_eq_true, if_false, Option.map_some']

theorem exit_invariant (b : Bool) (self : AudioReactivityManager)
    (h : SessionInvariantWhen b self) : SessionInvariantWhen b (exit self) :=
  closeAudioInput_invariant b self h

theorem new_invariant (b : Bool) (devices : List OfSoundDevice) :
    SessionInvariantWhen b (AudioReactivityManager.new devices) := by
  refine ⟨⟨?_, ?_, ?_⟩, fun _ => ?_⟩
  · show defaultRanges8 ≠ []
    decide
  · show 0 ≤ 1
    decide
  · intro h
    have h0 : (AudioReactivityManager.new devices).soundStream.openStreams = 0 := rfl
    omega
  · rfl

/-- Every session call has a result and keeps the session invariant; where every stream
asked for is opened, a stream is open exactly when `audioInputInitialized` is set. -/
theorem apply_invariant (b : Bool) (self : AudioReactivityManager) (op : Op)
    (hop : op.isSessionOp = true) (hb : b = true → op.opens = true)
    (h : SessionInvariantWhen b self) :
    ∃ next, op.apply self = some next ∧ SessionInvariantWhen b next := by
  cases op with
  | setup pm performanceMode opens => exact setup_invariant b self pm performanceMode opens hb h
  | setEnabled enabled opens => exact ⟨_, rfl, setEnabled_invariant b self enabled opens hb h⟩
  | selectAudioDevice deviceIndex opens =>
    exact ⟨_, rfl, selectAudioDevice_invariant b self deviceIndex opens hb h⟩
  | selectAudioDeviceByName deviceName opens =>
    exact ⟨_, rfl, selectAudioDeviceByName_invariant b self deviceName opens hb h⟩
  | setupAudioInput opens => exact ⟨_, rfl, setupAudioInput_invariant b self opens hb h⟩
  | closeAudioInput => exact ⟨_, rfl, closeAudioInput_invariant b self h⟩
  | exit => exact ⟨_, rfl, exit_invariant b self h⟩
  | setSmoothing smoothing => cases hop
  | loadFromXml xml => cases hop
  | listAudioDevices devices => cases hop

theorem run_invariant (b : Bool) (ops : List Op) (self : AudioReactivityManager)
    (hops : ∀ op ∈ ops, op.isSessionOp = true) (hb : b = true → ∀ op ∈ ops, op.opens = true)
    (h : SessionInvariantWhen b self) :
    ∃ final, run self ops = some final ∧ SessionInvariantWhen b final := by
  induction ops generalizing self with
  | nil => exact ⟨self, rfl, h⟩
  | cons op rest ih =>
    obtain ⟨next, hnext, hinv⟩ := apply_invariant b self op
      (hops op (List.mem_cons_self _ _)) (fun hall => hb hall op (List.mem_cons_self _ _)) h
    obtain ⟨final, hfinal, hfinv⟩ := ih next
      (fun o ho => hops o (List.mem_cons_of_mem _ ho))
      (fun hall o ho => hb hall o (List.mem_cons_of_mem _ ho)) hinv
    refine ⟨final, ?_, hfinv⟩
    show (match op.apply self with
      | some next => run next rest
      | none => none) = some final
    rw [hnext]
    exact hfinal

/-- In every state reached from the constructor by session calls, at most one stream is
open and only while `audioInputInitialized` is set: no stream is opened over an open
one. Where every stream asked for was opened, one is open exactly when the flag is set. -/
theorem session_at_most_one (devices : List OfSoundDevice) (ops : List Op)
    (hops : ∀ op ∈ ops, op.isSessionOp = true) :
    ∃ final, run (AudioReactivityManager.new devices) ops = some final
      ∧ final.soundStream.openStreams ≤ 1
      ∧ (final.soundStream.openStreams = 1 → final.audioInputInitialized = true)
      ∧ ((∀ op ∈ ops, op.opens = true) →
          (final.soundStream.openStreams = 1 ↔ final.audioInputInitialized = true)) := by
  obtain ⟨final, hrun, hinv⟩ := run_invariant false ops _ hops (fun h => by cases h)
    (new_invariant false devices)
  refine ⟨final, hrun, hinv.1.2.1, hinv.1.2.2, fun hall => ?_⟩
  obtain ⟨final2, hrun2, hinv2⟩ := run_invariant true ops _ hops (fun _ => hall)
    (new_invariant true devices)
  rw [hrun] at hrun2
  have heq : final = final2 := Option.some.inj hrun2
  subst heq
  have hex := hinv2.2 rfl
  unfold SessionExact at hex
  constructor
  · exact hinv.1.2.2
  · intro hinit
    rw [hex, if_pos hinit]

/-! ### Claims on the device session -/

/-- C16: for an index that is negative, not below the device count, or that names a
device without input channel, `selectAudioDevice(index)` returns false and leaves the
whole engine state as it was, so `enabled`, `currentDeviceIndex`,
`audioInputInitialized` and the stream keep their values. -/
theorem selectAudioDevice_invalid_index (self : AudioReactivityManager) (deviceIndex : Int)
    (opens : Bool)
    (h : deviceIndex < 0 ∨ (self.deviceList.length : Int) ≤ deviceIndex
      ∨ ∃ device, self.deviceList[deviceIndex.toNat]? = some device
          ∧ device.inputChannels = 0) :
    selectAudioDevice self deviceIndex opens = (false, self)
    ∧ (selectAudioDevice self deviceIndex opens).2.enabled = self.enabled
    ∧ (selectAudioDevice self deviceIndex opens).2.currentDeviceIndex
        = self.currentDeviceIndex
    ∧ (selectAudioDevice self deviceIndex opens).2.audioInputInitialized
        = self.audioInputInitialized
    ∧ (selectAudioDevice self deviceIndex opens).2.soundStream = self.soundStream := by
  have hbad : deviceIndex < 0 ∨ deviceIndex ≥ (self.deviceList.length : Int)
      ∨ (self.deviceList.getD deviceIndex.toNat ⟨"", 0, 0⟩).inputChannels ≤ 0 := by
    rcases h with h | h | ⟨device, hd, hc⟩
    · exact Or.inl h
    · exact Or.inr (Or.inl h)
    · refine Or.inr (Or.inr ?_)
      rw [List.getD_eq_getElem?_getD, hd]
      show device.inputChannels ≤ 0
      omega
  have hres : selectAudioDevice self deviceIndex opens = (false, self) := by
    unfold selectAudioDevice
    rw [if_pos hbad]
  rw [hres]
  exact ⟨rfl, rfl, rfl, rfl, rfl⟩

/-- Witness of C16: on the open session, the indices -1 and 1 (of one device) are
refused and the session stays open; on a closed engine whose only device has no input
channel, index 0 is refused and the session stays closed. -/
theorem selectAudioDevice_invalid_index_witness :
    selectAudioDevice micSession (-1) true = (false, micSession)
    ∧ selectAudioDevice micSession 1 true = (false, micSession)
    ∧ micSession.audioInputInitialized = true
    ∧ selectAudioDevice (AudioReactivityManager.new speakerDevices) 0 true
        = (false, AudioReactivityManager.new speakerDevices)
    ∧ (AudioReactivityManager.new speakerDevices).audioInputInitialized = false :=
  ⟨(selectAudioDevice_invalid_index micSession (-1) true (Or.inl (by decide))).1,
   (selectAudioDevice_invalid_index micSession 1 true
      (Or.inr (Or.inl (by show ((1 : Nat) : Int) ≤ 1; decide)))).1,
   rfl,
   (selectAudioDevice_invalid_index (AudioReactivityManager.new speakerDevices) 0 true
      (Or.inr (Or.inr ⟨⟨"Speakers", 0, 2⟩, rfl, rfl⟩))).1,
   rfl⟩

/-- C17, evaluated where the audio stack refuses to open the stream: `selectAudioDevice`
still returns true and `audioInputInitialized` is set although no stream is open. -/
theorem selectAudioDevice_open_failure :
    (selectAudioDevice enabledEngine 0 false).1 = true
    ∧ (selectAudioDevice enabledEngine 0 false).2.audioInputInitialized = true
    ∧ (selectAudioDevice enabledEngine 0 false).2.soundStream.openStreams = 0 :=
  ⟨rfl, rfl, rfl⟩

/-- C18, counterexample: a session runs on `"Mic"` and a scan finds no device any more;
`listAudioDevices` replaces the list and the session stays open
(`audioInputInitialized` is true, the stream is open). -/
theorem listAudioDevices_keeps_session :
    micSession.soundStream.inDevice = some ⟨"Mic", 1, 0⟩
    ∧ (listAudioDevices micSession []).deviceList = []
    ∧ (listAudioDevices micSession []).audioInputInitialized = true
    ∧ (listAudioDevices micSession []).soundStream.openStreams = 1
    ∧ (listAudioDevices micSession []).currentDeviceIndex = 0 :=
  ⟨rfl, rfl, rfl, rfl, rfl⟩

/-- C19: `closeAudioInput` is idempotent: a second call in a row leaves exactly the state
of the first, which has `audioInputInitialized` cleared, and a call on a state with the
flag cleared changes nothing (it closes no stream). -/
theorem closeAudioInput_idempotent (self : AudioReactivityManager) :
    closeAudioInput (closeAudioInput self) = closeAudioInput self
    ∧ (closeAudioInput self).audioInputInitialized = false
    ∧ (closeAudioInput (closeAudioInput self)).soundStream
        = (closeAudioInput self).soundStream := by
  have hflag : (closeAudioInput self).audioInputInitialized = false := by
    unfold closeAudioInput
    by_cases h : self.audioInputInitialized = true
    · rw [if_pos h]
    · rw [if_neg h]
      simpa using h
  have hidem : closeAudioInput (closeAudioInput self) = closeAudioInput self := by
    have hno : ∀ s : AudioReactivityManager, s.audioInputInitialized = false →
        closeAudioInput s = s := by
      intro s hs
      unfold closeAudioInput
      rw [if_neg (by rw [hs]; decide)]
    exact hno _ hflag
  exact ⟨hidem, hflag, by rw [hidem]⟩

/-- C20, evaluated where the audio stack refuses to open the stream: after
`setEnabled(true)` on the constructed engine `audioInputInitialized` is set although no
stream is open. -/
theorem session_flag_without_stream :
    (run (AudioReactivityManager.new micDevices) [Op.setEnabled true false]).map
      (fun s => (s.audioInputInitialized, s.soundStream.openStreams)) = some (true, 0) :=
  rfl

/-! ### Loading the configuration -/

theorem setupDefaultBandRanges_some (self : AudioReactivityManager)
    (hn : 1 ≤ self.numBands) :
    setupDefaultBandRanges self =
      some { self with
        bandRanges := if self.numBands = 8 then defaultRanges8
          else evenBandRanges self.numBands } := by
  unfold setupDefaultBandRanges
  by_cases h8 : self.numBands = 8
  · rw [if_pos h8, if_pos h8]
  · rw [if_neg h8, if_neg h8, if_neg (by omega)]

theorem foldl_addMapping (tags : List MappingTag) (self : AudioReactivityManager) :
    tags.foldl (fun s m => addMapping s m.toMapping) self =
      { self with mappings := self.mappings ++ tags.map MappingTag.toMapping } := by
  induction tags generalizing self with
  | nil => simp
  | cons m rest ih =>
    rw [List.foldl_cons, ih]
    simp [addMapping]

/-- The state `loadFromXml` leaves for a document with an `audioReactivity` tag and a
band count of at least 1. -/
theorem loadFromXml_of_tag (self : AudioReactivityManager) (xml : OfxXmlSettings)
    (tag : AudioReactivityTag) (htag : xml.audioReactivity = some tag)
    (hn : 1 ≤ tag.numBands.getD 8) :
    loadFromXml self xml =
      some { self with
        enabled := decide (tag.enabled.getD 0 ≠ 0)
        normalizationEnabled := decide (tag.normalizationEnabled.getD 1 ≠ 0)
        sensitivity := tag.sensitivity.getD 1
        smoothing := tag.smoothing.getD (85 / 100)
        numBands := tag.numBands.getD 8
        bands := resize self.bands (tag.numBands.getD 8).toNat
        smoothedBands := resize self.smoothedBands (tag.numBands.getD 8).toNat
        bandRanges :=
          if 0 < (tag.bandRanges.getD []).length then
            (tag.bandRanges.getD []).map RangeTag.toRange
          else if tag.numBands.getD 8 = 8 then defaultRanges8
          else evenBandRanges (tag.numBands.getD 8)
        mappings := (tag.mappings.getD []).map MappingTag.toMapping } := by
  unfold loadFromXml
  simp only [htag]
  rw [if_neg (by simp only [not_lt]; omega)]
  simp only [setupDefaultBandRanges_some, hn, foldl_addMapping, clearMappings]
  cases hr : tag.bandRanges with
  | none =>
    cases hm : tag.mappings with
    | none => simp
    | some ms => simp
  | some ranges =>
    cases hm : tag.mappings with
    | none =>
      by_cases hl : ranges.length > 0
      · simp [hl]
      · simp [hl]
    | some ms =>
      by_cases hl : ranges.length > 0
      · simp [hl]
      · simp [hl]

theorem resize_length (v : List ℚ) (n : Nat) : (resize v n).length = n := by
  unfold resize
  rw [List.length_append, List.length_take, List.length_replicate]
  omega

theorem resize_getElem? (v : List ℚ) (n i : Nat) (hi : i < n) :
    (resize v n)[i]? = some (v.getD i 0) := by
  unfold resize
  by_cases hv : i < v.length
  · rw [List.getElem?_append_left (by rw [List.length_take]; omega),
      List.getElem?_take_of_lt hi, List.getD_eq_getElem?_getD, List.getElem?_eq_getElem hv]
    rfl
  · have hlen : (List.take n v).length = v.length := by
      rw [List.length_take]
      omega
    rw [List.getElem?_append_right (by rw [hlen]; omega), hlen,
      List.getElem?_replicate, if_pos (by omega), List.getD_eq_getElem?_getD,
      List.getElem?_eq_none (by omega)]
    rfl

theorem groupBandsStep_length (self : AudioReactivityManager) (i : Nat) :
    (groupBandsStep self i).smoothedBands.length = self.smoothedBands.length
    ∧ (groupBandsStep self i).bands.length = self.bands.length := by
  unfold groupBandsStep
  split_ifs
  · exact ⟨rfl, rfl⟩
  · exact ⟨List.length_set _ _ _, List.length_set _ _ _⟩

theorem groupBands_length (self : AudioReactivityManager) :
    (groupBands self).smoothedBands.length = self.smoothedBands.length
    ∧ (groupBands self).bands.length = self.bands.length := by
  unfold groupBands
  generalize List.range self.numBands.toNat = l
  induction l generalizing self with
  | nil => exact ⟨rfl, rfl⟩
  | cons i l ih =>
    obtain ⟨h1, h2⟩ := ih (groupBandsStep self i)
    obtain ⟨g1, g2⟩ := groupBandsStep_length self i
    exact ⟨h1.trans g1, h2.trans g2⟩

/-- C11, as the claim states it, fails: a document with `numBands = 4` and one `range`
entry leaves four bands and a single band range. -/
theorem loadFromXml_ranges_mismatch :
    (loadFromXml (AudioReactivityManager.new []) mismatchedDoc).map
      (fun s => (s.numBands, s.bands.length, s.smoothedBands.length, s.bandRanges.length))
      = some (4, 4, 4, 1) := by
  rw [loadFromXml_of_tag _ mismatchedDoc _ rfl (by decide)]
  rfl

/-- C11, amended: after `loadFromXml` of a document with an `audioReactivity` tag and a
band count `numBands ≥ 1` (8 when the document gives none), `smoothedBands.size() =
bands.size() = numBands`; `bandRanges.size()` is the number of `range` entries of the
document when it has any and `numBands` otherwise; a following `groupBands` tick leaves
`smoothedBands.size() = numBands`. -/
theorem loadFromXml_sizes (self : AudioReactivityManager) (xml : OfxXmlSettings)
    (tag : AudioReactivityTag) (htag : xml.audioReactivity = some tag)
    (hn : 1 ≤ tag.numBands.getD 8) :
    ∃ loaded, loadFromXml self xml = some loaded
      ∧ loaded.numBands = tag.numBands.getD 8
      ∧ (loaded.smoothedBands.length : Int) = loaded.numBands
      ∧ (loaded.bands.length : Int) = loaded.numBands
      ∧ (loaded.bandRanges.length : Int) =
          (if 0 < (tag.bandRanges.getD []).length then
            ((tag.bandRanges.getD []).length : Int)
          else loaded.numBands)
      ∧ ((groupBands loaded).smoothedBands.length : Int) = loaded.numBands := by
  refine ⟨_, loadFromXml_of_tag self xml tag htag hn, rfl, ?_, ?_, ?_, ?_⟩
  · show ((resize self.smoothedBands (tag.numBands.getD 8).toNat).length : Int) = _
    rw [resize_length]
    exact Int.toNat_of_nonneg (by omega)
  · show ((resize self.bands (tag.numBands.getD 8).toNat).length : Int) = _
    rw [resize_length]
    exact Int.toNat_of_nonneg (by omega)
  · show ((if 0 < (tag.bandRanges.getD []).length then
        (tag.bandRanges.getD []).map RangeTag.toRange
      else if tag.numBands.getD 8 = 8 then defaultRanges8
      else evenBandRanges (tag.numBands.getD 8)).length : Int) = _
    by_cases hl : 0 < (tag.bandRanges.getD []).length
    · rw [if_pos hl, if_pos hl, List.length_map]
    · rw [if_neg hl, if_neg hl]
      by_cases h8 : tag.numBands.getD 8 = 8
      · rw [if_pos h8]
        show ((8 : Nat) : Int) = tag.numBands.getD 8
        rw [h8]
        rfl
      · rw [if_neg h8, evenBandRanges_length]
        exact Int.toNat_of_nonneg (by omega)
  · rw [(groupBands_length _).1]
    show ((resize self.smoothedBands (tag.numBands.getD 8).toNat).length : Int) = _
    rw [resize_length]
    exact Int.toNat_of_nonneg (by omega)

/-- Witness of C11 amended: loading `numBands = 4` with one `range` entry gives four
energies and one range, and a tick keeps the four smoothed energies. -/
theorem loadFromXml_sizes_witness :
    ∃ loaded, loadFromXml (AudioReactivityManager.new []) mismatchedDoc = some loaded
      ∧ loaded.numBands = 4
      ∧ (loaded.smoothedBands.length : Int) = 4
      ∧ (loaded.bandRanges.length : Int) = 1
      ∧ ((groupBands loaded).smoothedBands.length : Int) = 4 := by
  obtain ⟨loaded, h1, h2, h3, _, h5, h6⟩ := loadFromXml_sizes (AudioReactivityManager.new [])
    mismatchedDoc _ rfl (by decide)
  have hn : loaded.numBands = 4 := h2
  refine ⟨loaded, h1, hn, by rw [h3, hn], ?_, by rw [h6, hn]⟩
  rw [h5]
  rfl

/-- The setter `setSmoothing` leaves the coefficient in `[0, 0.99]`, whatever it is
given, and the constructor starts it at `0.85`. -/
theorem setSmoothing_clamps (self : AudioReactivityManager) (smoothing : ℚ)
    (devices : List OfSoundDevice) :
    0 ≤ (setSmoothing self smoothing).smoothing
    ∧ (setSmoothing self smoothing).smoothing ≤ 99 / 100
    ∧ (AudioReactivityManager.new devices).smoothing = 85 / 100 :=
  ⟨(ofClamp_bounds smoothing 0 (99 / 100) (by norm_num)).1,
   (ofClamp_bounds smoothing 0 (99 / 100) (by norm_num)).2, rfl⟩

/-- C13, evaluated on a document whose `smoothing` tag holds 1.5: `loadFromXml` stores
1.5, above 0.99, where `setSmoothing(1.5)` stores 0.99. -/
theorem loadFromXml_smoothing_unclamped :
    (run (AudioReactivityManager.new []) [Op.loadFromXml unclampedSmoothingDoc]).map
      (fun s => s.smoothing) = some (3 / 2)
    ∧ ¬ ((3 / 2 : ℚ) ≤ 99 / 100)
    ∧ (run (AudioReactivityManager.new []) [Op.setSmoothing (3 / 2)]).map
      (fun s => s.smoothing) = some (99 / 100) := by
  refine ⟨?_, by norm_num, ?_⟩
  · show (loadFromXml (AudioReactivityManager.new []) unclampedSmoothingDoc).map
      (fun s => s.smoothing) = some (3 / 2)
    rw [loadFromXml_of_tag _ unclampedSmoothingDoc _ rfl (by decide)]
    rfl
  · show some (ofClamp (3 / 2) 0 (99 / 100)) = some (99 / 100)
    congr 1
    unfold ofClamp
    norm_num

/-- C15, as the claim states it, fails: after a tick has left the energy 4 in band 0,
loading a document that changes nothing keeps `bands[0] = 4` and
`smoothedBands[0] = 4`. -/
theorem loadFromXml_keeps_energies :
    (loadFromXml energizedEngine (docWith emptyTag)).map
      (fun s => (s.bands[0]?, s.smoothedBands[0]?)) = some (some 4, some 4) := by
  have hs : energizedEngine.smoothedBands[0]? = some 4 := by
    have h := groupBands_smoothed_at (engineWithSpectrum [1, 3, 5] [0, 0, 0, 0, 0, 0, 0, 0] 0)
      0 0 ⟨1, 2⟩ (by show ((0 : Nat) : Int) < 8; decide) rfl rfl
    rw [show energizedEngine.smoothedBands[0]? = _ from h]
    show some (bandAverage [1, 3, 5] ⟨1, 2⟩ * (1 - 0) + 0 * 0) = some 4
    simp [bandAverage, sumBins, List.range_succ]
    norm_num
  have hb : energizedEngine.bands[0]? = some 4 := by
    have h := groupBands_bands_at (engineWithSpectrum [1, 3, 5] [0, 0, 0, 0, 0, 0, 0, 0] 0)
      0 ⟨1, 2⟩ (by show ((0 : Nat) : Int) < 8; decide) rfl (by show 0 < 8; decide)
    rw [show energizedEngine.bands[0]? = _ from h]
    show some (bandAverage [1, 3, 5] ⟨1, 2⟩) = some 4
    simp [bandAverage, sumBins, List.range_succ]
    norm_num
  rw [loadFromXml_of_tag _ (docWith emptyTag) emptyTag rfl (by decide)]
  show some ((resize energizedEngine.bands 8)[0]?, (resize energizedEngine.smoothedBands 8)[0]?)
    = _
  rw [resize_getElem? _ _ _ (by decide), resize_getElem? _ _ _ (by decide),
    List.getD_eq_getElem?_getD, List.getD_eq_getElem?_getD, hs, hb]
  rfl

/-- C15, amended: `loadFromXml` (document with an `audioReactivity` tag and a band count
of at least 1) resizes the per-band energy storage to the band count: every entry below
the old size keeps its previous energy and every entry added beyond it is 0. -/
theorem loadFromXml_resizes_energies (self : AudioReactivityManager) (xml : OfxXmlSettings)
    (tag : AudioReactivityTag) (htag : xml.audioReactivity = some tag)
    (hn : 1 ≤ tag.numBands.getD 8) :
    ∃ loaded, loadFromXml self xml = some loaded
      ∧ loaded.bands = resize self.bands (tag.numBands.getD 8).toNat
      ∧ loaded.smoothedBands = resize self.smoothedBands (tag.numBands.getD 8).toNat
      ∧ ∀ i : Nat, (i : Int) < tag.numBands.getD 8 →
          loaded.bands[i]? = some (if i < self.bands.length then self.bands.getD i 0 else 0)
          ∧ loaded.smoothedBands[i]? =
              some (if i < self.smoothedBands.length then self.smoothedBands.getD i 0
                else 0) := by
  refine ⟨_, loadFromXml_of_tag self xml tag htag hn, rfl, rfl, ?_⟩
  intro i hi
  have hlt : i < (tag.numBands.getD 8).toNat := by omega
  have hget : ∀ v : List ℚ, (resize v (tag.numBands.getD 8).toNat)[i]?
      = some (if i < v.length then v.getD i 0 else 0) := by
    intro v
    rw [resize_getElem? v _ i hlt]
    by_cases hv : i < v.length
    · rw [if_pos hv]
    · rw [if_neg hv, List.getD_eq_getElem?_getD, List.getElem?_eq_none (by omega)]
      rfl
  exact ⟨hget self.bands, hget self.smoothedBands⟩

/-- Witness of C15 amended: growing from 8 to 9 bands keeps the energy 4 of band 0 and
adds a ninth entry 0. -/
theorem loadFromXml_resizes_energies_witness :
    ∃ loaded, loadFromXml energizedEngine (docWith { emptyTag with numBands := some 9 })
        = some loaded
      ∧ loaded.bands[0]? = some (energizedEngine.bands.getD 0 0)
      ∧ loaded.bands[8]? = some 0 := by
  obtain ⟨loaded, h1, _, _, h4⟩ := loadFromXml_resizes_energies energizedEngine
    (docWith { emptyTag with numBands := some 9 }) _ rfl (by decide)
  have hlen : energizedEngine.bands.length = 8 := (groupBands_length _).2
  refine ⟨loaded, h1, ?_, ?_⟩
  · rw [(h4 0 (by decide)).1, if_pos (by rw [hlen]; decide)]
  · rw [(h4 8 (by decide)).1, if_neg (by rw [hlen]; decide)]

/-! ### Band ranges in reachable states -/

theorem defaultRanges8_within : ∀ r ∈ defaultRanges8, r.within512 := by
  intro r hr
  simp only [defaultRanges8, List.mem_cons, List.mem_singleton, List.not_mem_nil,
    or_false] at hr
  rcases hr with rfl | rfl | rfl | rfl | rfl | rfl | rfl | rfl <;>
  exact ⟨by decide, by decide, by decide⟩

theorem evenBandRanges_within (n : Int) (h1 : 1 ≤ n) (h512 : n ≤ 512) :
    ∀ r ∈ evenBandRanges n, r.within512 := by
  intro r hr
  obtain ⟨i, hi⟩ := List.mem_iff_getElem?.mp hr
  obtain ⟨hlt, hmin, hmax⟩ := evenBandRanges_some n h1 i r hi
  obtain ⟨_, hle, _, _⟩ := binsPerBand_facts n h1
  have hb1 : 1 ≤ 512 / n := Int.le_ediv_of_mul_le (by omega) (by omega)
  have hi0 : (0 : Int) ≤ (i : Int) := Int.ofNat_nonneg i
  have hmul : (i : Int) * (512 / n) + (512 / n) ≤ n * (512 / n) := by
    have := mul_le_mul_of_nonneg_right (show (i : Int) + 1 ≤ n by omega)
      (show (0 : Int) ≤ 512 / n by omega)
    rw [add_mul, one_mul] at this
    exact this
  have hcomm : n * (512 / n) = 512 / n * n := mul_comm _ _
  have hmin0 : 0 ≤ (i : Int) * (512 / n) := mul_nonneg hi0 (by omega)
  unfold BandRange.within512
  rw [usableBins_eq, hmin, hmax]
  by_cases hl : (i : Int) = n - 1
  · rw [if_pos hl]
    refine ⟨hmin0, ?_, by decide⟩
    omega
  · rw [if_neg hl]
    have hexp : ((i : Int) + 1) * (512 / n) = (i : Int) * (512 / n) + 512 / n := by ring
    rw [hexp]
    refine ⟨hmin0, ?_, ?_⟩
    · omega
    · omega

/-- The default layout for a band count in `1..512` lies within the half spectrum of the
1024-point transform. -/
theorem defaultLayout_within (n : Int) (h1 : 1 ≤ n) (h512 : n ≤ 512) :
    ∀ r ∈ (if n = 8 then defaultRanges8 else evenBandRanges n), r.within512 := by
  by_cases h8 : n = 8
  · rw [if_pos h8]
    exact defaultRanges8_within
  · rw [if_neg h8]
    exact evenBandRanges_within n h1 h512

theorem closeAudioInput_layout (self : AudioReactivityManager) :
    (closeAudioInput self).numBands = self.numBands
    ∧ (closeAudioInput self).bandRanges = self.bandRanges := by
  unfold closeAudioInput
  split_ifs <;> exact ⟨rfl, rfl⟩

theorem setupAudioInput_layout (self : AudioReactivityManager) (opens : Bool) :
    (setupAudioInput self opens).numBands = self.numBands
    ∧ (setupAudioInput self opens).bandRanges = self.bandRanges := by
  unfold setupAudioInput
  exact closeAudioInput_layout self

theorem setup_layout (self : AudioReactivityManager) (pm : Option ParameterManager)
    (performanceMode opens : Bool)
    (h : 1 ≤ self.numBands ∧ self.numBands ≤ 512 ∧ ∀ r ∈ self.bandRanges, r.within512) :
    ∃ next, setup self pm performanceMode opens = some next
      ∧ 1 ≤ next.numBands ∧ next.numBands ≤ 512 ∧ ∀ r ∈ next.bandRanges, r.within512 := by
  have htail : ∀ t : AudioReactivityManager,
      (1 ≤ t.numBands ∧ t.numBands ≤ 512 ∧ ∀ r ∈ t.bandRanges, r.within512) →
      (let self := if performanceMode = true then { t with bufferSize := 512 } else t
       let self := { self with
         fft := some { signalSize := self.bufferSize, signal := [] }
         audioBuffer := resize self.audioBuffer self.bufferSize }
       (1 ≤ (if self.enabled = true then setupAudioInput self opens else self).numBands
        ∧ (if self.enabled = true then setupAudioInput self opens else self).numBands ≤ 512
        ∧ ∀ r ∈ (if self.enabled = true then setupAudioInput self opens
            else self).bandRanges, r.within512)) := by
    intro t ht
    have h1 : (if performanceMode = true then { t with bufferSize := 512 } else t).numBands
          = t.numBands
        ∧ (if performanceMode = true then { t with bufferSize := 512 } else t).bandRanges
          = t.bandRanges := by
      cases performanceMode
      · exact ⟨rfl, rfl⟩
      · exact ⟨rfl, rfl⟩
    have h2 : ∀ u : AudioReactivityManager,
        (if u.enabled = true then setupAudioInput u opens else u).numBands = u.numBands
        ∧ (if u.enabled = true then setupAudioInput u opens else u).bandRanges
          = u.bandRanges := by
      intro u
      by_cases hen : u.enabled = true
      · rw [if_pos hen]
        exact setupAudioInput_layout u opens
      · rw [if_neg hen]
        exact ⟨rfl, rfl⟩
    intro s1 s2
    obtain ⟨g1, g2⟩ := h2 s2
    rw [g1, g2]
    show 1 ≤ s1.numBands ∧ s1.numBands ≤ 512 ∧ ∀ r ∈ s1.bandRanges, r.within512
    rw [h1.1, h1.2]
    exact ht
  unfold setup
  by_cases hempty : self.bandRanges.isEmpty = true
  · have hs := setupDefaultBandRanges_some { self with paramManager := pm } h.1
    simp only [hempty, if_true, hs, Option.map_some']
    refine ⟨_, rfl, ?_⟩
    exact htail _ ⟨h.1, h.2.1, defaultLayout_within self.numBands h.1 h.2.1⟩
  · simp only [hempty, Bool.false_eq_true, if_false, Option.map_some']
    refine ⟨_, rfl, ?_⟩
    exact htail { self with paramManager := pm } h

theorem loadFromXml_layout (self : AudioReactivityManager) (xml : OfxXmlSettings)
    (hxml : xml.keepsDefaultRanges = true)
    (h : 1 ≤ self.numBands ∧ self.numBands ≤ 512 ∧ ∀ r ∈ self.bandRanges, r.within512) :
    ∃ next, loadFromXml self xml = some next
      ∧ 1 ≤ next.numBands ∧ next.numBands ≤ 512 ∧ ∀ r ∈ next.bandRanges, r.within512 := by
  cases htag : xml.audioReactivity with
  | none =>
    refine ⟨self, ?_, h⟩
    unfold loadFromXml
    rw [htag]
  | some tag =>
    unfold OfxXmlSettings.keepsDefaultRanges at hxml
    rw [htag] at hxml
    simp only [Bool.and_eq_true, decide_eq_true_eq, List.isEmpty_iff] at hxml
    obtain ⟨⟨hnil, h1⟩, h512⟩ := hxml
    refine ⟨_, loadFromXml_of_tag self xml tag htag h1, h1, h512, ?_⟩
    show ∀ r ∈ (if 0 < (tag.bandRanges.getD []).length then
        (tag.bandRanges.getD []).map RangeTag.toRange
      else if tag.numBands.getD 8 = 8 then defaultRanges8
      else evenBandRanges (tag.numBands.getD 8)), r.within512
    rw [if_neg (by rw [hnil]; decide)]
    exact defaultLayout_within _ h1 h512

theorem run_layout (ops : List Op) (self : AudioReactivityManager)
    (hops : ∀ op ∈ ops, op.isDefaultLayoutOp = true)
    (h : 1 ≤ self.numBands ∧ self.numBands ≤ 512 ∧ ∀ r ∈ self.bandRanges, r.within512) :
    ∃ final, run self ops = some final
      ∧ 1 ≤ final.numBands ∧ final.numBands ≤ 512
      ∧ ∀ r ∈ final.bandRanges, r.within512 := by
  induction ops generalizing self with
  | nil => exact ⟨self, rfl, h⟩
  | cons op rest ih =>
    have hop := hops op (List.mem_cons_self _ _)
    have hstep : ∃ next, op.apply self = some next
        ∧ 1 ≤ next.numBands ∧ next.numBands ≤ 512
        ∧ ∀ r ∈ next.bandRanges, r.within512 := by
      cases op with
      | setup pm performanceMode opens => exact setup_layout self pm performanceMode opens h
      | loadFromXml xml => exact loadFromXml_layout self xml hop h
      | setEnabled enabled opens => cases hop
      | selectAudioDevice deviceIndex opens => cases hop
      | selectAudioDeviceByName deviceName opens => cases hop
      | setupAudioInput opens => cases hop
      | closeAudioInput => cases hop
      | exit => cases hop
      | setSmoothing smoothing => cases hop
      | listAudioDevices devices => cases hop
    obtain ⟨next, hnext, hinv⟩ := hstep
    obtain ⟨final, hfinal, hfinv⟩ := ih next
      (fun o ho => hops o (List.mem_cons_of_mem _ ho)) hinv
    refine ⟨final, ?_, hfinv⟩
    show (match op.apply self with
      | some next => run next rest
      | none => none) = some final
    rw [hnext]
    exact hfinal

/-- C12, as the claim states it, fails: after `setup` in performance mode the transform
has 512 points and the default range `{279, 511}` is still held, beyond
`transformSize/2 = 256`; and `loadFromXml` stores a document range with
`minBin = 5 > maxBin = 3` as given. -/
theorem bandRanges_outside_transform :
    (run (AudioReactivityManager.new []) [Op.setup none true true]).map
      (fun s => (s.bufferSize, s.fft.map (fun f => f.signalSize), s.bandRanges.getLast?))
      = some (512, some 512, some ⟨279, 511⟩)
    ∧ (run (AudioReactivityManager.new []) [Op.setup none false true,
        Op.loadFromXml invertedRangeDoc]).map (fun s => (s.bufferSize, s.bandRanges))
      = some (1024, [⟨5, 3⟩]) := by
  constructor
  · rfl
  · show (loadFromXml _ invertedRangeDoc).map (fun s => (s.bufferSize, s.bandRanges)) = _
    rw [loadFromXml_of_tag _ invertedRangeDoc _ rfl (by decide)]
    rfl

/-- C12, amended: in every state reachable through the constructor, `setup` (either
mode) and `loadFromXml` of documents that carry no `range` entry and a band count from 1
to 512, every band range satisfies `0 ≤ minBin ≤ maxBin < kNumFFTBins/2 = 512`, the half
size of the 1024-point transform whatever the mode. -/
theorem bandRanges_within_default_layout (devices : List OfSoundDevice) (ops : List Op)
    (hops : ∀ op ∈ ops, op.isDefaultLayoutOp = true) :
    ∃ final, run (AudioReactivityManager.new devices) ops = some final
      ∧ ∀ r ∈ final.bandRanges, 0 ≤ r.minBin ∧ r.minBin ≤ r.maxBin ∧ r.maxBin < 512 := by
  obtain ⟨final, hrun, _, _, hr⟩ := run_layout ops (AudioReactivityManager.new devices) hops
    ⟨by show (1 : Int) ≤ 8; decide, by show (8 : Int) ≤ 512; decide,
      by show ∀ r ∈ defaultRanges8, r.within512; exact defaultRanges8_within⟩
  refine ⟨final, hrun, fun r hmem => ?_⟩
  have h := hr r hmem
  unfold BandRange.within512 at h
  rw [usableBins_eq] at h
  exact h

/-- Witness of C12 amended: after performance-mode `setup` and loading a three-band
document the ranges are `0..169`, `170..339`, `340..511`. -/
theorem bandRanges_within_default_layout_witness :
    ∃ final, run (AudioReactivityManager.new [])
        [Op.setup none true true,
          Op.loadFromXml (docWith { emptyTag with numBands := some 3 })] = some final
      ∧ ∀ r ∈ final.bandRanges, 0 ≤ r.minBin ∧ r.minBin ≤ r.maxBin ∧ r.maxBin < 512 :=
  bandRanges_within_default_layout []
    [Op.setup none true true, Op.loadFromXml (docWith { emptyTag with numBands := some 3 })]
    (by
      intro op hop
      simp only [List.mem_cons, List.mem_singleton, List.not_mem_nil, or_false] at hop
      rcases hop with rfl | rfl
      · rfl
      · decide)

/-! ### Device names and positions -/

/-- C29, failing inputs: with the enumeration `Speakers` (no input channel), `Mic`, the
list of `getAudioDeviceList` is `["Mic"]`, yet `selectAudioDevice(0)` fails, changes
nothing, and no device is selected afterwards. With `Speakers`, `Mic A`, `Mic B` the
list is `["Mic A", "Mic B"]`, yet `selectAudioDevice(1)` selects `Mic A`, the name at
position 0, and position 1 of the enumeration is not position 1 of the list. -/
theorem selectAudioDevice_position_mismatch :
    getAudioDeviceList (AudioReactivityManager.new speakersThenMic) = ["Mic"]
    ∧ selectAudioDevice (AudioReactivityManager.new speakersThenMic) 0 true
        = (false, AudioReactivityManager.new speakersThenMic)
    ∧ getCurrentDeviceName
        (selectAudioDevice (AudioReactivityManager.new speakersThenMic) 0 true).2
        = "No device selected"
    ∧ getAudioDeviceList (AudioReactivityManager.new speakersThenTwoMics)
        = ["Mic A", "Mic B"]
    ∧ (selectAudioDevice (AudioReactivityManager.new speakersThenTwoMics) 1 true).1 = true
    ∧ getCurrentDeviceName
        (selectAudioDevice (AudioReactivityManager.new speakersThenTwoMics) 1 true).2
        = "Mic A" := by
  refine ⟨rfl, rfl, rfl, rfl, rfl, rfl⟩

/-- Positions agree when every enumerated device has an input channel: then
`getAudioDeviceList` is the list of all names. -/
theorem getAudioDeviceList_all_inputs (self : AudioReactivityManager)
    (h : ∀ device ∈ self.deviceList, device.inputChannels > 0) :
    getAudioDeviceList self = self.deviceList.map fun device => device.name := by
  unfold getAudioDeviceList
  rw [List.filter_eq_self.2]
  intro device hd
  simpa using h device hd

/-! ### Band counts of a document -/

/-- C30, failing inputs: for a document with `numBands = 0` the call `loadFromXml`
reaches the division `usableBins / numBands` of `setupDefaultBandRanges` with a zero
divisor and has no result; for a document with `numBands = -1` the band count of the
engine is -1 afterwards and the band storage still has its 8 entries, the resize to
the negative count having thrown. -/
theorem loadFromXml_band_count_unchecked :
    loadFromXml (AudioReactivityManager.new []) zeroBandsDoc = none
    ∧ setupDefaultBandRanges { AudioReactivityManager.new [] with numBands := 0 } = none
    ∧ (loadFromXml (AudioReactivityManager.new []) negativeBandsDoc).map
        (fun s => (s.numBands, s.bands.length, s.smoothedBands.length))
        = some (-1, 8, 8) := by
  refine ⟨rfl, rfl, rfl⟩

/-! ### Saving and loading the configuration -/

/-- Reading back a `range` tag written by `saveToXml` gives the range. -/
theorem toRange_toTag (range : BandRange) : range.toTag.toRange = range := by
  cases range
  rfl

/-- Reading back a `mapping` tag written by `saveToXml` gives the mapping with its floats
passed through their text form. -/
theorem toMapping_toTag (mapping : BandMapping) :
    mapping.toTag.toMapping = mapping.readBack := by
  obtain ⟨band, paramId, scale, min, max, additive⟩ := mapping
  cases additive <;>
    simp [BandMapping.toTag, MappingTag.toMapping, BandMapping.readBack, boolToInt]

/-- An engine with the mapping `xMapping` that has loaded a document whose `numBands` is
-1 keeps the band count -1 and its mapping list; saved with `saveToXml` and loaded into
a newly constructed engine, the load ends at the band count and the loaded engine has
no mapping. -/
theorem saveToXml_loadFromXml_negative_bands :
    (loadFromXml (addMapping (AudioReactivityManager.new []) xMapping) negativeBandsDoc).map
        (fun saved => (saved.numBands, saved.mappings)) = some (-1, [xMapping])
    ∧ ((loadFromXml (addMapping (AudioReactivityManager.new []) xMapping)
          negativeBandsDoc).bind
        fun saved =>
          loadFromXml (AudioReactivityManager.new []) (saveToXml saved sectionlessDoc)).map
        (fun loaded => loaded.mappings) = some [] := by
  refine ⟨rfl, rfl⟩

/-- The floats 2, -0.5 and 0.5 of `xMapping` pass through their text form unchanged. -/
theorem xMapping_readBack : xMapping.readBack = xMapping := by
  have h1 : textRoundTrip 2 = 2 := by decide!
  have h2 : textRoundTrip (-1 / 2) = -1 / 2 := by decide!
  have h3 : textRoundTrip (1 / 2) = 1 / 2 := by decide!
  show (⟨6, "x_displace", textRoundTrip 2, textRoundTrip (-1 / 2), textRoundTrip (1 / 2),
    false⟩ : BandMapping) = _
  rw [h1, h2, h3]
  rfl

/-- C21, counterexample: a newly constructed engine (8 bands, default ranges) gets one
mapping whose scale is the float `1 + 2^(-20) = 1.00000095...`. `saveToXml` writes the
scale as the text `1` (six significant digits), and `loadFromXml` of the saved document
into a newly constructed engine yields a mapping with scale 1: the mapping list is not
reproduced. -/
theorem saveToXml_loadFromXml_rounds_scale :
    (addMapping (AudioReactivityManager.new []) fineScaleMapping).mappings.map
        (fun m => m.scale) = [1048577 / 1048576]
    ∧ decimal6 (1048577 / 1048576) = 1
    ∧ (loadFromXml (AudioReactivityManager.new [])
          (saveToXml (addMapping (AudioReactivityManager.new []) fineScaleMapping)
            sectionlessDoc)).map
        (fun loaded => loaded.mappings.map fun m => m.scale) = some [1]
    ∧ (1048577 / 1048576 : ℚ) ≠ 1 := by
  refine ⟨rfl, by decide!, ?_, by norm_num⟩
  rw [loadFromXml_of_tag (AudioReactivityManager.new [])
    (saveToXml (addMapping (AudioReactivityManager.new []) fineScaleMapping) sectionlessDoc)
    _ rfl (by decide)]
  have h : textRoundTrip (1048577 / 1048576) = 1 := by decide!
  simp [addMapping, AudioReactivityManager.new, listAudioDevices, setupDefaultBandRanges,
    constructed, fineScaleMapping, BandMapping.toTag, MappingTag.toMapping, h]

/-- C21, amended: for every engine configuration with at least one band and at least one
band range, `saveToXml` into any document followed by `loadFromXml` of that document,
into any engine, completes and reproduces the band ranges and the band count; the
loaded mapping list is the saved list, in order, with the same band, paramId and
additive flag in each entry and with `scale`, `min` and `max` passed through the text
form of six significant digits; it is identical to the saved list when these floats
survive their text form. -/
theorem saveToXml_loadFromXml_round_trip (self other : AudioReactivityManager)
    (xml : OfxXmlSettings) (hn : 1 ≤ self.numBands) (hr : self.bandRanges ≠ []) :
    ∃ loaded, loadFromXml other (saveToXml self xml) = some loaded
      ∧ loaded.bandRanges = self.bandRanges
      ∧ loaded.numBands = self.numBands
      ∧ loaded.mappings = self.mappings.map BandMapping.readBack
      ∧ (∀ m, (BandMapping.readBack m).band = m.band
          ∧ (BandMapping.readBack m).paramId = m.paramId
          ∧ (BandMapping.readBack m).additive = m.additive
          ∧ (BandMapping.readBack m).scale = floatOfText (decimal6 m.scale)
          ∧ (BandMapping.readBack m).min = floatOfText (decimal6 m.min)
          ∧ (BandMapping.readBack m).max = floatOfText (decimal6 m.max))
      ∧ ((∀ m ∈ self.mappings, BandMapping.readBack m = m) →
          loaded.mappings = self.mappings) := by
  rw [loadFromXml_of_tag other (saveToXml self xml) _ rfl (by simpa using hn)]
  have hmap : (((some (self.mappings.map BandMapping.toTag)).getD []).map
      MappingTag.toMapping) = self.mappings.map BandMapping.readBack := by
    simp [Function.comp_def, toMapping_toTag]
  refine ⟨_, rfl, ?_, rfl, hmap, fun m => ⟨rfl, rfl, rfl, rfl, rfl, rfl⟩, ?_⟩
  · have hlen : 0 < self.bandRanges.length := List.length_pos.2 hr
    simp [hlen, Function.comp_def, toRange_toTag]
  · intro hfix
    show (((some (self.mappings.map BandMapping.toTag)).getD []).map
      MappingTag.toMapping) = self.mappings
    rw [hmap]
    conv_rhs => rw [← List.map_id self.mappings]
    exact List.map_congr_left fun m hm => hfix m hm

/-- C21, amended, at the engine with the mapping `xMapping`, saved into an empty
document and loaded into a newly constructed engine: the mapping list is identical. -/
theorem saveToXml_loadFromXml_round_trip_witness :
    (1 : Int) ≤ (addMapping (AudioReactivityManager.new []) xMapping).numBands
    ∧ (addMapping (AudioReactivityManager.new []) xMapping).bandRanges ≠ []
    ∧ ∃ loaded, loadFromXml (AudioReactivityManager.new [])
          (saveToXml (addMapping (AudioReactivityManager.new []) xMapping) sectionlessDoc)
          = some loaded
        ∧ loaded.bandRanges = (addMapping (AudioReactivityManager.new []) xMapping).bandRanges
        ∧ loaded.mappings = [xMapping] := by
  obtain ⟨loaded, h1, h2, _, _, _, h6⟩ :=
    saveToXml_loadFromXml_round_trip (addMapping (AudioReactivityManager.new []) xMapping)
      (AudioReactivityManager.new []) sectionlessDoc (by decide) (by decide)
  refine ⟨by decide, by decide, loaded, h1, h2, ?_⟩
  exact h6 (by
    intro m hm
    have hm2 : m = xMapping := by simpa [addMapping, AudioReactivityManager.new,
      listAudioDevices, setupDefaultBandRanges, constructed] using hm
    rw [hm2]
    exact xMapping_readBack)

/-- C22, failing input: the document has an `audioReactivity` section with
`numBands = -1` and one mapping entry, for `y_displace`; after `loadFromXml` the mapping
list of the engine is still the previously configured `xMapping`. -/
theorem loadFromXml_keeps_mappings_on_negative_bands :
    negativeBandsDoc.audioReactivity.map (fun tag => tag.mappings)
        = some (some [⟨some 0, some "y_displace", some 1, some 0, some 1, some 0⟩])
    ∧ (loadFromXml (addMapping (AudioReactivityManager.new []) xMapping) negativeBandsDoc).map
        (fun loaded => loaded.mappings) = some [xMapping] := by
  refine ⟨rfl, rfl⟩

/-- For every previous engine state and every document that has an `audioReactivity`
section with a band count of at least 1 (8 when the tag is absent), `loadFromXml`
completes and the mapping list afterwards is the list of the mappings built from the
document's mapping entries, in document order. -/
theorem loadFromXml_replaces_mappings (self : AudioReactivityManager)
    (xml : OfxXmlSettings) (tag : AudioReactivityTag)
    (htag : xml.audioReactivity = some tag) (hn : 1 ≤ tag.numBands.getD 8) :
    ∃ loaded, loadFromXml self xml = some loaded
      ∧ loaded.mappings = (tag.mappings.getD []).map MappingTag.toMapping := by
  rw [loadFromXml_of_tag self xml tag htag hn]
  exact ⟨_, rfl, rfl⟩

/-- C23, counterexample: the engine has the smoothing 0.5, set with `setSmoothing`, and
the mapping `xMapping`; the document has no `audioReactivity` section. `loadFromXml`
completes and leaves the engine as it was: the smoothing is 0.5 afterwards, not the
default 0.85, and the mapping list is not empty. -/
theorem loadFromXml_missing_section_keeps_state :
    sectionlessDoc.audioReactivity = none
    ∧ (loadFromXml (setSmoothing (addMapping (AudioReactivityManager.new []) xMapping) (1 / 2))
        sectionlessDoc).map (fun loaded => (loaded.smoothing, loaded.mappings))
        = some (1 / 2, [xMapping]) := by
  refine ⟨rfl, ?_⟩
  simp [loadFromXml, sectionlessDoc, setSmoothing, ofClamp, addMapping]
  refine ⟨by norm_num, rfl⟩

/-- C23, amended: for every previous engine state and every document whose
`audioReactivity` section, if present, has a band count of at least 1 (8 when the tag is
absent), `loadFromXml` completes. When the section is missing the engine is left
unchanged. When the section is present, every setting missing from it has its default
afterwards: enabled false, normalization enabled, sensitivity 1, smoothing 0.85, 8
bands; without `range` entries the band ranges are the default ranges for the band
count, and without a `mappings` section the mapping list is empty. -/
theorem loadFromXml_defaults (self : AudioReactivityManager) (xml : OfxXmlSettings)
    (hn : ∀ tag, xml.audioReactivity = some tag → 1 ≤ tag.numBands.getD 8) :
    ∃ loaded, loadFromXml self xml = some loaded
      ∧ (xml.audioReactivity = none → loaded = self)
      ∧ ∀ tag, xml.audioReactivity = some tag →
          (tag.enabled = none → loaded.enabled = false)
          ∧ (tag.normalizationEnabled = none → loaded.normalizationEnabled = true)
          ∧ (tag.sensitivity = none → loaded.sensitivity = 1)
          ∧ (tag.smoothing = none → loaded.smoothing = 85 / 100)
          ∧ (tag.numBands = none → loaded.numBands = 8)
          ∧ (tag.bandRanges.getD [] = [] →
              loaded.bandRanges = if loaded.numBands = 8 then defaultRanges8
                else evenBandRanges loaded.numBands)
          ∧ (tag.mappings = none → loaded.mappings = []) := by
  cases h : xml.audioReactivity with
  | none =>
    refine ⟨self, ?_, fun _ => rfl, ?_⟩
    · unfold loadFromXml
      simp only [h]
    · intro tag ht
      cases ht
  | some tag =>
    rw [loadFromXml_of_tag self xml tag h (hn tag h)]
    refine ⟨_, rfl, ?_, ?_⟩
    · intro hnone
      cases hnone
    · intro tag2 ht
      cases ht
      refine ⟨?_, ?_, ?_, ?_, ?_, ?_, ?_⟩
      · intro hm
        simp [hm]
      · intro hm
        simp [hm]
      · intro hm
        simp [hm]
      · intro hm
        simp [hm]
      · intro hm
        simp [hm]
      · intro hm
        simp [hm]
      · intro hm
        simp [hm]

/-- C23, amended, at the engine with smoothing 0.5 and the mapping `xMapping` and the
document whose `audioReactivity` section is empty. -/
theorem loadFromXml_defaults_witness :
    (∀ tag, (docWith emptyTag).audioReactivity = some tag → 1 ≤ tag.numBands.getD 8)
    ∧ ∃ loaded,
        loadFromXml (setSmoothing (addMapping (AudioReactivityManager.new []) xMapping) (1 / 2))
          (docWith emptyTag) = some loaded
        ∧ ((docWith emptyTag).audioReactivity = none → loaded
            = setSmoothing (addMapping (AudioReactivityManager.new []) xMapping) (1 / 2))
        ∧ ∀ tag, (docWith emptyTag).audioReactivity = some tag →
            (tag.enabled = none → loaded.enabled = false)
            ∧ (tag.normalizationEnabled = none → loaded.normalizationEnabled = true)
            ∧ (tag.sensitivity = none → loaded.sensitivity = 1)
            ∧ (tag.smoothing = none → loaded.smoothing = 85 / 100)
            ∧ (tag.numBands = none → loaded.numBands = 8)
            ∧ (tag.bandRanges.getD [] = [] →
                loaded.bandRanges = if loaded.numBands = 8 then defaultRanges8
                  else evenBandRanges loaded.numBands)
            ∧ (tag.mappings = none → loaded.mappings = []) :=
  ⟨fun tag h => by
      have ht : tag = emptyTag := (Option.some.inj h).symm
      subst ht
      decide,
    loadFromXml_defaults
      (setSmoothing (addMapping (AudioReactivityManager.new []) xMapping) (1 / 2))
      (docWith emptyTag) (fun tag h => by
        have ht : tag = emptyTag := (Option.some.inj h).symm
        subst ht
        decide)⟩

/-! ### Raw band energies -/

/-- The fold of `sumBins` over any list of offsets: the sum and the count over the bins
that pass the bounds test. -/
theorem foldl_sumBins (sp : List ℚ) (minBin : Int) (ks : List Int) (acc : ℚ × Int) :
    ks.foldl
        (fun (acc : ℚ × Int) (k : Int) =>
          let bin : Int := minBin + k
          if 0 ≤ bin ∧ bin < (sp.length : Int) then
            (acc.1 + sp.getD bin.toNat 0, acc.2 + 1)
          else acc)
        acc
      = (acc.1 + ((((ks.map fun (k : Int) => minBin + k).filter
            fun bin => 0 ≤ bin ∧ bin < (sp.length : Int)).map
            fun bin => sp.getD bin.toNat 0).sum),
          acc.2 + ((((ks.map fun (k : Int) => minBin + k).filter
            fun bin => 0 ≤ bin ∧ bin < (sp.length : Int)).length : Nat) : Int)) := by
  induction ks generalizing acc with
  | nil => simp
  | cons k ks ih =>
    rw [List.foldl_cons, ih]
    by_cases h : 0 ≤ minBin + k ∧ minBin + k < (sp.length : Int)
    · simp only [h, List.map_cons, List.filter_cons, and_self, decide_True, if_true,
        List.sum_cons, List.length_cons, Nat.cast_add, Nat.cast_one]
      refine Prod.ext ?_ ?_
      · simp only
        ring
      · simp only
        ring
    · simp only [h, List.map_cons, List.filter_cons, decide_False, if_false]
      simp

/-- The bins that the loop of `sumBins` counts are the valid bins of the range, each
once. -/
theorem loopBins_perm (n : Nat) (range : BandRange) :
    List.Perm
      (((List.range (range.maxBin - range.minBin + 1).toNat).map
        fun (k : Nat) => range.minBin + (k : Int)).filter fun bin => 0 ≤ bin ∧ bin < (n : Int))
      ((validBins n range).map fun (b : Nat) => (b : Int)) := by
  have hinj1 : Function.Injective fun k : Nat => range.minBin + (k : Int) := by
    intro a b hab
    simp only at hab
    omega
  have hinj2 : Function.Injective fun b : Nat => (b : Int) := by
    intro a b hab
    simp only at hab
    omega
  have hnd1 := ((List.nodup_range (range.maxBin - range.minBin + 1).toNat).map hinj1).filter
    (fun bin => decide (0 ≤ bin ∧ bin < (n : Int)))
  have hnd2 : ((validBins n range).map fun (b : Nat) => (b : Int)).Nodup :=
    ((List.nodup_range n).filter _).map hinj2
  refine (List.perm_ext_iff_of_nodup hnd1 hnd2).2 ?_
  intro b
  simp only [validBins, List.mem_filter, List.mem_map, List.mem_range, decide_eq_true_eq]
  constructor
  · rintro ⟨⟨k, hk, rfl⟩, h0, hlt⟩
    exact ⟨(range.minBin + (k : Int)).toNat, ⟨by omega, by omega, by omega⟩, by omega⟩
  · rintro ⟨j, ⟨hj, h1, h2⟩, rfl⟩
    exact ⟨⟨((j : Int) - range.minBin).toNat, by omega, by omega⟩, by omega, by omega⟩

/-- The sum and the count of `sumBins` are those over the valid bins of the range. -/
theorem sumBins_eq (sp : List ℚ) (range : BandRange) :
    sumBins sp range =
      (((validBins sp.length range).map fun b => sp.getD b 0).sum,
        ((validBins sp.length range).length : Int)) := by
  unfold sumBins
  rw [bind_cast_eq_map, foldl_sumBins, List.map_map]
  have hcomp : ((fun k : Int => range.minBin + k) ∘ fun a : Nat => (a : Int))
      = fun (k : Nat) => range.minBin + (k : Int) := rfl
  have hp := loopBins_perm sp.length range
  have hs := (hp.map fun bin : Int => sp.getD bin.toNat 0).sum_eq
  have hl := hp.length_eq
  rw [hcomp, hs, hl]
  simp [Function.comp_def]

/-- The band average of `groupBands` is the mean of the spectrum values at the valid
bins of the range. -/
theorem bandAverage_eq_mean (sp : List ℚ) (range : BandRange) :
    bandAverage sp range = mean ((validBins sp.length range).map fun b => sp.getD b 0) := by
  unfold bandAverage mean
  simp only [sumBins_eq]
  cases h : validBins sp.length range with
  | nil => simp
  | cons b bs => simp

/-- C26: for every engine state, band `i` below the band count with a range and a storage
entry: the raw band energy that `groupBands` stores in `bands[i]` is the arithmetic mean
of the spectrum values at the bins of `minBin..maxBin` that are indices of the
spectrum, and it is 0 when the range has no such bin. -/
theorem groupBands_raw_band_mean (self : AudioReactivityManager) (i : Nat)
    (range : BandRange) (hi : (i : Int) < self.numBands)
    (hr : self.bandRanges[i]? = some range) (hb : i < self.bands.length) :
    (groupBands self).bands[i]? =
        some (mean ((validBins self.fftSmoothed.length range).map
          fun b => self.fftSmoothed.getD b 0))
    ∧ (validBins self.fftSmoothed.length range ≠ [] →
        (groupBands self).bands[i]? =
          some (((validBins self.fftSmoothed.length range).map
              fun b => self.fftSmoothed.getD b 0).sum
            / ((validBins self.fftSmoothed.length range).length : ℚ)))
    ∧ (validBins self.fftSmoothed.length range = [] → (groupBands self).bands[i]? = some 0)
    ∧ (∀ b : Nat, b ∈ validBins self.fftSmoothed.length range ↔
        (range.minBin ≤ (b : Int) ∧ (b : Int) ≤ range.maxBin ∧ b < self.fftSmoothed.length))
    ∧ (validBins self.fftSmoothed.length range).Nodup := by
  have h := groupBands_bands_at self i range hi hr hb
  rw [bandAverage_eq_mean] at h
  refine ⟨h, ?_, ?_, ?_, ?_⟩
  · intro hne
    rw [h]
    unfold mean
    cases hv : validBins self.fftSmoothed.length range with
    | nil => exact absurd hv hne
    | cons b bs => simp
  · intro hnil
    rw [h, hnil]
    rfl
  · intro b
    simp only [validBins, List.mem_filter, List.mem_range, decide_eq_true_eq]
    constructor
    · rintro ⟨h1, h2, h3⟩
      exact ⟨h2, h3, h1⟩
    · rintro ⟨h1, h2, h3⟩
      exact ⟨h3, h1, h2⟩
  · exact (List.nodup_range _).filter _

/-- C26 at the spectrum `[1, 3, 5]` and band 0 with the range `1..2`: the raw energy is
the mean 4 of the bins 1 and 2. -/
theorem groupBands_raw_band_mean_witness :
    ((0 : Nat) : Int) < (engineWithSpectrum [1, 3, 5] [0, 0, 0, 0, 0, 0, 0, 0] 0).numBands
    ∧ (engineWithSpectrum [1, 3, 5] [0, 0, 0, 0, 0, 0, 0, 0] 0).bandRanges[0]? = some ⟨1, 2⟩
    ∧ 0 < (engineWithSpectrum [1, 3, 5] [0, 0, 0, 0, 0, 0, 0, 0] 0).bands.length
    ∧ (groupBands (engineWithSpectrum [1, 3, 5] [0, 0, 0, 0, 0, 0, 0, 0] 0)).bands[0]?
        = some 4 := by
  have h := groupBands_raw_band_mean
    (engineWithSpectrum [1, 3, 5] [0, 0, 0, 0, 0, 0, 0, 0] 0) 0 ⟨1, 2⟩
    (by decide) rfl (by decide)
  refine ⟨by decide, rfl, by decide, ?_⟩
  rw [h.1]
  have hv : validBins (engineWithSpectrum [1, 3, 5] [0, 0, 0, 0, 0, 0, 0, 0] 0).fftSmoothed.length
      ⟨1, 2⟩ = [1, 2] := by decide
  rw [hv]
  simp [mean, engineWithSpectrum]
  norm_num

/-! ### Spectrum analysis -/

theorem scaledBin_nonneg (fr : List ℚ) (sens : ℚ) (i : Nat) : 0 ≤ scaledBin fr sens i :=
  sq_nonneg _

theorem scaledPeak_nonneg (fr : List ℚ) (sens : ℚ) (n : Nat) : 0 ≤ scaledPeak fr sens n := by
  induction n with
  | zero => exact le_refl _
  | succ n ih => exact le_max_of_le_left ih

/-- Every scaled value of the tick is at most the peak. -/
theorem scaledBin_le_scaledPeak (fr : List ℚ) (sens : ℚ) (n j : Nat) (hj : j < n) :
    scaledBin fr sens j ≤ scaledPeak fr sens n := by
  induction n with
  | zero => omega
  | succ n ih =>
    show _ ≤ max _ _
    by_cases h : j = n
    · subst h
      exact le_max_right _ _
    · exact le_max_of_le_left (ih (by omega))

/-- The running maximum of the first loop of `analyzeAudio`. -/
theorem foldl_scale_fst (fr : List ℚ) (sens : ℚ) (norm : Bool) (sp : List ℚ) (n : Nat) :
    ((List.range n).foldl (analyzeScaleStep fr sens norm) (0, sp)).1 =
      if norm = true then scaledPeak fr sens n else 0 := by
  induction n with
  | zero => simp [scaledPeak]
  | succ n ih =>
    rw [List.range_succ, List.foldl_append, List.foldl_cons, List.foldl_nil]
    show (if norm = true then max _ _ else _) = _
    rw [ih]
    cases norm
    · simp
    · simp [scaledPeak, scaledBin]

/-- The spectrum after the first loop of `analyzeAudio`. -/
theorem foldl_scale_snd (fr : List ℚ) (sens : ℚ) (norm : Bool) (acc : ℚ × List ℚ)
    (n j : Nat) :
    ((List.range n).foldl (analyzeScaleStep fr sens norm) acc).2[j]? =
      if j < n then acc.2[j]?.map fun _ => scaledBin fr sens j else acc.2[j]? := by
  induction n with
  | zero => simp
  | succ n ih =>
    rw [List.range_succ, List.foldl_append, List.foldl_cons, List.foldl_nil]
    show (List.set _ n (scaledBin fr sens n))[j]? = _
    by_cases hnj : n = j
    · subst hnj
      rw [List.getElem?_set_self', ih]
      simp
      rfl
    · rw [List.getElem?_set_ne hnj, ih]
      have hiff : j < n + 1 ↔ j < n := by omega
      simp [hiff]

/-- The smoothed spectrum after the second loop of `analyzeAudio`. -/
theorem foldl_smooth (maxVal s : ℚ) (sp sm : List ℚ) (n j : Nat) :
    ((List.range n).foldl (analyzeSmoothStep maxVal s sp) sm)[j]? =
      if j < n then
        sm[j]?.map fun old =>
          max (old * s) ((if maxVal > 0 then sp.getD j 0 / maxVal else 0) * (1 - s))
      else sm[j]? := by
  induction n generalizing j with
  | zero => simp
  | succ n ih =>
    have hs : ∀ (l : List ℚ) (i : Nat), analyzeSmoothStep maxVal s sp l i =
        l.set i (max (l.getD i 0 * s)
          ((if maxVal > 0 then sp.getD i 0 / maxVal else 0) * (1 - s))) := fun _ _ => rfl
    rw [List.range_succ, List.foldl_append, List.foldl_cons, List.foldl_nil, hs]
    by_cases hnj : n = j
    · subst hnj
      rw [List.getElem?_set_self', List.getD_eq_getElem?_getD, ih]
      cases h : sm[n]? with
      | none => simp
      | some old => simp
    · rw [List.getElem?_set_ne hnj, ih]
      have hiff : j < n + 1 ↔ j < n := by omega
      simp [hiff]

/-- The smoothed spectrum that the loops of `analyzeAudio` start from: resized to the
number of processed bins when the size of `fftSpectrum` differs from it. -/
theorem analyzeAudio_eq (self : AudioReactivityManager) (fr : List ℚ) (hne : fr ≠ []) :
    analyzeAudio self fr =
      { self with
        fftSpectrum :=
          ((List.range (spectrumSize fr)).foldl
            (analyzeScaleStep fr self.sensitivity self.normalizationEnabled)
            (0, if self.fftSpectrum.length ≠ spectrumSize fr then
              resize self.fftSpectrum (spectrumSize fr) else self.fftSpectrum)).2
        fftSmoothed :=
          (List.range (spectrumSize fr)).foldl
            (analyzeSmoothStep
              (if self.normalizationEnabled = true then
                ((List.range (spectrumSize fr)).foldl
                  (analyzeScaleStep fr self.sensitivity self.normalizationEnabled)
                  (0, if self.fftSpectrum.length ≠ spectrumSize fr then
                    resize self.fftSpectrum (spectrumSize fr) else self.fftSpectrum)).1
              else 1)
              self.smoothing
              ((List.range (spectrumSize fr)).foldl
                (analyzeScaleStep fr self.sensitivity self.normalizationEnabled)
                (0, if self.fftSpectrum.length ≠ spectrumSize fr then
                  resize self.fftSpectrum (spectrumSize fr) else self.fftSpectrum)).2)
            (if self.fftSpectrum.length ≠ spectrumSize fr then
              resize self.fftSmoothed (spectrumSize fr) else self.fftSmoothed) } := by
  cases fr with
  | nil => exact absurd rfl hne
  | cons a fr =>
    unfold analyzeAudio
    rw [if_neg (by simp)]
    by_cases hres : self.fftSpectrum.length ≠ spectrumSize (a :: fr)
    · have hres2 : self.fftSpectrum.length ≠ min (a :: fr).length (kNumFFTBins / 2) := hres
      simp only [hres, hres2, if_true, ne_eq, not_false_eq_true]
      rfl
    · have hres2 : ¬ self.fftSpectrum.length ≠ min (a :: fr).length (kNumFFTBins / 2) := hres
      simp only [hres, hres2, if_false]
      rfl

/-- The fields that `analyzeAudio` leaves unchanged. -/
theorem analyzeAudio_frame (self : AudioReactivityManager) (fr : List ℚ) :
    (analyzeAudio self fr).smoothedBands = self.smoothedBands
    ∧ (analyzeAudio self fr).bandRanges = self.bandRanges
    ∧ (analyzeAudio self fr).smoothing = self.smoothing
    ∧ (analyzeAudio self fr).numBands = self.numBands
    ∧ (analyzeAudio self fr).bands = self.bands := by
  by_cases hne : fr = []
  · subst hne
    exact ⟨rfl, rfl, rfl, rfl, rfl⟩
  · rw [analyzeAudio_eq self fr hne]
    exact ⟨rfl, rfl, rfl, rfl, rfl⟩

/-- The size of `fftSpectrum` when the loops of `analyzeAudio` start. -/
theorem analyzeAudio_spectrum_length (sp : List ℚ) (n : Nat) :
    (if sp.length ≠ n then resize sp n else sp).length = n := by
  by_cases h : sp.length ≠ n
  · rw [if_pos h, resize_length]
  · rw [if_neg h]
    exact not_not.mp h

/-- The divisor of the second loop of `analyzeAudio`. -/
theorem analyzeAudio_divisor (fr : List ℚ) (sens : ℚ) (norm : Bool) (sp : List ℚ) (n : Nat) :
    (if norm = true then ((List.range n).foldl (analyzeScaleStep fr sens norm) (0, sp)).1
      else 1) = tickDivisor fr sens norm n := by
  rw [foldl_scale_fst]
  unfold tickDivisor
  cases norm <;> simp

/-- Every value of the smoothed spectrum after `analyzeAudio` on a non-empty transform
output. -/
theorem analyzeAudio_fftSmoothed (self : AudioReactivityManager) (fr : List ℚ)
    (hne : fr ≠ []) (j : Nat) :
    (analyzeAudio self fr).fftSmoothed[j]? =
      if j < spectrumSize fr then
        (if self.fftSpectrum.length ≠ spectrumSize fr then
            resize self.fftSmoothed (spectrumSize fr) else self.fftSmoothed)[j]?.map
          fun old =>
            max (old * self.smoothing)
              (normalizedBin fr self.sensitivity self.normalizationEnabled (spectrumSize fr) j
                * (1 - self.smoothing))
      else
        (if self.fftSpectrum.length ≠ spectrumSize fr then
            resize self.fftSmoothed (spectrumSize fr) else self.fftSmoothed)[j]? := by
  rw [analyzeAudio_eq self fr hne]
  simp only
  rw [foldl_smooth, analyzeAudio_divisor]
  by_cases hj : j < spectrumSize fr
  · rw [if_pos hj, if_pos hj]
    have hlen := analyzeAudio_spectrum_length self.fftSpectrum (spectrumSize fr)
    have hget : ((List.range (spectrumSize fr)).foldl
        (analyzeScaleStep fr self.sensitivity self.normalizationEnabled)
        (0, if self.fftSpectrum.length ≠ spectrumSize fr then
          resize self.fftSpectrum (spectrumSize fr) else self.fftSpectrum)).2.getD j 0
        = scaledBin fr self.sensitivity j := by
      rw [List.getD_eq_getElem?_getD, foldl_scale_snd, if_pos hj,
        List.getElem?_eq_getElem (by rw [hlen]; exact hj)]
      rfl
    rw [hget]
    rfl
  · rw [if_neg hj, if_neg hj]

/-- The scaled value of a bin is the square of ten times the sensitivity times the scaled
value at sensitivity 0.1. -/
theorem scaledBin_scale (fr : List ℚ) (sens : ℚ) (i : Nat) :
    scaledBin fr sens i = (sens * 10) ^ 2 * scaledBin fr (1 / 10) i := by
  unfold scaledBin
  ring

theorem scaledPeak_scale (fr : List ℚ) (sens : ℚ) (n : Nat) :
    scaledPeak fr sens n = (sens * 10) ^ 2 * scaledPeak fr (1 / 10) n := by
  induction n with
  | zero => simp [scaledPeak]
  | succ n ih =>
    show max _ _ = _ * max _ _
    rw [ih, scaledBin_scale fr sens n, mul_max_of_nonneg _ _ (sq_nonneg _)]

/-- With normalization enabled the normalised value of a bin is the same for every
non-zero sensitivity. -/
theorem normalizedBin_sensitivity (fr : List ℚ) (sens : ℚ) (hs : sens ≠ 0) (n i : Nat) :
    normalizedBin fr sens true n i = normalizedBin fr (1 / 10) true n i := by
  have hc : 0 < (sens * 10) ^ 2 := by positivity
  unfold normalizedBin tickDivisor
  simp only [if_true]
  rw [scaledPeak_scale fr sens n, scaledBin_scale fr sens i]
  by_cases hp : scaledPeak fr (1 / 10) n > 0
  · rw [if_pos (mul_pos hc hp), if_pos hp, mul_div_mul_left _ _ (ne_of_gt hc)]
  · rw [if_neg hp, if_neg]
    intro hpos
    have hle := not_lt.mp hp
    exact absurd hpos (not_lt.mpr (mul_nonpos_of_nonneg_of_nonpos (le_of_lt hc) hle))

/-- C27, amended: with normalization enabled and the float operations taken as exact, for
every engine state and every transform output, `analyzeAudio` yields the same
`fftSmoothed` for any two non-zero sensitivities. -/
theorem analyzeAudio_sensitivity_invariant (self : AudioReactivityManager) (fr : List ℚ)
    (a b : ℚ) (ha : a ≠ 0) (hb : b ≠ 0) (hnorm : self.normalizationEnabled = true) :
    (analyzeAudio { self with sensitivity := a } fr).fftSmoothed
      = (analyzeAudio { self with sensitivity := b } fr).fftSmoothed := by
  by_cases hne : fr = []
  · subst hne
    rfl
  · apply List.ext_getElem?
    intro j
    rw [analyzeAudio_fftSmoothed _ fr hne, analyzeAudio_fftSmoothed _ fr hne]
    simp only [hnorm]
    rw [normalizedBin_sensitivity fr a ha, normalizedBin_sensitivity fr b hb]

/-- C27 at the newly constructed engine, the transform output `[1, 2]` and the
sensitivities 1 and 2. -/
theorem analyzeAudio_sensitivity_invariant_witness :
    (1 : ℚ) ≠ 0 ∧ (2 : ℚ) ≠ 0
    ∧ (AudioReactivityManager.new []).normalizationEnabled = true
    ∧ (analyzeAudio { AudioReactivityManager.new [] with sensitivity := 1 } [1, 2]).fftSmoothed
      = (analyzeAudio { AudioReactivityManager.new [] with sensitivity := 2 } [1, 2]).fftSmoothed :=
  ⟨by norm_num, by norm_num, rfl,
    analyzeAudio_sensitivity_invariant (AudioReactivityManager.new []) [1, 2] 1 2
      (by norm_num) (by norm_num) rfl⟩

/-! ### Values between 0 and 1 -/

theorem getD_unit (l : List ℚ) (h : ∀ x ∈ l, 0 ≤ x ∧ x ≤ 1) (j : Nat) :
    0 ≤ l.getD j 0 ∧ l.getD j 0 ≤ 1 := by
  rw [List.getD_eq_getElem?_getD]
  by_cases hj : j < l.length
  · rw [List.getElem?_eq_getElem hj]
    exact h _ (List.getElem_mem hj)
  · rw [List.getElem?_eq_none (not_lt.mp hj)]
    exact ⟨le_refl _, zero_le_one⟩

theorem mean_unit (values : List ℚ) (h : ∀ v ∈ values, 0 ≤ v ∧ v ≤ 1) :
    0 ≤ mean values ∧ mean values ≤ 1 := by
  unfold mean
  cases hv : values with
  | nil => simp
  | cons v vs =>
    rw [← hv]
    have hne : values.isEmpty = false := by rw [hv]; rfl
    rw [hne]
    simp only [Bool.false_eq_true, if_false]
    have hpos : (0 : ℚ) < (values.length : ℚ) := by
      rw [hv]
      simp only [List.length_cons, Nat.cast_add, Nat.cast_one]
      positivity
    have h0 : 0 ≤ values.sum := List.sum_nonneg fun x hx => (h x hx).1
    have h1 : values.sum ≤ (values.length : ℚ) := by
      have := List.sum_le_card_nsmul values 1 fun x hx => (h x hx).2
      simpa using this
    exact ⟨div_nonneg h0 (le_of_lt hpos), (div_le_one hpos).2 h1⟩

/-- The band average of a spectrum with values between 0 and 1 lies between 0 and 1. -/
theorem bandAverage_unit (sp : List ℚ) (range : BandRange)
    (h : ∀ x ∈ sp, 0 ≤ x ∧ x ≤ 1) :
    0 ≤ bandAverage sp range ∧ bandAverage sp range ≤ 1 := by
  rw [bandAverage_eq_mean]
  apply mean_unit
  intro v hv
  rw [List.mem_map] at hv
  obtain ⟨b, _, rfl⟩ := hv
  exact getD_unit sp h b

/-- With normalization enabled the normalised value of a processed bin lies between 0
and 1. -/
theorem normalizedBin_unit (fr : List ℚ) (sens : ℚ) (n j : Nat) (hj : j < n) :
    0 ≤ normalizedBin fr sens true n j ∧ normalizedBin fr sens true n j ≤ 1 := by
  unfold normalizedBin tickDivisor
  simp only [if_true]
  by_cases hp : scaledPeak fr sens n > 0
  · rw [if_pos hp]
    exact ⟨div_nonneg (scaledBin_nonneg fr sens j) (le_of_lt hp),
      (div_le_one hp).2 (scaledBin_le_scaledPeak fr sens n j hj)⟩
  · rw [if_neg hp]
    exact ⟨le_refl _, zero_le_one⟩

theorem smooth_entry_unit (old nb s : ℚ) (ho : 0 ≤ old ∧ old ≤ 1) (hb : 0 ≤ nb ∧ nb ≤ 1)
    (hs0 : 0 ≤ s) (hs1 : s ≤ 99 / 100) :
    0 ≤ max (old * s) (nb * (1 - s)) ∧ max (old * s) (nb * (1 - s)) ≤ 1 := by
  have h1s : 0 ≤ 1 - s := by linarith
  refine ⟨le_max_of_le_left (mul_nonneg ho.1 hs0), max_le ?_ ?_⟩
  · calc old * s ≤ 1 * s := mul_le_mul_of_nonneg_right ho.2 hs0
      _ ≤ 1 := by linarith
  · calc nb * (1 - s) ≤ 1 * (1 - s) := mul_le_mul_of_nonneg_right hb.2 h1s
      _ ≤ 1 := by linarith

theorem blend_entry_unit (avg old s : ℚ) (ha : 0 ≤ avg ∧ avg ≤ 1) (ho : 0 ≤ old ∧ old ≤ 1)
    (hs0 : 0 ≤ s) (hs1 : s ≤ 99 / 100) :
    0 ≤ avg * (1 - s) + old * s ∧ avg * (1 - s) + old * s ≤ 1 := by
  have h1s : 0 ≤ 1 - s := by linarith
  refine ⟨add_nonneg (mul_nonneg ha.1 h1s) (mul_nonneg ho.1 hs0), ?_⟩
  have h1 : avg * (1 - s) ≤ 1 * (1 - s) := mul_le_mul_of_nonneg_right ha.2 h1s
  have h2 : old * s ≤ 1 * s := mul_le_mul_of_nonneg_right ho.2 hs0
  linarith

/-- The smoothed spectrum that the loops of `analyzeAudio` start from keeps values between
0 and 1. -/
theorem resized_unit (sp sm : List ℚ) (n : Nat) (h : ∀ x ∈ sm, 0 ≤ x ∧ x ≤ 1) (j : Nat)
    (x : ℚ) (hx : (if sp.length ≠ n then resize sm n else sm)[j]? = some x) :
    0 ≤ x ∧ x ≤ 1 := by
  by_cases hres : sp.length ≠ n
  · rw [if_pos hres] at hx
    have hj : j < n := by
      have := (List.getElem?_eq_some_iff.mp hx).1
      rwa [resize_length] at this
    rw [resize_getElem? _ _ _ hj] at hx
    cases hx
    exact getD_unit sm h j
  · rw [if_neg hres] at hx
    exact h x (List.mem_iff_getElem?.mpr ⟨j, hx⟩)

/-- With normalization enabled and smoothing between 0 and 0.99, `analyzeAudio` keeps
every spectrum value between 0 and 1. -/
theorem analyzeAudio_unit (self : AudioReactivityManager) (fr : List ℚ)
    (hnorm : self.normalizationEnabled = true) (hs0 : 0 ≤ self.smoothing)
    (hs1 : self.smoothing ≤ 99 / 100) (h : ∀ x ∈ self.fftSmoothed, 0 ≤ x ∧ x ≤ 1) :
    ∀ x ∈ (analyzeAudio self fr).fftSmoothed, 0 ≤ x ∧ x ≤ 1 := by
  intro x hx
  by_cases hne : fr = []
  · subst hne
    exact h x hx
  · obtain ⟨j, hj⟩ := List.mem_iff_getElem?.mp hx
    rw [analyzeAudio_fftSmoothed self fr hne] at hj
    by_cases hlt : j < spectrumSize fr
    · rw [if_pos hlt] at hj
      cases hold : (if self.fftSpectrum.length ≠ spectrumSize fr then
          resize self.fftSmoothed (spectrumSize fr) else self.fftSmoothed)[j]? with
      | none =>
        rw [hold] at hj
        cases hj
      | some old =>
        rw [hold] at hj
        cases hj
        rw [hnorm]
        exact smooth_entry_unit old _ _ (resized_unit _ _ _ h j old hold)
          (normalizedBin_unit fr self.sensitivity _ j hlt) hs0 hs1
    · rw [if_neg hlt] at hj
      exact resized_unit _ _ _ h j x hj

/-- With smoothing between 0 and 0.99 and a spectrum between 0 and 1, `groupBands` keeps
every smoothed band energy between 0 and 1. -/
theorem groupBands_unit (self : AudioReactivityManager) (hs0 : 0 ≤ self.smoothing)
    (hs1 : self.smoothing ≤ 99 / 100) (hsp : ∀ x ∈ self.fftSmoothed, 0 ≤ x ∧ x ≤ 1)
    (hsb : ∀ x ∈ self.smoothedBands, 0 ≤ x ∧ x ≤ 1) :
    ∀ x ∈ (groupBands self).smoothedBands, 0 ≤ x ∧ x ≤ 1 := by
  intro x hx
  obtain ⟨j, hj⟩ := List.mem_iff_getElem?.mp hx
  unfold groupBands at hj
  rw [foldl_range_smoothedBands] at hj
  by_cases hc : j < self.numBands.toNat ∧ j < self.bandRanges.length
  · rw [if_pos hc] at hj
    cases hold : self.smoothedBands[j]? with
    | none =>
      rw [hold] at hj
      cases hj
    | some old =>
      rw [hold] at hj
      cases hj
      exact blend_entry_unit _ old _ (bandAverage_unit _ _ hsp)
        (hsb old (List.mem_iff_getElem?.mpr ⟨j, hold⟩)) hs0 hs1
  · rw [if_neg hc] at hj
    exact hsb x (List.mem_iff_getElem?.mpr ⟨j, hj⟩)

theorem applyParameterValue_fftSmoothed (self : AudioReactivityManager) (paramId : String)
    (v : ℚ) (a : Bool) :
    (applyParameterValue self paramId v a).fftSmoothed = self.fftSmoothed := by
  unfold applyParameterValue
  split <;> rfl

theorem step_fftSmoothed (self : AudioReactivityManager) (m : BandMapping) :
    (applyMappingsStep self m).fftSmoothed = self.fftSmoothed := by
  unfold applyMappingsStep
  split_ifs
  · exact applyParameterValue_fftSmoothed _ _ _ _
  · rfl

theorem foldl_step_fftSmoothed (l : List BandMapping) (self : AudioReactivityManager) :
    (l.foldl applyMappingsStep self).fftSmoothed = self.fftSmoothed := by
  induction l generalizing self with
  | nil => rfl
  | cons m l ih => rw [List.foldl_cons, ih, step_fftSmoothed]

/-- The tick of `update`, `analyzeAudio` followed by `groupBands`, keeps the spectrum and
the smoothed band energies between 0 and 1. -/
theorem tick_unit (self : AudioReactivityManager) (fr : List ℚ)
    (hnorm : self.normalizationEnabled = true) (hs0 : 0 ≤ self.smoothing)
    (hs1 : self.smoothing ≤ 99 / 100) (h : UnitRange self) :
    UnitRange (groupBands (analyzeAudio self fr)) := by
  obtain ⟨f1, _, f3, _, _⟩ := analyzeAudio_frame self fr
  have hsp := analyzeAudio_unit self fr hnorm hs0 hs1 h.1
  refine ⟨?_, ?_⟩
  · rw [(groupBands_frame _).1]
    exact hsp
  · apply groupBands_unit
    · rw [f3]
      exact hs0
    · rw [f3]
      exact hs1
    · exact hsp
    · rw [f1]
      exact h.2

/-- C28: with normalization enabled and smoothing between 0 and 0.99, for every engine
state, transform output, sensitivity and set of band ranges: when every `fftSmoothed`
bin and every `smoothedBands` entry lies between 0 and 1, the same holds after the tick
`analyzeAudio` followed by `groupBands`, and after `update`. -/
theorem update_preserves_unit_range (self : AudioReactivityManager) (fr : List ℚ)
    (hnorm : self.normalizationEnabled = true) (hs0 : 0 ≤ self.smoothing)
    (hs1 : self.smoothing ≤ 99 / 100) (h : UnitRange self) :
    UnitRange (groupBands (analyzeAudio self fr)) ∧ UnitRange (update self fr) := by
  have ht := tick_unit self fr hnorm hs0 hs1 h
  refine ⟨ht, ?_⟩
  unfold update
  by_cases hc : self.enabled = false ∨ self.paramManager.isNone = true
      ∨ self.fft.isNone = true
  · rw [if_pos hc]
    exact h
  · rw [if_neg hc]
    unfold UnitRange applyMappings
    rw [foldl_step_fftSmoothed, foldl_step_smoothedBands]
    exact ht

/-- The spectrum and the band energies of a newly constructed engine are zero. -/
theorem runningEngine_unit : UnitRange runningEngine := by
  have h1 : runningEngine.fftSmoothed = List.replicate 512 0 := rfl
  have h2 : runningEngine.smoothedBands = List.replicate 8 0 := rfl
  refine ⟨?_, ?_⟩
  · intro x hx
    rw [h1] at hx
    rw [(List.mem_replicate.mp hx).2]
    exact ⟨le_refl _, zero_le_one⟩
  · intro x hx
    rw [h2] at hx
    rw [(List.mem_replicate.mp hx).2]
    exact ⟨le_refl _, zero_le_one⟩

/-- C28 at the running engine after construction and the transform output `[1, 2]`. -/
theorem update_preserves_unit_range_witness :
    runningEngine.normalizationEnabled = true
    ∧ 0 ≤ runningEngine.smoothing
    ∧ runningEngine.smoothing ≤ 99 / 100
    ∧ UnitRange runningEngine
    ∧ UnitRange (groupBands (analyzeAudio runningEngine [1, 2]))
    ∧ UnitRange (update runningEngine [1, 2]) :=
  ⟨rfl, by show (0 : ℚ) ≤ 85 / 100; norm_num, by show (85 / 100 : ℚ) ≤ 99 / 100; norm_num,
    runningEngine_unit,
    update_preserves_unit_range runningEngine [1, 2] rfl
      (by show (0 : ℚ) ≤ 85 / 100; norm_num) (by show (85 / 100 : ℚ) ≤ 99 / 100; norm_num)
      runningEngine_unit⟩

/-! ### Sizes of the spectrum arrays -/

theorem foldl_smooth_length (maxVal s : ℚ) (sp : List ℚ) (l : List Nat) (sm : List ℚ) :
    (l.foldl (analyzeSmoothStep maxVal s sp) sm).length = sm.length := by
  induction l generalizing sm with
  | nil => rfl
  | cons i l ih =>
    rw [List.foldl_cons, ih]
    exact List.length_set _ _ _

theorem foldl_scale_length (fr : List ℚ) (sens : ℚ) (norm : Bool) (l : List Nat)
    (acc : ℚ × List ℚ) :
    (l.foldl (analyzeScaleStep fr sens norm) acc).2.length = acc.2.length := by
  induction l generalizing acc with
  | nil => rfl
  | cons i l ih =>
    rw [List.foldl_cons, ih]
    exact List.length_set _ _ _

/-- The two spectrum arrays have the same size after construction, and `analyzeAudio`
keeps them so: after a tick with a non-empty transform output both have the size of
the processed spectrum. -/
theorem analyzeAudio_lengths (self : AudioReactivityManager) (fr : List ℚ) (hne : fr ≠ [])
    (hlen : self.fftSmoothed.length = self.fftSpectrum.length) :
    (analyzeAudio self fr).fftSpectrum.length = spectrumSize fr
    ∧ (analyzeAudio self fr).fftSmoothed.length = spectrumSize fr := by
  rw [analyzeAudio_eq self fr hne]
  simp only
  rw [foldl_scale_length, foldl_smooth_length]
  refine ⟨analyzeAudio_spectrum_length _ _, ?_⟩
  by_cases hres : self.fftSpectrum.length ≠ spectrumSize fr
  · rw [if_pos hres, resize_length]
  · rw [if_neg hres, hlen]
    exact not_not.mp hres

/-! ### Binary32: the clamp of a mapping -/

/-- The clamp in binary32 returns NaN for NaN and a value between the bounds for every
other float, the infinities included. -/
theorem ofClampF32_cases (v : FloatVal) (lo hi : ℚ) (h : lo ≤ hi) :
    (v = FloatVal.nan →
      ofClampF32 v (FloatVal.finite lo) (FloatVal.finite hi) = FloatVal.nan)
    ∧ (v ≠ FloatVal.nan →
      ∃ r, ofClampF32 v (FloatVal.finite lo) (FloatVal.finite hi) = FloatVal.finite r
        ∧ lo ≤ r ∧ r ≤ hi) := by
  cases v with
  | nan => exact ⟨fun _ => rfl, fun hne => absurd rfl hne⟩
  | posInf => exact ⟨fun hv => (by cases hv), fun _ => ⟨hi, rfl, h, le_refl _⟩⟩
  | negInf => exact ⟨fun hv => (by cases hv), fun _ => ⟨lo, rfl, le_refl _, h⟩⟩
  | finite q =>
    refine ⟨fun hv => (by cases hv), fun _ => ?_⟩
    by_cases h1 : q < lo
    · exact ⟨lo, by simp [ofClampF32, FloatVal.lt, h1], le_refl _, h⟩
    · by_cases h2 : hi < q
      · exact ⟨hi, by simp [ofClampF32, FloatVal.lt, h1, h2], h, le_refl _⟩
      · exact ⟨q, by simp [ofClampF32, FloatVal.lt, h1, h2], not_lt.mp h1, not_lt.mp h2⟩

/-- C2, counterexample in binary32: for the mapping with `min = -3e38f`, `max = 3e38f`
and scale 1 and the band value 0, the difference `max - min` overflows to `+Inf`, the
product `0 * Inf` is NaN, and `ofClamp` returns NaN: the dispatched value is not in
`[min, max]`. -/
theorem mappedValueF32_nan :
    roundBinary32 float3e38 = FloatVal.finite float3e38
    ∧ -float3e38 ≤ float3e38
    ∧ (FloatVal.finite float3e38).sub (FloatVal.finite (-float3e38)) = FloatVal.posInf
    ∧ ((FloatVal.finite 0).mul (FloatVal.finite 1)).mul FloatVal.posInf = FloatVal.nan
    ∧ mappedValueF32 (FloatVal.finite 0) (FloatVal.finite (-float3e38)) (FloatVal.finite 1)
        (FloatVal.finite float3e38) = FloatVal.nan := by
  refine ⟨by decide!, by decide!, by decide!, by decide!, by decide!⟩

/-- C2, amended: for a mapping with `min ≤ max` and a band in range, with the float
operations taken as exact the value `applyMappings` dispatches lies in `[min, max]`, for
every scale and every smoothed band value. In binary32 the dispatched value is NaN when
the computed output `min + value * scale * (max - min)` is NaN, and lies in `[min, max]`
for every other output, the infinities included. -/
theorem applyMappings_value_within_bounds (self : AudioReactivityManager)
    (pre post : List BandMapping) (m : BandMapping)
    (hm : self.mappings = pre ++ m :: post)
    (h0 : 0 ≤ m.band) (h1 : m.band < self.numBands) (hle : m.min ≤ m.max) :
    applyMappings self =
      post.foldl applyMappingsStep
        (applyParameterValue (pre.foldl applyMappingsStep self) m.paramId
          (ofClamp
            (m.min + self.smoothedBands.getD m.band.toNat 0 * m.scale * (m.max - m.min))
            m.min m.max)
          m.additive)
    ∧ m.min ≤ ofClamp
        (m.min + self.smoothedBands.getD m.band.toNat 0 * m.scale * (m.max - m.min))
        m.min m.max
    ∧ ofClamp
        (m.min + self.smoothedBands.getD m.band.toNat 0 * m.scale * (m.max - m.min))
        m.min m.max ≤ m.max
    ∧ ∀ value scale : FloatVal,
        ((FloatVal.finite m.min).add
            ((value.mul scale).mul ((FloatVal.finite m.max).sub (FloatVal.finite m.min)))
            = FloatVal.nan →
          mappedValueF32 value (FloatVal.finite m.min) scale (FloatVal.finite m.max)
            = FloatVal.nan)
        ∧ ((FloatVal.finite m.min).add
            ((value.mul scale).mul ((FloatVal.finite m.max).sub (FloatVal.finite m.min)))
            ≠ FloatVal.nan →
          ∃ r, mappedValueF32 value (FloatVal.finite m.min) scale (FloatVal.finite m.max)
              = FloatVal.finite r
            ∧ m.min ≤ r ∧ r ≤ m.max) := by
  have key := applyMappings_split self pre post m hm
  rw [step_in_range self pre m h0 h1] at key
  obtain ⟨b1, b2⟩ := ofClamp_bounds
    (m.min + self.smoothedBands.getD m.band.toNat 0 * m.scale * (m.max - m.min)) _ _ hle
  refine ⟨key, b1, b2, fun value scale => ?_⟩
  exact ofClampF32_cases _ m.min m.max hle

/-- Witness of C2: a band value of 7 (above 1) is dispatched inside `[-0.5, 0.5]` by the
`x_displace` mapping, in exact arithmetic and in binary32. -/
theorem applyMappings_value_within_bounds_witness :
    (0 : Int) ≤ xMapping.band
    ∧ xMapping.band
        < (engineWith ParameterManager.new [0, 0, 0, 0, 0, 0, 7, 0] [xMapping]).numBands
    ∧ xMapping.min ≤ xMapping.max
    ∧ ((-1 / 2 : ℚ) ≤ ofClamp (-1 / 2 + 7 * 2 * (1 / 2 - -1 / 2)) (-1 / 2) (1 / 2)
      ∧ ofClamp (-1 / 2 + 7 * 2 * (1 / 2 - -1 / 2)) (-1 / 2) (1 / 2) ≤ (1 / 2 : ℚ))
    ∧ ∃ r, mappedValueF32 (FloatVal.finite 7) (FloatVal.finite (-1 / 2)) (FloatVal.finite 2)
          (FloatVal.finite (1 / 2)) = FloatVal.finite r
        ∧ (-1 / 2 : ℚ) ≤ r ∧ r ≤ 1 / 2 := by
  have h := applyMappings_value_within_bounds
      (engineWith ParameterManager.new [0, 0, 0, 0, 0, 0, 7, 0] [xMapping])
      [] [] xMapping rfl (by decide) (by decide) (by norm_num [xMapping])
  refine ⟨by decide, by decide, by norm_num [xMapping], ⟨h.2.1, h.2.2.1⟩, ?_⟩
  exact (h.2.2.2 (FloatVal.finite 7) (FloatVal.finite 2)).2 (by decide!)

/-! ### Binary32: sample ingestion -/

theorem sanitizeSampleF32_zeroNonFinite (x : FloatVal) :
    sanitizeSampleF32 (zeroNonFinite x) = sanitizeSampleF32 x := by
  cases x <;> rfl

theorem audioInLoopF32_zeroNonFinite (l : List FloatVal) (i : Nat) (buf : List FloatVal)
    (acc : FloatVal) :
    audioInLoopF32 (l.map zeroNonFinite) i buf acc = audioInLoopF32 l i buf acc := by
  induction l generalizing i buf acc with
  | nil => rfl
  | cons x rest ih =>
    simp only [List.map_cons, audioInLoopF32, sanitizeSampleF32_zeroNonFinite, ih]

/-- The sum that the loop of `audioIn` accumulates in binary32. -/
theorem audioInLoopF32_snd (l : List FloatVal) (i : Nat) (buf : List FloatVal)
    (acc : FloatVal) :
    (audioInLoopF32 l i buf acc).2 =
      (l.map zeroNonFinite).foldl (fun sum sample => sum.add (sample.mul sample)) acc := by
  induction l generalizing i buf acc with
  | nil => rfl
  | cons x rest ih =>
    simp only [audioInLoopF32, ih, List.map_cons, List.foldl_cons]
    rfl

/-- The buffer that the loop of `audioIn` leaves in binary32: the entries from `i` on
receive the sanitized samples, the others are kept. -/
theorem audioInLoopF32_fst (l : List FloatVal) (i : Nat) (buf : List FloatVal)
    (acc : FloatVal) (j : Nat) :
    (audioInLoopF32 l i buf acc).1[j]? =
      if i ≤ j ∧ j < i + l.length then
        buf[j]?.map fun _ => zeroNonFinite (l.getD (j - i) (FloatVal.finite 0))
      else buf[j]? := by
  induction l generalizing i buf acc with
  | nil =>
    have hc : ¬ (i ≤ j ∧ j < i + ([] : List FloatVal).length) := by
      simp only [List.length_nil, add_zero]
      omega
    rw [if_neg hc]
    rfl
  | cons x rest ih =>
    show (audioInLoopF32 rest (i + 1) (buf.set i (sanitizeSampleF32 x))
      (acc.add ((sanitizeSampleF32 x).mul (sanitizeSampleF32 x)))).1[j]? = _
    rw [ih]
    by_cases hij : i = j
    · subst hij
      have hc1 : ¬ (i + 1 ≤ i ∧ i < i + 1 + rest.length) := by omega
      have hc2 : i ≤ i ∧ i < i + (x :: rest).length := by
        simp only [List.length_cons]
        omega
      rw [if_neg hc1, if_pos hc2, List.getElem?_set_self', Nat.sub_self]
      cases buf[i]? <;> rfl
    · rw [List.getElem?_set_ne hij]
      by_cases hc : i + 1 ≤ j ∧ j < i + 1 + rest.length
      · have hc2 : i ≤ j ∧ j < i + (x :: rest).length := by
          simp only [List.length_cons]
          omega
        have hsub : j - i = (j - (i + 1)) + 1 := by omega
        rw [if_pos hc, if_pos hc2, hsub]
        rfl
      · have hc2 : ¬ (i ≤ j ∧ j < i + (x :: rest).length) := by
          simp only [List.length_cons]
          omega
        rw [if_neg hc, if_neg hc2]

theorem resizeF32_length (v : List FloatVal) (n : Nat) : (resizeF32 v n).length = n := by
  unfold resizeF32
  rw [List.length_append, List.length_take, List.length_replicate]
  omega

/-- C7, counterexample in binary32: for the block of three samples `0.10877647f` the
reported level is `0.10877648f`, above the largest sample; for the block of the single
finite sample `1e20f` the square overflows and the reported level is `+Inf`. -/
theorem audioInF32_level_above_max :
    roundBinary32 float0108 = FloatVal.finite float0108
    ∧ (audioInF32 constructedF32
        [FloatVal.finite float0108, FloatVal.finite float0108, FloatVal.finite float0108]
        ).audioInputLevel = FloatVal.finite (3649933 / 33554432)
    ∧ float0108 < 3649933 / 33554432
    ∧ roundBinary32 float1e20 = FloatVal.finite float1e20
    ∧ (audioInF32 constructedF32 [FloatVal.finite float1e20]).audioInputLevel
        = FloatVal.posInf := by
  refine ⟨by decide!, by decide!, by decide!, by decide!, by decide!⟩

/-- The buffer that the loop of `audioIn` starts from has `bufferSize` entries. -/
theorem audioInF32_prepared_length (self : AudioReactivityManagerF32) :
    (if self.audioBuffer.length ≠ self.bufferSize then
        resizeF32 self.audioBuffer self.bufferSize
      else self.audioBuffer).length = self.bufferSize := by
  by_cases h : self.audioBuffer.length ≠ self.bufferSize
  · rw [if_pos h, resizeF32_length]
  · rw [if_neg h]
    exact not_not.mp h

/-- C8: in binary32, for every engine state and every sample block, `audioIn` produces
the same state (input level, working buffer, signal handed to the transform) as for
the block with every NaN or infinite sample replaced by 0; replacing again changes
nothing and the replaced block holds only finite samples. The working buffer receives
the replaced samples, the level of a non-empty block is the rounded square root of the
rounded mean of their squares, and the transform receives the working buffer. -/
theorem audioInF32_sanitizes (self : AudioReactivityManagerF32) (input : List FloatVal) :
    audioInF32 self input = audioInF32 self (input.map zeroNonFinite)
    ∧ (input.map zeroNonFinite).map zeroNonFinite = input.map zeroNonFinite
    ∧ (∀ x ∈ input.map zeroNonFinite, x.isnan = false ∧ x.isinf = false)
    ∧ (∀ (j : Nat) (x : FloatVal), j < min input.length self.bufferSize →
        input[j]? = some x →
        (audioInF32 self input).audioBuffer[j]? = some (zeroNonFinite x))
    ∧ (input ≠ [] →
        (audioInF32 self input).audioInputLevel =
          ((sumSquaresF32 ((input.take (min input.length self.bufferSize)).map
              zeroNonFinite)).div
            (roundBinary32 ((min input.length self.bufferSize : Nat) : ℚ))).sqrt)
    ∧ (input ≠ [] →
        (audioInF32 self input).fft = self.fft.map fun fft =>
          { fft with signal := (audioInF32 self input).audioBuffer.take fft.signalSize })
    := by
  refine ⟨?_, ?_, ?_, ?_, ?_, ?_⟩
  · unfold audioInF32
    simp only [List.length_map, ← List.map_take, audioInLoopF32_zeroNonFinite]
  · rw [List.map_map]
    apply List.map_congr_left
    intro x _
    exact zeroNonFinite_idem x
  · intro x hx
    obtain ⟨y, _, rfl⟩ := List.mem_map.mp hx
    cases y <;> exact ⟨rfl, rfl⟩
  · intro j x hj hx
    have hne : ¬ input.length = 0 := by omega
    unfold audioInF32
    rw [if_neg hne]
    simp only
    rw [audioInLoopF32_fst]
    have hlen := audioInF32_prepared_length self
    have hc : 0 ≤ j ∧ j < 0 + (input.take (min input.length self.bufferSize)).length := by
      rw [List.length_take]
      omega
    rw [if_pos hc, List.getElem?_eq_getElem (by rw [hlen]; omega)]
    have hget : (input.take (min input.length self.bufferSize)).getD (j - 0)
        (FloatVal.finite 0) = x := by
      rw [Nat.sub_zero, List.getD_eq_getElem?_getD, List.getElem?_take_of_lt hj, hx]
      rfl
    rw [hget]
    rfl
  · intro hne
    have hne2 : ¬ input.length = 0 := by
      intro h
      exact hne (List.length_eq_zero.mp h)
    unfold audioInF32
    rw [if_neg hne2]
    simp only [audioInLoopF32_snd]
    rfl
  · intro hne
    have hne2 : ¬ input.length = 0 := by
      intro h
      exact hne (List.length_eq_zero.mp h)
    unfold audioInF32
    rw [if_neg hne2]

/-- C8 at the constructed engine and the block `[NaN, 0.5, +Inf]`: the state is the one
for `[0, 0.5, 0]`, the buffer starts with 0, 0.5, 0 and the level is the float
`0.28867513`. -/
theorem audioInF32_sanitizes_witness :
    audioInF32 constructedF32 [FloatVal.nan, FloatVal.finite (1 / 2), FloatVal.posInf]
      = audioInF32 constructedF32
          [FloatVal.finite 0, FloatVal.finite (1 / 2), FloatVal.finite 0]
    ∧ (audioInF32 constructedF32
        [FloatVal.nan, FloatVal.finite (1 / 2), FloatVal.posInf]).audioBuffer.take 3
      = [FloatVal.finite 0, FloatVal.finite (1 / 2), FloatVal.finite 0]
    ∧ (audioInF32 constructedF32
        [FloatVal.nan, FloatVal.finite (1 / 2), FloatVal.posInf]).audioInputLevel
      = FloatVal.finite (4843165 / 16777216) :=
  ⟨(audioInF32_sanitizes constructedF32
      [FloatVal.nan, FloatVal.finite (1 / 2), FloatVal.posInf]).1,
    by decide!, by decide!⟩

/-! ### Binary32: band smoothing -/

/-- C10, counterexample in binary32: the smoothing coefficient 0.99 is stored as the float
`0.99f`. With the band average 4, a tick from the band value `3.9999878` moves it by
`2.38e-7`, more than `0.01 * |a - old| = 1.22e-7`, to `3.9999881`; a tick from there
changes nothing, although the distance to the average is not 0. -/
theorem smoothBandF32_stalls :
    roundBinary32 (99 / 100) = FloatVal.finite float099
    ∧ roundBinary32 (16777165 / 4194304) = FloatVal.finite (16777165 / 4194304)
    ∧ smoothBandF32 (FloatVal.finite 4) (FloatVal.finite (16777165 / 4194304))
        (FloatVal.finite float099) = FloatVal.finite (8388583 / 2097152)
    ∧ (1 / 100 : ℚ) * |4 - 16777165 / 4194304| < |8388583 / 2097152 - 16777165 / 4194304|
    ∧ smoothBandF32 (FloatVal.finite 4) (FloatVal.finite (8388583 / 2097152))
        (FloatVal.finite float099) = FloatVal.finite (8388583 / 2097152)
    ∧ (8388583 / 2097152 : ℚ) ≠ 4 := by
  refine ⟨by decide!, by decide!, by decide!, by norm_num [abs_of_pos], by decide!,
    by norm_num⟩

/-! ### Binary32: spectrum analysis -/

/-- C27, counterexample in binary32: with normalization enabled, the constructed engine
(smoothing `0.85f`, zeroed spectrum) and the transform output `[0.5, 0.594970703125]`,
`analyzeAudio` yields `fftSmoothed[0] = 7109187 / 2^26` for the sensitivity 1 and
`fftSmoothed[0] = 14218373 / 2^27` for the sensitivity 3. -/
theorem analyzeAudioF32_depends_on_sensitivity :
    roundBinary32 (2437 / 4096) = FloatVal.finite (2437 / 4096)
    ∧ constructedF32.normalizationEnabled = true
    ∧ (analyzeAudioF32 { constructedF32 with sensitivity := FloatVal.finite 1 }
        [FloatVal.finite (1 / 2), FloatVal.finite (2437 / 4096)]).fftSmoothed
      = [FloatVal.finite (7109187 / 67108864), FloatVal.finite (1258291 / 8388608)]
    ∧ (analyzeAudioF32 { constructedF32 with sensitivity := FloatVal.finite 3 }
        [FloatVal.finite (1 / 2), FloatVal.finite (2437 / 4096)]).fftSmoothed
      = [FloatVal.finite (14218373 / 134217728), FloatVal.finite (1258291 / 8388608)]
    ∧ (7109187 / 67108864 : ℚ) ≠ 14218373 / 134217728 := by
  refine ⟨by decide!, rfl, by decide!, by decide!, by norm_num⟩

/-! ### Bands without a range -/

/-- C9, counterexample: in the engine `rangelessBandEngine` (4 bands, one range,
smoothing 0.85) band 1 has the smoothed energy 1 and the raw energy 2. One `groupBands`
tick leaves both as they are. With `average = bands[1] = 2` the claimed new value of
`smoothedBands[1]` is `2 * 0.15 + 1 * 0.85 = 1.15`, not 1. -/
theorem groupBands_skips_rangeless_band :
    rangelessBandEngine.map (fun s => s.numBands) = some 4
    ∧ rangelessBandEngine.map (fun s => s.bandRanges.length) = some 1
    ∧ rangelessBandEngine.map (fun s => s.smoothing) = some (85 / 100)
    ∧ rangelessBandEngine.map (fun s => s.smoothedBands[1]?) = some (some 1)
    ∧ rangelessBandEngine.map (fun s => s.bands[1]?) = some (some 2)
    ∧ rangelessBandEngine.map (fun s => (groupBands s).smoothedBands[1]?) = some (some 1)
    ∧ rangelessBandEngine.map (fun s => (groupBands s).bands[1]?) = some (some 2)
    ∧ (2 : ℚ) * (1 - 85 / 100) + 1 * (85 / 100) ≠ 1 := by
  refine ⟨by decide!, by decide!, by decide!, by decide!, by decide!, by decide!,
    by decide!, by norm_num⟩

/-! ### Device scans -/

/-- C18, amended: for every engine state and every enumeration, a device scan with
`listAudioDevices` replaces the device list and nothing else: the session flag
`audioInputInitialized`, the stream with its device, the current device index and the
enabled flag are unchanged, whether or not the device of the open session is in the new
list. -/
theorem listAudioDevices_frame (self : AudioReactivityManager)
    (devices : List OfSoundDevice) :
    (listAudioDevices self devices).deviceList = devices
    ∧ (listAudioDevices self devices).audioInputInitialized = self.audioInputInitialized
    ∧ (listAudioDevices self devices).soundStream = self.soundStream
    ∧ (listAudioDevices self devices).currentDeviceIndex = self.currentDeviceIndex
    ∧ (listAudioDevices self devices).enabled = self.enabled :=
  ⟨rfl, rfl, rfl, rfl, rfl⟩

/-! ### Binary32: the sign of the input level -/

theorem pow2_pos (e : Int) : 0 < pow2 e := by
  unfold pow2
  split_ifs <;> positivity

theorem roundHalfEven_nonneg (n : ℚ) (h : 0 ≤ n) : 0 ≤ roundHalfEven n := by
  have hf : 0 ≤ ⌊n⌋ := Int.floor_nonneg.mpr h
  unfold roundHalfEven
  simp only
  split_ifs <;> omega

/-- Rounding keeps zero and does not make a non-negative value negative or NaN. -/
theorem roundBinary_nonneg (p : Nat) (emin emax : Int) (q : ℚ) (h : 0 ≤ q) :
    (roundBinary p emin emax q).IsNonnegOrInf := by
  unfold roundBinary
  by_cases h0 : q = 0
  · rw [if_pos h0]
    exact Or.inr ⟨0, le_refl _, rfl⟩
  · rw [if_neg h0]
    have hneg : ¬ q < 0 := not_lt.mpr h
    simp only [hneg, if_false]
    split_ifs
    · exact Or.inl rfl
    · refine Or.inr ⟨_, ?_, rfl⟩
      apply mul_nonneg
      · exact_mod_cast roundHalfEven_nonneg _ (div_nonneg h (le_of_lt (pow2_pos _)))
      · exact le_of_lt (pow2_pos _)

theorem roundBinary_zero (p : Nat) (emin emax : Int) :
    roundBinary p emin emax 0 = FloatVal.finite 0 := by
  unfold roundBinary
  rw [if_pos rfl]

theorem add_isNonnegOrInf (a b : FloatVal) (ha : a.IsNonnegOrInf) (hb : b.IsNonnegOrInf) :
    (a.add b).IsNonnegOrInf := by
  rcases ha with rfl | ⟨r, hr, rfl⟩ <;> rcases hb with rfl | ⟨s, hs, rfl⟩
  · exact Or.inl rfl
  · exact Or.inl rfl
  · exact Or.inl rfl
  · exact roundBinary_nonneg _ _ _ _ (add_nonneg hr hs)

/-- The sum of squares of finite samples, accumulated in binary32, is not NaN and not
negative. -/
theorem foldl_squares_isNonnegOrInf (l : List FloatVal) (hl : ∀ x ∈ l, ∃ q, x = FloatVal.finite q)
    (acc : FloatVal) (hacc : acc.IsNonnegOrInf) :
    (l.foldl (fun sum sample => sum.add (sample.mul sample)) acc).IsNonnegOrInf := by
  induction l generalizing acc with
  | nil => exact hacc
  | cons x rest ih =>
    rw [List.foldl_cons]
    apply ih (fun y hy => hl y (List.mem_cons_of_mem _ hy))
    obtain ⟨q, rfl⟩ := hl x (List.mem_cons_self _ _)
    exact add_isNonnegOrInf _ _ hacc (roundBinary_nonneg _ _ _ _ (mul_self_nonneg q))

theorem div_isNonnegOrInf (a : FloatVal) (ha : a.IsNonnegOrInf) (n : ℚ) (hn : 0 < n) :
    (a.div (FloatVal.finite n)).IsNonnegOrInf := by
  rcases ha with rfl | ⟨r, hr, rfl⟩
  · refine Or.inl ?_
    have hn2 : ¬ n < 0 := not_lt.mpr (le_of_lt hn)
    simp [FloatVal.div, FloatVal.sign, hn2]
  · have hn0 : n ≠ 0 := ne_of_gt hn
    show (if n = 0 then _ else roundBinary32 (r / n)).IsNonnegOrInf
    rw [if_neg hn0]
    exact roundBinary_nonneg _ _ _ _ (div_nonneg hr (le_of_lt hn))

theorem sqrt_isNonnegOrInf (a : FloatVal) (ha : a.IsNonnegOrInf) : a.sqrt.IsNonnegOrInf := by
  rcases ha with rfl | ⟨r, hr, rfl⟩
  · exact Or.inl rfl
  · show (if r < 0 then _ else if r = 0 then _ else sqrtBinary32 r).IsNonnegOrInf
    rw [if_neg (not_lt.mpr hr)]
    by_cases h0 : r = 0
    · rw [if_pos h0]
      exact Or.inr ⟨0, le_refl _, rfl⟩
    · rw [if_neg h0]
      unfold sqrtBinary32
      simp only
      split_ifs
      · exact roundBinary_nonneg _ _ _ _ (by positivity)
      · exact roundBinary_nonneg _ _ _ _ (by positivity)

/-- The squares of zero samples add up to zero in binary32. -/
theorem foldl_squares_zero (l : List FloatVal) (hl : ∀ x ∈ l, x = FloatVal.finite 0) :
    l.foldl (fun sum sample => sum.add (sample.mul sample)) (FloatVal.finite 0)
      = FloatVal.finite 0 := by
  induction l with
  | nil => rfl
  | cons x rest ih =>
    rw [List.foldl_cons, hl x (List.mem_cons_self _ _)]
    have hm : (FloatVal.finite 0).mul (FloatVal.finite 0) = FloatVal.finite 0 := by
      show roundBinary32 (0 * 0) = _
      rw [mul_zero]
      exact roundBinary_zero _ _ _
    have hstep : (FloatVal.finite 0).add ((FloatVal.finite 0).mul (FloatVal.finite 0))
        = FloatVal.finite 0 := by
      rw [hm]
      show roundBinary32 (0 + 0) = _
      rw [add_zero]
      exact roundBinary_zero _ _ _
    rw [hstep]
    exact ih (fun y hy => hl y (List.mem_cons_of_mem _ hy))

/-- The level that `audioIn` reports for a non-empty block in binary32. -/
theorem audioInF32_level (self : AudioReactivityManagerF32) (input : List FloatVal)
    (hne : input ≠ []) :
    (audioInF32 self input).audioInputLevel =
      ((sumSquaresF32 ((input.take (min input.length self.bufferSize)).map
          zeroNonFinite)).div
        (roundBinary32 ((min input.length self.bufferSize : Nat) : ℚ))).sqrt := by
  have hne2 : ¬ input.length = 0 := by
    intro h
    exact hne (List.length_eq_zero.mp h)
  unfold audioInF32
  rw [if_neg hne2]
  simp only [audioInLoopF32_snd]
  rfl

/-- C7, amended: for a non-empty block of finite samples, with the float operations taken
as exact the level `audioIn` reports is the square root of the mean of the squared
samples processed, it satisfies `0 ≤ level ≤ max |sample|` and is 0 when every sample
is 0. In binary32, for a sample count that is a float, the reported level is not NaN
and not negative (a finite value from 0 on, or `+Inf`), and it is 0 when every sample
is 0. -/
theorem audioIn_level_bounds (self : AudioReactivityManager)
    (selfF : AudioReactivityManagerF32) (input : List FloatVal)
    (hbuf : 0 < self.bufferSize) (hbufF : 0 < selfF.bufferSize) (hne : input ≠ [])
    (hfin : ∀ x ∈ input, x.isnan = false ∧ x.isinf = false)
    (hcount : roundBinary32 ((min input.length selfF.bufferSize : Nat) : ℚ)
      = FloatVal.finite ((min input.length selfF.bufferSize : Nat) : ℚ)) :
    ((audioIn self input).audioInputLevel.radicand =
        ((input.take (min input.length self.bufferSize)).map fun x => x.toRat * x.toRat).sum
          / ((min input.length self.bufferSize : Nat) : ℚ)
      ∧ 0 ≤ (audioIn self input).audioInputLevel.radicand
      ∧ 0 ≤ Real.sqrt (((audioIn self input).audioInputLevel.radicand : ℚ) : ℝ)
      ∧ Real.sqrt (((audioIn self input).audioInputLevel.radicand : ℚ) : ℝ)
          ≤ ((maxAbs input : ℚ) : ℝ)
      ∧ ((∀ x ∈ input, x.toRat = 0) →
          Real.sqrt (((audioIn self input).audioInputLevel.radicand : ℚ) : ℝ) = 0))
    ∧ (audioInF32 selfF input).audioInputLevel.IsNonnegOrInf
    ∧ ((∀ x ∈ input, x.toRat = 0) →
        (audioInF32 selfF input).audioInputLevel = FloatVal.finite 0) := by
  have hlen : 0 < input.length := List.length_pos.mpr hne
  have hn : 0 < min input.length selfF.bufferSize := lt_min hlen hbufF
  have hnq : (0 : ℚ) < ((min input.length selfF.bufferSize : Nat) : ℚ) := by
    exact_mod_cast hn
  have hfinite : ∀ x ∈ input, ∃ q, x = FloatVal.finite q := by
    intro x hx
    obtain ⟨h1, h2⟩ := hfin x hx
    cases x with
    | finite q => exact ⟨q, rfl⟩
    | nan => cases h1
    | posInf => cases h2
    | negInf => cases h2
  refine ⟨audioIn_level_exact self input hbuf hne hfin, ?_, ?_⟩
  · rw [audioInF32_level selfF input hne, hcount]
    apply sqrt_isNonnegOrInf
    apply div_isNonnegOrInf _ _ _ hnq
    apply foldl_squares_isNonnegOrInf
    · intro x hx
      obtain ⟨y, hy, rfl⟩ := List.mem_map.mp hx
      obtain ⟨q, rfl⟩ := hfinite y (List.mem_of_mem_take hy)
      exact ⟨q, rfl⟩
    · exact Or.inr ⟨0, le_refl _, rfl⟩
  · intro hzero
    rw [audioInF32_level selfF input hne, hcount]
    have hsum : sumSquaresF32 ((input.take (min input.length selfF.bufferSize)).map
        zeroNonFinite) = FloatVal.finite 0 := by
      apply foldl_squares_zero
      intro x hx
      obtain ⟨y, hy, rfl⟩ := List.mem_map.mp hx
      obtain ⟨q, rfl⟩ := hfinite y (List.mem_of_mem_take hy)
      have hq : q = 0 := hzero _ (List.mem_of_mem_take hy)
      rw [hq]
      rfl
    rw [hsum]
    have hdiv : (FloatVal.finite 0).div
        (FloatVal.finite ((min input.length selfF.bufferSize : Nat) : ℚ))
        = FloatVal.finite 0 := by
      show (if ((min input.length selfF.bufferSize : Nat) : ℚ) = 0 then _
        else roundBinary32 (0 / _)) = _
      rw [if_neg (ne_of_gt hnq), zero_div]
      exact roundBinary_zero _ _ _
    rw [hdiv]
    simp [FloatVal.sqrt]

/-- C7, amended, at the block `[0.6, -0.8]`: with exact arithmetic the mean square is 0.5
and the level is at most the largest sample; in binary32 the level is not NaN and not
negative. -/
theorem audioIn_level_bounds_witness :
    (audioIn (AudioReactivityManager.new [])
        [FloatVal.finite (3 / 5), FloatVal.finite (-4 / 5)]).audioInputLevel.radicand = 1 / 2
    ∧ Real.sqrt (((audioIn (AudioReactivityManager.new [])
        [FloatVal.finite (3 / 5), FloatVal.finite (-4 / 5)]).audioInputLevel.radicand : ℚ) : ℝ)
      ≤ ((maxAbs [FloatVal.finite (3 / 5), FloatVal.finite (-4 / 5)] : ℚ) : ℝ)
    ∧ (audioInF32 constructedF32
        [FloatVal.finite (3 / 5), FloatVal.finite (-4 / 5)]).audioInputLevel.IsNonnegOrInf := by
  have h := audioIn_level_bounds (AudioReactivityManager.new []) constructedF32
    [FloatVal.finite (3 / 5), FloatVal.finite (-4 / 5)]
    (by show 0 < 1024; decide) (by show 0 < 1024; decide) (by simp)
    (by
      intro x hx
      simp only [List.mem_cons, List.mem_singleton, List.not_mem_nil, or_false] at hx
      rcases hx with rfl | rfl <;> exact ⟨rfl, rfl⟩)
    (by decide!)
  refine ⟨?_, h.1.2.2.2.1, h.2.1⟩
  rw [h.1.1]
  have hb : (AudioReactivityManager.new []).bufferSize = 1024 := rfl
  rw [hb]
  simp [FloatVal.toRat]
  norm_num

end SputnikMesh
